import Mathlib

/-!
# cunumeric: operation-to-kernel layer

A shallow embedding of

* `NDArray::broadcast` and the methods of `NDArray` that build and submit
  tasks (`src/cunumeric/ndarray.cc`),
* the `BinaryOpCode` dispatch, the `BinaryOp<OP, TYPE>::valid` table and the
  `MOD`, `FLOOR_DIVIDE`, `MAXIMUM` and `MINIMUM` functors (`src/binary_op.h`),
  with `real_mod` in the floating-point arithmetic of its element types,
* the CPU `where` kernel (`src/ternary/where.cc`),

followed by the properties established about them.
-/

set_option autoImplicit false

namespace cunumeric

/-! ## Logical stores and `NDArray::broadcast` -/

/-- Failures of the store operations and of the debug assertions. -/
inductive StoreError where
  | invalidPromotion
  | invalidProjection
  | projectionOutOfBounds
  | assertionFailed
  | invalidTransposition
  | invalidSlice
  | sliceOutOfBounds
  deriving DecidableEq

/-- Origin of one axis of a view: axis `k` of the backing storage, or a
zero-stride axis inserted by a promotion. -/
inductive AxisSource where
  | backing (k : Nat)
  | broadcasted
  deriving DecidableEq

/-- One axis of a view: its extent and where its elements come from. -/
structure Axis where
  extent : Nat
  source : AxisSource
  deriving DecidableEq

/-- A view transformation recorded on a store. -/
inductive Transform where
  | promote (extra_dim : Nat) (dim_size : Nat)
  | project (dim : Nat) (index : Nat)
  | transpose (axes : List Nat)
  | slice (dim : Nat) (start stop : Nat)
  deriving DecidableEq

/-- Modelled from the spec: the logical-storage handle (`legate::LogicalStore`), which the
repository only consumes. A view is the identity of its backing storage, its
axes in order, and the transformations applied so far (oldest first). -/
structure LogicalStore where
  backing : Nat
  axes : List Axis
  transforms : List Transform
  deriving DecidableEq

namespace LogicalStore

/-- Rank of the view (`store.dim()`). -/
def dim (s : LogicalStore) : Nat := s.axes.length

/-- Shape of the view (`store.extents().data()`). -/
def extents (s : LogicalStore) : List Nat := s.axes.map Axis.extent

/-- Modelled from the spec: `LogicalStore::promote(extra_dim, dim_size)`, absent from the
sources. It inserts a zero-stride axis of extent `dim_size` at position
`extra_dim`; every axis at or after that position moves up by one. It is
rejected when `extra_dim` exceeds the rank. -/
def promote (s : LogicalStore) (extra_dim dim_size : Nat) : Except StoreError LogicalStore :=
  if extra_dim ≤ s.dim then
    .ok { s with
          axes := s.axes.take extra_dim ++ ⟨dim_size, .broadcasted⟩ :: s.axes.drop extra_dim
          transforms := s.transforms ++ [.promote extra_dim dim_size] }
  else .error .invalidPromotion

/-- Modelled from the spec: `LogicalStore::project(dim, index)`, absent from the sources.
It removes axis `dim`, keeping the hyperplane at `index`; it is rejected when
`dim` is not an axis or `index` lies outside the axis. -/
def project (s : LogicalStore) (dim index : Nat) : Except StoreError LogicalStore :=
  match s.axes[dim]? with
  | none => .error .invalidProjection
  | some a =>
    if index < a.extent then
      .ok { s with
            axes := s.axes.take dim ++ s.axes.drop (dim + 1)
            transforms := s.transforms ++ [.project dim index] }
    else .error .projectionOutOfBounds

end LogicalStore

/-- The `assert(c)` of the source under `#ifdef DEBUG_CUNUMERIC`: checked only
in a debug build. -/
def debugAssert (debug c : Bool) : Except StoreError Unit :=
  if debug && !c then .error .assertionFailed else .ok ()

/-- Body of the first loop of `NDArray::broadcast`:
`result = result.promote(dim, shape[dim])`. -/
def promoteStep (shape : List Nat) (result : LogicalStore) (dim : Nat) :
    Except StoreError LogicalStore :=
  result.promote dim (shape.getD dim 0)

/-- Body of the second loop of `NDArray::broadcast`: when
`orig_shape[dim] != shape[dim]`, (in a debug build) assert that
`orig_shape[dim] == 1`, then `result.project(dim, 0).promote(dim, shape[dim])`. -/
def stretchStep (debug : Bool) (shape orig_shape : List Nat) (result : LogicalStore)
    (dim : Nat) : Except StoreError LogicalStore :=
  if orig_shape.getD dim 0 ≠ shape.getD dim 0 then do
    debugAssert debug (orig_shape.getD dim 0 == 1)
    let projected ← result.project dim 0
    projected.promote dim (shape.getD dim 0)
  else .ok result

/-- `NDArray::broadcast(shape, store)` of `ndarray.cc`. `debug` says whether the
build defines `DEBUG_CUNUMERIC`. -/
def broadcast (debug : Bool) (shape : List Nat) (store : LogicalStore) :
    Except StoreError LogicalStore := do
  let diff : Int := (shape.length : Int) - (store.dim : Int)
  debugAssert debug (decide (diff ≥ 0))
  let result ← (List.range diff.toNat).foldlM (promoteStep shape) store
  let orig_shape := result.extents
  let result ← (List.range shape.length).foldlM (stretchStep debug shape orig_shape) result
  debugAssert debug (result.dim == shape.length)
  return result

/-- A store over fresh backing storage `b` with the given extents. -/
def LogicalStore.ofShape (b : Nat) (shape : List Nat) : LogicalStore :=
  { backing := b
    axes := (List.range shape.length).map fun k => ⟨shape.getD k 0, .backing k⟩
    transforms := [] }

/-- The zero-stride axis a promotion inserts. -/
def bcastAxis (n : Nat) : Axis := ⟨n, .broadcasted⟩

/-! ## Operation codes, element types and the `BinaryOp` functors (`binary_op.h`) -/

/-- The `enum class BinaryOpCode : int` of `binary_op.h` (namespace
`legate::numpy`). The enumeration `cunumeric::BinaryOpCode` that `ndarray.cc`
names is another one, declared outside the sources. -/
inductive BinaryOpCode where
  | ADD
  | DIVIDE
  | EQUAL
  | FLOOR_DIVIDE
  | GREATER
  | GREATER_EQUAL
  | LESS
  | LESS_EQUAL
  | MAXIMUM
  | MINIMUM
  | MOD
  | MULTIPLY
  | NOT_EQUAL
  | POWER
  | SUBTRACT
  deriving DecidableEq

/-- The underlying `int` of each enumerator: `ADD = 1`, then consecutive values. -/
def BinaryOpCode.toInt : BinaryOpCode → Int
  | .ADD => 1
  | .DIVIDE => 2
  | .EQUAL => 3
  | .FLOOR_DIVIDE => 4
  | .GREATER => 5
  | .GREATER_EQUAL => 6
  | .LESS => 7
  | .LESS_EQUAL => 8
  | .MAXIMUM => 9
  | .MINIMUM => 10
  | .MOD => 11
  | .MULTIPLY => 12
  | .NOT_EQUAL => 13
  | .POWER => 14
  | .SUBTRACT => 15

/-- Modelled from the spec: the element type tags (`LegateTypeCode`), declared outside the
sources: boolean, signed and unsigned integers of fixed width, reduced- and
full-precision floats, and the two complex variants. -/
inductive LegateTypeCode where
  | BOOL_LT
  | INT8_LT
  | INT16_LT
  | INT32_LT
  | INT64_LT
  | UINT8_LT
  | UINT16_LT
  | UINT32_LT
  | UINT64_LT
  | HALF_LT
  | FLOAT_LT
  | DOUBLE_LT
  | COMPLEX64_LT
  | COMPLEX128_LT
  deriving DecidableEq

/-- How a call of `op_dispatch` left the `switch`: through one of the `case`
labels, through the failing `assert(false)` behind it, or (assertions compiled
out) through the trailing `ADD` instantiation. -/
inductive Dispatched (β : Type) where
  | viaCase (v : β)
  | assertFalse
  | viaDefaultADD (v : β)

/-- `op_dispatch(op_code, f, args...)` of `binary_op.h`. The operation code is
given by its underlying `int`, `f c` is `f.template operator()<c>`, and
`ndebug` says whether `assert` is compiled out. -/
def op_dispatch {α β : Type} (ndebug : Bool) (op_code : Int) (f : BinaryOpCode → α → β)
    (args : α) : Dispatched β :=
  if op_code = BinaryOpCode.ADD.toInt then .viaCase (f .ADD args)
  else if op_code = BinaryOpCode.DIVIDE.toInt then .viaCase (f .DIVIDE args)
  else if op_code = BinaryOpCode.EQUAL.toInt then .viaCase (f .EQUAL args)
  else if op_code = BinaryOpCode.FLOOR_DIVIDE.toInt then .viaCase (f .FLOOR_DIVIDE args)
  else if op_code = BinaryOpCode.GREATER.toInt then .viaCase (f .GREATER args)
  else if op_code = BinaryOpCode.GREATER_EQUAL.toInt then .viaCase (f .GREATER_EQUAL args)
  else if op_code = BinaryOpCode.LESS.toInt then .viaCase (f .LESS args)
  else if op_code = BinaryOpCode.LESS_EQUAL.toInt then .viaCase (f .LESS_EQUAL args)
  else if op_code = BinaryOpCode.MAXIMUM.toInt then .viaCase (f .MAXIMUM args)
  else if op_code = BinaryOpCode.MINIMUM.toInt then .viaCase (f .MINIMUM args)
  else if op_code = BinaryOpCode.MOD.toInt then .viaCase (f .MOD args)
  else if op_code = BinaryOpCode.MULTIPLY.toInt then .viaCase (f .MULTIPLY args)
  else if op_code = BinaryOpCode.NOT_EQUAL.toInt then .viaCase (f .NOT_EQUAL args)
  else if op_code = BinaryOpCode.POWER.toInt then .viaCase (f .POWER args)
  else if op_code = BinaryOpCode.SUBTRACT.toInt then .viaCase (f .SUBTRACT args)
  else if ndebug then .viaDefaultADD (f .ADD args)
  else .assertFalse

/-- `BinaryOp<OP_CODE, CODE>::valid`, by template specialisation: the explicit
specialisations on both arguments come first, then the partial specialisations
on the operation code. All fifteen codes have a partial specialisation, so the
primary template (`valid = false`) is selected for no pair of enumerators. -/
def BinaryOp.valid : BinaryOpCode → LegateTypeCode → Bool
  | .FLOOR_DIVIDE, .COMPLEX64_LT => false
  | .FLOOR_DIVIDE, .COMPLEX128_LT => false
  | .MOD, .HALF_LT => true
  | .MOD, .COMPLEX64_LT => false
  | .MOD, .COMPLEX128_LT => false
  | .POWER, .HALF_LT => true
  | .POWER, .COMPLEX64_LT => true
  | .POWER, .COMPLEX128_LT => true
  | .ADD, _ => true
  | .DIVIDE, _ => true
  | .EQUAL, _ => true
  | .FLOOR_DIVIDE, _ => true
  | .GREATER, _ => true
  | .GREATER_EQUAL, _ => true
  | .LESS, _ => true
  | .LESS_EQUAL, _ => true
  | .MAXIMUM, _ => true
  | .MINIMUM, _ => true
  | .MOD, _ => true
  | .MULTIPLY, _ => true
  | .NOT_EQUAL, _ => true
  | .POWER, _ => true
  | .SUBTRACT, _ => true

/-! ### Real modulo in floating-point arithmetic

`real_mod` is instantiated at `float` and `double`. Their values are modelled
as the numbers of an IEEE 754 binary format with the two zeros, the infinities
and not-a-number; a finite number is kept as the rational it stands for.
`std::fmod` is exact; the addition `res += b` rounds to nearest, ties to even,
in the format of the type. -/

/-- Rounding toward zero. -/
def trunc (q : ℚ) : ℤ := if 0 ≤ q then ⌊q⌋ else ⌈q⌉

/-- A binary format of IEEE 754: `prec` bits of significand, the hidden bit
included, and the largest exponent `emax`; the smallest exponent of a normal
number is `1 - emax`. -/
structure FloatFormat where
  prec : Nat
  emax : Int
  deriving DecidableEq

/-- The format of `float`. -/
def binary32 : FloatFormat := { prec := 24, emax := 127 }

namespace FloatFormat

end FloatFormat

namespace FloatVal

end FloatVal

/-- `std::is_integral<legate_type_of<CODE>>::value`. -/
def LegateTypeCode.isIntegral : LegateTypeCode → Bool
  | .BOOL_LT | .INT8_LT | .INT16_LT | .INT32_LT | .INT64_LT => true
  | .UINT8_LT | .UINT16_LT | .UINT32_LT | .UINT64_LT => true
  | _ => false

/-- Least value of an integral element type (0 for the others). -/
def LegateTypeCode.minVal : LegateTypeCode → Int
  | .INT8_LT => -(2 ^ 7)
  | .INT16_LT => -(2 ^ 15)
  | .INT32_LT => -(2 ^ 31)
  | .INT64_LT => -(2 ^ 63)
  | _ => 0

/-- Greatest value of an integral element type (0 for the others). -/
def LegateTypeCode.maxVal : LegateTypeCode → Int
  | .BOOL_LT => 1
  | .INT8_LT => 2 ^ 7 - 1
  | .INT16_LT => 2 ^ 15 - 1
  | .INT32_LT => 2 ^ 31 - 1
  | .INT64_LT => 2 ^ 63 - 1
  | .UINT8_LT => 2 ^ 8 - 1
  | .UINT16_LT => 2 ^ 16 - 1
  | .UINT32_LT => 2 ^ 32 - 1
  | .UINT64_LT => 2 ^ 64 - 1
  | _ => 0

/-- Whether `x` is a value of the integral type `t`. -/
def LegateTypeCode.holds (t : LegateTypeCode) (x : Int) : Bool :=
  decide (t.minVal ≤ x) && decide (x ≤ t.maxVal)

/-- The type in which C++ evaluates `a / b` and `a % b` for operands of type
`t`: operands narrower than `int` are promoted to `int`. -/
def LegateTypeCode.promoted : LegateTypeCode → LegateTypeCode
  | .BOOL_LT | .INT8_LT | .INT16_LT | .UINT8_LT | .UINT16_LT => .INT32_LT
  | t => t

/-- Conversion of an integer back to the integral type `t`: non-zero to `true`
for `bool`, reduction modulo `2^w` otherwise. -/
def LegateTypeCode.narrow (t : LegateTypeCode) (x : Int) : Int :=
  match t with
  | .BOOL_LT => if x = 0 then 0 else 1
  | _ =>
    let m := t.maxVal - t.minVal + 1
    (x - t.minVal) % m + t.minVal

/-- The built-in `a / b` on operands of integral type `t`: the quotient rounded
toward zero, in the promoted type; undefined (`none`) for a zero divisor and
when the quotient is not a value of the promoted type. -/
def cdiv (t : LegateTypeCode) (a b : Int) : Option Int :=
  if b = 0 then none
  else if t.promoted.holds (Int.tdiv a b) then some (Int.tdiv a b)
  else none

/-- The built-in `a % b` on operands of integral type `t`: the remainder of the
division rounded toward zero; undefined wherever `a / b` is. -/
def cmod (t : LegateTypeCode) (a b : Int) : Option Int :=
  match cdiv t a b with
  | none => none
  | some _ => some (Int.tmod a b)

/-- `BinaryOp<MOD, CODE>::operator()` for an integral element type:
`return a % b;`, converted to the element type. -/
def MOD_integral (t : LegateTypeCode) (a b : Int) : Option Int :=
  (cmod t a b).map t.narrow

/-- Conversion of an integer to `double`: exact below `2^53` in magnitude,
otherwise rounded to 53 significant bits, ties to even. -/
def toDouble (x : Int) : ℚ :=
  let n := x.natAbs
  if n < 2 ^ 53 then (x : ℚ)
  else
    let e := Nat.log2 n - 52
    let q := n / 2 ^ e
    let r := n % 2 ^ e
    let half := 2 ^ (e - 1)
    let m := if r > half ∨ (r = half ∧ q % 2 = 1) then q + 1 else q
    ((Int.sign x * (m * 2 ^ e : Nat) : Int) : ℚ)

/-- Conversion of a `double` holding an integer back to the integral type `t`:
non-zero to `true` for `bool`; otherwise undefined (`none`) when the value is
not one of the type. -/
def fromDouble (t : LegateTypeCode) (d : Int) : Option Int :=
  match t with
  | .BOOL_LT => some (if d = 0 then 0 else 1)
  | _ => if t.holds d then some d else none

/-- `BinaryOp<FLOOR_DIVIDE, CODE>::operator()` for an integral element type:
`return floor(a / b);`. The quotient `a / b` is the built-in integer division;
`floor` takes it as a `double`, and the result is converted back. -/
def FLOOR_DIVIDE_integral (t : LegateTypeCode) (a b : Int) : Option Int :=
  match cdiv t a b with
  | none => none
  | some q => fromDouble t ⌊toDouble q⌋


/-- `std::max<T>(a, b)` of the standard library over the order `lt` of `T`:
`(a < b) ? b : a`. -/
def std_max {α : Type} (lt : α → α → Bool) (a b : α) : α := if lt a b then b else a

/-- `std::min<T>(a, b)` of the standard library over the order `lt` of `T`:
`(b < a) ? b : a`. -/
def std_min {α : Type} (lt : α → α → Bool) (a b : α) : α := if lt b a then b else a

/-- `BinaryOp<MAXIMUM, CODE>::operator()` for an integral element type:
`return std::max<T>(a, b);`. -/
def MAXIMUM_integral (_t : LegateTypeCode) (a b : Int) : Int :=
  std_max (fun x y => decide (x < y)) a b

/-- `BinaryOp<MINIMUM, CODE>::operator()` for an integral element type:
`return std::min<T>(a, b);`. -/
def MINIMUM_integral (_t : LegateTypeCode) (a b : Int) : Int :=
  std_min (fun x y => decide (x < y)) a b

/-! ## The `where` kernel (`ternary/where.cc`) -/

/-- A `Point<DIM>`: one coordinate per axis. -/
abbrev Point := List Int

/-- A `Rect<DIM>`: the points between `lo` and `hi`, both included. -/
structure Rect where
  lo : Point
  hi : Point

/-- Number of coordinates between `l` and `h`, both included. -/
def axisExtent (l h : Int) : Nat := (h - l + 1).toNat

/-- The extents of a rectangle, axis by axis. -/
def Rect.extents (r : Rect) : List Nat := List.zipWith axisExtent r.lo r.hi

/-- Loop of `Rect<DIM>::volume()`: the product of `hi[i] - lo[i] + 1`, or zero
as soon as an axis is empty. -/
def volumeLoop : List Int → List Int → Nat
  | l :: ls, h :: hs => if l > h then 0 else axisExtent l h * volumeLoop ls hs
  | _, _ => 1

/-- Modelled from the spec: `Rect<DIM>::volume()`, the number of points of the rectangle. -/
def Rect.volume (r : Rect) : Nat := volumeLoop r.lo r.hi

/-- Whether the coordinates `p` lie between `lo` and `hi` on every axis. -/
def containsLoop : List Int → List Int → Point → Bool
  | l :: ls, h :: hs, c :: cs => decide (l ≤ c) && decide (c ≤ h) && containsLoop ls hs cs
  | [], [], [] => true
  | _, _, _ => false

/-- Membership of a point in a rectangle of the same dimension. -/
def Rect.contains (r : Rect) (p : Point) : Bool := containsLoop r.lo r.hi p

/-- The pitch of every axis but the last, from the extents: the number of points
in one step along that axis, that is the product of the extents after it. -/
def rowPitches : List Nat → List Nat
  | [] => []
  | [_] => []
  | _ :: e :: es => (e :: es).prod :: rowPitches (e :: es)

/-- Modelled from the spec: the per-axis pitches of a rectangle (`Pitches<DIM - 1>::flatten`),
which the caller of the kernel precomputes. -/
def Rect.pitches (r : Rect) : List Nat := rowPitches r.extents

/-- Modelled from the spec: `Pitches<DIM - 1>::unflatten(index, lo)`: starting from `lo`, every
axis but the last advances by `index / pitch` and leaves `index % pitch` to the
axes after it; the last axis advances by what is left. -/
def unflatten : List Nat → Nat → Point → Point
  | p :: ps, index, l :: ls => (l + ((index / p : Nat) : Int)) :: unflatten ps (index % p) ls
  | [], index, l :: ls => (l + (index : Int)) :: ls
  | _, _, [] => []

/-- Modelled from the spec: an accessor (`AccessorRO` / `AccessorWO`) onto a backing buffer:
the element at point `p` lives at address `base + Σ strides[d] * p[d]`, counted
in elements. -/
structure Accessor (α : Type) where
  mem : Int → α
  base : Int
  strides : List Int

namespace Accessor

variable {α : Type}

/-- Address of the element at point `p`. -/
def addr (acc : Accessor α) (p : Point) : Int :=
  acc.base + (List.zipWith (fun s c => s * c) acc.strides p).sum

/-- The read `acc[p]`. -/
def read (acc : Accessor α) (p : Point) : α := acc.mem (acc.addr p)

/-- The pointer `acc.ptr(rect)`: the address of the first element of the rectangle. -/
def ptr (acc : Accessor α) (rect : Rect) : Int := acc.addr rect.lo

/-- Modelled from the spec: the dense precondition on one view: it is contiguous over the
rectangle in row-major order, so its strides are the pitches of the rectangle,
and 1 on the last axis. -/
def isDenseRowMajor (acc : Accessor α) (rect : Rect) : Bool :=
  decide (acc.strides = rect.pitches.map Int.ofNat ++ [1])

/-- Distinct points of the rectangle are distinct elements of the view. -/
def InjectiveOn (acc : Accessor α) (rect : Rect) : Prop :=
  ∀ p q, rect.contains p = true → rect.contains q = true → acc.addr p = acc.addr q → p = q

end Accessor

/-- `WhereImplBody<VariantKind::CPU, CODE, DIM>::operator()` of `where.cc`.
The result is the output accessor over the memory the loop leaves behind; the
inputs are read-only views on buffers of their own.

* dense branch: `outptr[idx] = maskptr[idx] ? in1ptr[idx] : in2ptr[idx]`
* other branch: `point = pitches.unflatten(idx, rect.lo)` and
  `out[point] = mask[point] ? in1[point] : in2[point]` -/
def WhereImplBody {α : Type} (out : Accessor α) (mask : Accessor Bool) (in1 in2 : Accessor α)
    (pitches : List Nat) (rect : Rect) (dense : Bool) : Accessor α :=
  let volume := rect.volume
  if dense then
    let outptr := out.ptr rect
    let maskptr := mask.ptr rect
    let in1ptr := in1.ptr rect
    let in2ptr := in2.ptr rect
    { out with
      mem := (List.range volume).foldl
        (fun m (idx : Nat) =>
          Function.update m (outptr + idx)
            (if mask.mem (maskptr + idx) then in1.mem (in1ptr + idx) else in2.mem (in2ptr + idx)))
        out.mem }
  else
    { out with
      mem := (List.range volume).foldl
        (fun m (idx : Nat) =>
          let point := unflatten pitches idx rect.lo
          Function.update m (out.addr point)
            (if mask.read point then in1.read point else in2.read point))
        out.mem }


/-! ## Sample inputs -/

/-- A rank-2 operand of shape `[3, 1]`. -/
def sampleOperand : LogicalStore := LogicalStore.ofShape 0 [3, 1]

/-- The operand `sampleOperand` broadcast to `[2, 3, 4]`. -/
def sampleBroadcast : LogicalStore :=
  { backing := 0
    axes := [⟨2, .broadcasted⟩, ⟨3, .backing 0⟩, ⟨4, .broadcasted⟩]
    transforms := [.promote 0 2, .project 2 0, .promote 2 4] }

/-- The rectangle `[0, 2]` of dimension 1. -/
def sampleRect : Rect := ⟨[0], [2]⟩

/-- An output view with a stride of two elements. -/
def sampleOut : Accessor Int := ⟨fun _ => 0, 5, [2]⟩

/-- A mask that is true at the even addresses. -/
def sampleMask : Accessor Bool := ⟨fun x => decide (x % 2 = 0), 0, [1]⟩

/-- An input holding its own addresses. -/
def sampleIn1 : Accessor Int := ⟨fun x => x, 0, [1]⟩

/-- An input holding the negated addresses. -/
def sampleIn2 : Accessor Int := ⟨fun x => -x, 0, [1]⟩

/-- The rectangle `[0, 1] × [0, 2]` of dimension 2. -/
def samplePlane : Rect := ⟨[0, 0], [1, 2]⟩

/-- A dense row-major output view on `samplePlane`. -/
def sampleDenseOut : Accessor Int := ⟨fun _ => 0, 5, [3, 1]⟩

/-- A dense row-major mask on `samplePlane`, true at the even addresses. -/
def sampleDenseMask : Accessor Bool := ⟨fun x => decide (x % 2 = 0), 0, [3, 1]⟩

/-- A dense row-major input on `samplePlane` holding its own addresses. -/
def sampleDenseIn1 : Accessor Int := ⟨fun x => x, 10, [3, 1]⟩

/-- A dense row-major input on `samplePlane` holding the negated addresses. -/
def sampleDenseIn2 : Accessor Int := ⟨fun x => -x, 20, [3, 1]⟩


/-! ## Arrays, tasks and the runtime (`cunumeric/ndarray.cc`) -/

/-- Modelled from the spec: `LogicalStore::transpose(axes)`, absent from the sources. The
new axis `i` is the old axis `axes[i]`; it is rejected unless `axes` is a
permutation of the axes of the store. -/
def LogicalStore.transpose (s : LogicalStore) (axes : List Nat) :
    Except StoreError LogicalStore :=
  if axes.length = s.dim ∧ axes.Nodup ∧ ∀ a ∈ axes, a < s.dim then
    .ok { s with
          axes := axes.filterMap fun a => s.axes[a]?
          transforms := s.transforms ++ [.transpose axes] }
  else .error .invalidTransposition

/-- `store.volume()`: the number of elements of the view. -/
def LogicalStore.volume (s : LogicalStore) : Nat := s.extents.prod

/-- `store.transformed()`: whether the view differs from its backing storage. -/
def LogicalStore.transformed (s : LogicalStore) : Bool := !s.transforms.isEmpty

/-- Modelled from the spec: the code of an element type (`legate::Type::Code`): that of a
numeric representation, or the code shared by fixed-size arrays (points) or by
structures (value/index pairs). -/
inductive TypeCode where
  | prim (c : LegateTypeCode)
  | FIXED_ARRAY
  | STRUCT
  deriving DecidableEq

/-- Modelled from the spec: an element type (`legate::Type`): a numeric representation, a
fixed-size array of one (`point_type(n)` is `n` 64-bit integers), or the paired
value/index type of an arg-reduction. -/
inductive DType where
  | prim (c : LegateTypeCode)
  | fixed_array (elem : LegateTypeCode) (n : Nat)
  | argred (value : LegateTypeCode)
  deriving DecidableEq

namespace DType

/-- The call `type.code()`. -/
def code : DType → TypeCode
  | prim c => .prim c
  | fixed_array _ _ => .FIXED_ARRAY
  | argred _ => .STRUCT

/-- The type `legate::bool_()`. -/
def bool_ : DType := .prim .BOOL_LT

/-- The type `legate::int64()`. -/
def int64 : DType := .prim .INT64_LT

/-- The type `legate::complex64()`. -/
def complex64 : DType := .prim .COMPLEX64_LT

/-- The type `legate::complex128()`. -/
def complex128 : DType := .prim .COMPLEX128_LT

/-- The type `legate::point_type(n)`. -/
def point_type (n : Nat) : DType := .fixed_array .INT64_LT n

end DType

/-- The reduction codes (`UnaryRedCode`) that the sources name; `other n` is an
`int32_t` that is the value of none of them. The enumeration is declared
outside the sources, so an operation code is kept as its enumerator rather
than as a number. -/
inductive UnaryRedCode where
  | ALL
  | ANY
  | ARGMAX
  | ARGMIN
  | CONTAINS
  | COUNT_NONZERO
  | MAX
  | MIN
  | NANARGMAX
  | NANARGMIN
  | PROD
  | SUM
  | other (n : Int)
  deriving DecidableEq

/-- The unary operation codes (`UnaryOpCode`) that the sources name; `other n`
is an `int32_t` that is the value of none of them. -/
inductive UnaryOpCode where
  | CLIP
  | COPY
  | GETARG
  | other (n : Int)
  deriving DecidableEq

/-- The reduction operators of the runtime (`legate::ReductionOpKind`) that the
sources name. -/
inductive ReductionOpKind where
  | ADD
  | MUL
  | MAX
  | MIN
  deriving DecidableEq

/-- The task identifiers (`CuNumericOpCode`) that the sources name. -/
inductive CuNumericOpCode where
  | CUNUMERIC_ARANGE
  | CUNUMERIC_BINARY_OP
  | CUNUMERIC_BINARY_RED
  | CUNUMERIC_BINCOUNT
  | CUNUMERIC_CONVERT
  | CUNUMERIC_CONVOLVE
  | CUNUMERIC_DIAG
  | CUNUMERIC_EYE
  | CUNUMERIC_FILL
  | CUNUMERIC_FLIP
  | CUNUMERIC_MATMUL
  | CUNUMERIC_NONZERO
  | CUNUMERIC_RAND
  | CUNUMERIC_SCALAR_UNARY_RED
  | CUNUMERIC_SORT
  | CUNUMERIC_TRILU
  | CUNUMERIC_UNARY_OP
  | CUNUMERIC_UNARY_RED
  | CUNUMERIC_UNIQUE
  | CUNUMERIC_WINDOW
  | CUNUMERIC_WRAP
  deriving DecidableEq

/-- Modelled from the spec: a scalar argument (`legate::Scalar`). Values whose
representation the sources do not fix are kept symbolic: the zero of a type,
the identity of a reduction, the cast of an enumerator, the default of an
argument declared in a header. -/
inductive Scalar where
  | bool (b : Bool)
  | int32 (n : Int)
  | int64 (n : Int)
  | uint32 (n : Nat)
  | float64 (bits : Nat)
  | int32s (l : List Int)
  | int64s (l : List Int)
  | uint64s (l : List Nat)
  | zero (t : DType)
  | identity (op : UnaryRedCode) (t : DType)
  | unaryOp (c : UnaryOpCode)
  | unaryRed (c : UnaryRedCode)
  | randGen_UNIFORM
  | nanOp_default
  | typed (t : DType) (payload : Int)
  deriving DecidableEq

/-- The call `scalar.type()`. -/
def Scalar.type : Scalar → DType
  | .bool _ => .prim .BOOL_LT
  | .int32 _ => .prim .INT32_LT
  | .int64 _ => .prim .INT64_LT
  | .uint32 _ => .prim .UINT32_LT
  | .float64 _ => .prim .DOUBLE_LT
  | .int32s l => .fixed_array .INT32_LT l.length
  | .int64s l => .fixed_array .INT64_LT l.length
  | .uint64s l => .fixed_array .UINT64_LT l.length
  | .zero t => t
  | .identity _ t => t
  | .unaryOp _ => .prim .INT32_LT
  | .unaryRed _ => .prim .INT32_LT
  | .randGen_UNIFORM => .prim .INT32_LT
  | .nanOp_default => .prim .INT32_LT
  | .typed t _ => t

/-- Modelled from the spec: what a `legate::LogicalStore` carries besides its view: the
element type, whether it is unbound (its extents are fixed only by the task
that writes it), whether it is kept in scalar storage and, for a store that
`create_scalar_store` made from a scalar, that scalar. -/
structure Store where
  view : LogicalStore
  type : DType
  unbound : Bool
  scalar : Bool
  value : Option Scalar := none
  deriving DecidableEq

/-- An array handle: it wraps one store. -/
structure NDArray where
  store_ : Store
  deriving DecidableEq

namespace NDArray

/-- `NDArray::dim()`. -/
def dim (a : NDArray) : Nat := a.store_.view.dim

/-- `NDArray::shape()`. -/
def shape (a : NDArray) : List Nat := a.store_.view.extents

/-- `NDArray::size()`. -/
def size (a : NDArray) : Nat := a.store_.view.volume

/-- `NDArray::type()`. -/
def type (a : NDArray) : DType := a.store_.type

/-- `NDArray::get_store()`. -/
def get_store (a : NDArray) : Store := a.store_

end NDArray

/-- A partition variable of a task (the handle `add_input`, `add_output`,
`add_reduction` and `declare_partition` return). -/
structure Variable where
  id : Nat
  deriving DecidableEq

/-- Modelled from the spec: the constraint primitives of the runtime: `align(a, b)`,
`broadcast(view, axes)` and `bloat(view, halo, lo, hi)`. -/
inductive Constraint where
  | align (a b : Variable)
  | broadcast (v : Variable) (axes : List Nat)
  | bloat (source halo : Variable) (low high : List Nat)
  deriving DecidableEq

/-- The communicators a task may ask for. -/
inductive Communicator where
  | nccl
  | cpu
  deriving DecidableEq

/-- Modelled from the spec: a task description under construction (`legate::AutoTask`):
operation code, typed inputs, outputs and reductions with their partition
variables, scalar arguments, constraints and side flags. -/
structure Task where
  unique_id : Nat
  task_id : CuNumericOpCode
  inputs : List (Store × Variable)
  outputs : List (Store × Variable)
  reductions : List (Store × ReductionOpKind × Variable)
  scalar_args : List Scalar
  constraints : List Constraint
  communicators : List Communicator
  can_throw : Bool
  next_variable : Nat
  deriving DecidableEq

namespace Task

/-- `task.declare_partition()`: a fresh partition variable. -/
def declare_partition (t : Task) : Task × Variable :=
  ({ t with next_variable := t.next_variable + 1 }, ⟨t.next_variable⟩)

/-- `task.add_input(store, partition)`. -/
def add_input_at (t : Task) (s : Store) (p : Variable) : Task :=
  { t with inputs := t.inputs ++ [(s, p)] }

/-- `task.add_input(store)`: the input gets a partition variable of its own. -/
def add_input (t : Task) (s : Store) : Task × Variable :=
  let (t, p) := t.declare_partition
  (t.add_input_at s p, p)

/-- `task.add_output(store, partition)`. -/
def add_output_at (t : Task) (s : Store) (p : Variable) : Task :=
  { t with outputs := t.outputs ++ [(s, p)] }

/-- `task.add_output(store)`: the output gets a partition variable of its own. -/
def add_output (t : Task) (s : Store) : Task × Variable :=
  let (t, p) := t.declare_partition
  (t.add_output_at s p, p)

/-- `task.add_reduction(store, redop)`. -/
def add_reduction (t : Task) (s : Store) (redop : ReductionOpKind) : Task × Variable :=
  let (t, p) := t.declare_partition
  ({ t with reductions := t.reductions ++ [(s, redop, p)] }, p)

/-- `task.add_scalar_arg(scalar)`. -/
def add_scalar_arg (t : Task) (v : Scalar) : Task :=
  { t with scalar_args := t.scalar_args ++ [v] }

/-- `task.add_constraint(constraint)`. -/
def add_constraint (t : Task) (c : Constraint) : Task :=
  { t with constraints := t.constraints ++ [c] }

/-- `task.add_communicator(name)`. -/
def add_communicator (t : Task) (c : Communicator) : Task :=
  { t with communicators := t.communicators ++ [c] }

/-- `task.throws_exception(flag)`. -/
def throws_exception (t : Task) (flag : Bool) : Task :=
  { t with can_throw := flag }

end Task

/-- How a call can fail: one constructor per `throw` of `ndarray.cc`, the
validation failures of the helpers declared outside it, the failures of the
store operations, a failed `assert`, and the exhaustion of the recursion budget
of the model. -/
inductive Error where
  | operands_must_have_same_type
  | slice_count
  | invalid_axis
  | invalid_kind
  | axis_error
  | start_stop_step_type
  | complex_argminmax
  | where_should_be_bool
  | output_shapes_do_not_match
  | multiple_dimensions
  | index_out_of_range
  | put_mode
  | wrap_empty
  | shape_mismatch
  | unknown_reduction
  | bad_optional_access
  | transpose_axes_size
  | diag_dim
  | diag_out_without_trace
  | diag_type_without_trace
  | diag_axes_not_different
  | diag_too_many_axes
  | diag_offset_out_of_range
  | diag_offset_many_axes
  | diag_too_few_axes
  | trace_two_axes
  | trace_dim
  | diag_out_shape
  | store (e : StoreError)
  | assertion
  | out_of_fuel
  deriving DecidableEq

/-- The kinds of failure: the three exception classes thrown, and the abort of
a failed assertion. -/
inductive ErrorKind where
  | invalid_argument
  | runtime_error
  | out_of_range
  | other_exception
  | abort
  | model
  deriving DecidableEq

/-- The exception class of every failure. `complex_argminmax` and
`multiple_dimensions` are `std::runtime_error`; `index_out_of_range` and the
failed lookup of `TO_CORE_REDOP.at` are `std::out_of_range`; the store
operations throw `std::invalid_argument`. -/
def Error.kind : Error → ErrorKind
  | .complex_argminmax => .runtime_error
  | .multiple_dimensions => .runtime_error
  | .index_out_of_range => .out_of_range
  | .unknown_reduction => .out_of_range
  | .bad_optional_access => .other_exception
  | .assertion => .abort
  | .store .assertionFailed => .abort
  | .out_of_fuel => .model
  | _ => .invalid_argument

/-- How the library was built: with `DEBUG_CUNUMERIC` defined or not, with
`assert` compiled out (`NDEBUG`) or not, and with which `int32_t` values for the
two enumerators of `cunumeric::BinaryOpCode` that `ndarray.cc` names: that
enumeration is declared in `cunumeric/binary/binary_op_util.h`, outside the
sources, so the two values are parameters of the build. -/
structure Build where
  debug_cunumeric : Bool
  ndebug : Bool
  BinaryOpCode_MOD : Int
  BinaryOpCode_NOT_EQUAL : Int
  deriving DecidableEq

/-- Modelled from the spec: the machine the runtime reports: the number of its processors and
how many of them are GPUs. -/
structure Machine where
  count : Nat
  gpus : Nat
  deriving DecidableEq

/-- What the array layer hands to the runtime. -/
inductive Event where
  | submit (t : Task)
  | issue_fill (s : Store) (value : Scalar)
  | issue_scatter (target indirect source : Store)
  | issue_gather (target source indirect : Store)
  | warning (type : DType)
  deriving DecidableEq

/-- Modelled from the spec: the state behind `CuNumericRuntime` and `legate::Runtime`:
everything handed over so far, the counters from which stores, tasks and random
epochs are numbered, and the cache of reduction identities of
`get_reduction_identity`. -/
structure Runtime where
  build : Build
  machine : Machine
  log : List Event
  next_store : Nat
  next_task : Nat
  next_epoch : Nat
  identities : List ((UnaryRedCode × TypeCode) × Scalar)
  deriving DecidableEq

/-- A call into the library: from the state of the runtime to a result or a
failure, and the state it leaves. -/
def M (α : Type) : Type := Runtime → Except Error α × Runtime

namespace M

/-- Return a value. -/
def ret {α : Type} (a : α) : M α := fun rt => (.ok a, rt)

/-- Run `m`, then `f` on its result; a failure of `m` ends the call. -/
def andThen {α β : Type} (m : M α) (f : α → M β) : M β := fun rt =>
  match m rt with
  | (.ok a, rt1) => f a rt1
  | (.error e, rt1) => (.error e, rt1)

instance : Monad M where
  pure := ret
  bind := andThen

/-- The statement `throw`. -/
def raise {α : Type} (e : Error) : M α := fun rt => (.error e, rt)

/-- A store operation inside a call. -/
def ofStore {α : Type} (r : Except StoreError α) : M α :=
  match r with
  | .ok a => ret a
  | .error e => raise (.store e)

/-- The statement `assert(c)`: checked unless the build defines `NDEBUG`. -/
def cassert (c : Bool) : M Unit := fun rt =>
  if rt.build.ndebug || c then (.ok (), rt) else (.error .assertion, rt)

/-- Read the state of the runtime. -/
def runtime : M Runtime := fun rt => (.ok rt, rt)

end M

/-- `runtime->create_task(code)`: a task description with nothing in it yet. -/
def create_task (code : CuNumericOpCode) : M Task := fun rt =>
  (.ok { unique_id := rt.next_task, task_id := code, inputs := [], outputs := [],
         reductions := [], scalar_args := [], constraints := [], communicators := [],
         can_throw := false, next_variable := 0 },
   { rt with next_task := rt.next_task + 1 })

/-- `runtime->submit(task)`. -/
def submit (t : Task) : M Unit := fun rt =>
  (.ok (), { rt with log := rt.log ++ [.submit t] })

/-- `legate::Runtime::issue_fill(store, value)`. -/
def issue_fill (s : Store) (value : Scalar) : M Unit := fun rt =>
  (.ok (), { rt with log := rt.log ++ [.issue_fill s value] })

/-- `legate::Runtime::issue_scatter(target, indirect, source)`. -/
def issue_scatter (target indirect source : Store) : M Unit := fun rt =>
  (.ok (), { rt with log := rt.log ++ [.issue_scatter target indirect source] })

/-- `legate::Runtime::issue_gather(target, source, indirect)`. -/
def issue_gather (target source indirect : Store) : M Unit := fun rt =>
  (.ok (), { rt with log := rt.log ++ [.issue_gather target source indirect] })

/-- The line `cunumeric_log().warning() << ...` of `_warn_and_convert`. -/
def log_warning (type : DType) : M Unit := fun rt =>
  (.ok (), { rt with log := rt.log ++ [.warning type] })

/-- `runtime->get_next_random_epoch()`. -/
def get_next_random_epoch : M Nat := fun rt =>
  (.ok rt.next_epoch, { rt with next_epoch := rt.next_epoch + 1 })

/-- Modelled from the spec: `runtime->create_array(shape, type, optimize_scalar)`: an array
over fresh backing storage with the given extents; a single element is kept in
scalar storage when `optimize_scalar` allows it. -/
def create_array (shape : List Nat) (type : DType) (optimize_scalar : Bool) : M NDArray :=
  fun rt =>
    (.ok ⟨{ view := LogicalStore.ofShape rt.next_store shape, type := type, unbound := false,
            scalar := optimize_scalar && decide (shape.prod = 1) }⟩,
     { rt with next_store := rt.next_store + 1 })

/-- Modelled from the spec: `runtime->create_array(type)`: an array over an unbound store,
whose extents the task that writes it decides. -/
def create_unbound_array (type : DType) : M NDArray := fun rt =>
  (.ok ⟨{ view := { backing := rt.next_store, axes := [], transforms := [] }, type := type,
          unbound := true, scalar := false }⟩,
   { rt with next_store := rt.next_store + 1 })

/-- Modelled from the spec: `runtime->create_scalar_store(value)`: a store of one element in
scalar storage holding `value`. -/
def create_scalar_store (value : Scalar) : M Store := fun rt =>
  (.ok { view := LogicalStore.ofShape rt.next_store [1], type := value.type, unbound := false,
         scalar := true, value := some value },
   { rt with next_store := rt.next_store + 1 })

/-- Modelled from the spec: `runtime->get_argred_type(type)`: the paired value/index type of
an arg-reduction over values of `type`. -/
def get_argred_type (type : DType) : DType :=
  match type with
  | .prim c => .argred c
  | t => t

/-- Modelled from the spec: `legate::type_dispatch(code, generate_zero_fn{})`: the value
`VAL(0)` of the element type. -/
def generate_zero (type : DType) : Scalar := .zero type

/-- Modelled from the spec: the value `op_dispatch(op, generate_identity_fn{}, type)`
computes: the algebraic identity of the reduction for the element type. -/
def generate_identity (op : UnaryRedCode) (type : DType) : Scalar := .identity op type

/-- `get_reduction_identity(op, type)`: the cached identity of the pair
`(op, type.code())` if there is one; otherwise the dispatched one, which is
then added to the cache. -/
def get_reduction_identity (op : UnaryRedCode) (type : DType) : M Scalar := fun rt =>
  let key := (op, type.code)
  match rt.identities.lookup key with
  | some identity => (.ok identity, rt)
  | none =>
    let identity := generate_identity op type
    (.ok identity, { rt with identities := rt.identities ++ [(key, identity)] })

/-- The table `TO_CORE_REDOP`. -/
def TO_CORE_REDOP : List (UnaryRedCode × ReductionOpKind) :=
  [(.ALL, .MUL), (.ANY, .ADD), (.ARGMAX, .MAX), (.ARGMIN, .MIN), (.CONTAINS, .ADD),
   (.COUNT_NONZERO, .ADD), (.MAX, .MAX), (.MIN, .MIN), (.PROD, .MUL), (.SUM, .ADD)]

/-- `get_reduction_op(op)`: `TO_CORE_REDOP.at(op)`, which throws
`std::out_of_range` for a code the table does not hold. -/
def get_reduction_op (op : UnaryRedCode) : M ReductionOpKind :=
  match TO_CORE_REDOP.lookup op with
  | some kind => M.ret kind
  | none => M.raise .unknown_reduction

/-- Modelled from the spec: `normalize_axis_index(axis, ndim)`: an axis outside
`[-ndim, ndim)` is a validation failure; otherwise a negative axis counts from
the end. -/
def normalize_axis_index (axis : Int) (ndim : Nat) : M Int :=
  if -(ndim : Int) ≤ axis ∧ axis < (ndim : Int) then
    M.ret (if axis < 0 then axis + ndim else axis)
  else M.raise .axis_error

/-- Modelled from the spec: `normalize_axis_vector(axes, ndim)`: every axis normalised, a
validation failure as soon as one of them is out of range. -/
def normalize_axis_vector : List Int → Nat → M (List Int)
  | [], _ => M.ret []
  | a :: as, ndim => do
    let a ← normalize_axis_index a ndim
    let as ← normalize_axis_vector as ndim
    return a :: as

/-- Join of two right-aligned extents under the broadcasting rule: equal, or
one of them 1. -/
def broadcast_extent (a b : Nat) : Except Error Nat :=
  if a = b ∨ a = 1 ∨ b = 1 then .ok (max a b) else .error .shape_mismatch

/-- Join of two shapes, both given from the last axis to the first; an axis
absent from one of them counts as 1. -/
def broadcast_join : List Nat → List Nat → Except Error (List Nat)
  | [], bs => .ok bs
  | as, [] => .ok as
  | a :: as, b :: bs => do
    let e ← broadcast_extent a b
    let rest ← broadcast_join as bs
    return e :: rest

/-- Modelled from the spec: `broadcast_shapes(arrays)`: the joint shape, folding pairwise from
the first operand's shape; per right-aligned axis the maximum of the two
extents when they are equal or one of them is 1, a shape mismatch otherwise. -/
def broadcast_shapes (arrays : List NDArray) : M (List Nat) :=
  match arrays with
  | [] => M.ret []
  | a :: rest =>
    match rest.foldlM (fun acc b => broadcast_join acc b.shape.reverse) a.shape.reverse with
    | .ok s => M.ret s.reverse
    | .error e => M.raise e

/-- `store.has_scalar_storage()`. -/
def Store.has_scalar_storage (s : Store) : Bool := s.scalar

/-- `store.transformed()`. -/
def Store.transformed (s : Store) : Bool := s.view.transformed

/-- A store operation applied to the view of a store inside a call. -/
def Store.withView (s : Store) (r : Except StoreError LogicalStore) : M Store :=
  M.ofStore (r.map fun v => { s with view := v })

/-- Reduction of an integer to the range of `int64_t`. -/
def wrap_int64 (x : Int) : Int := (x + 2 ^ 63) % 2 ^ 64 - 2 ^ 63

/-- `compute_strides(shape)`: from the last axis to the first, the stride of an
axis is the product of the extents after it. -/
def compute_strides (shape : List Nat) : List Int :=
  (shape.foldr (fun e (acc : List Int × Int) => (acc.2 :: acc.1, wrap_int64 (acc.2 * e)))
    ([], 1)).1

namespace NDArray

/-- `NDArray::broadcast(shape, store)` as the methods call it, in the build at
hand. -/
def broadcast_to (shape : List Nat) (store : Store) : M Store := do
  let rt ← M.runtime
  store.withView (broadcast rt.build.debug_cunumeric shape store.view)

/-- `NDArray::broadcast(rhs1, rhs2)`: the store of `rhs1` when the shapes agree,
otherwise its broadcast to the joint shape. -/
def broadcast_pair (rhs1 rhs2 : NDArray) : M Store :=
  if rhs1.shape = rhs2.shape then M.ret rhs1.store_
  else do
    let out_shape ← broadcast_shapes [rhs1, rhs2]
    broadcast_to out_shape rhs1.store_

/-- `NDArray::random(gen_code)`. -/
def random (self : NDArray) (_gen_code : Int) : M Unit :=
  if self.size = 0 then M.ret ()
  else do
    let task ← create_task .CUNUMERIC_RAND
    let task := (task.add_output self.store_).1
    let task := task.add_scalar_arg .randGen_UNIFORM
    let epoch ← get_next_random_epoch
    let task := task.add_scalar_arg (.uint32 epoch)
    let strides := compute_strides self.shape
    let task := task.add_scalar_arg (.int64s strides)
    submit task

/-- `NDArray::fill(value)`. -/
def fill (self : NDArray) (value : Scalar) : M Unit :=
  if self.size = 0 then M.ret ()
  else if !self.store_.transformed then issue_fill self.store_ value
  else do
    let fill_value ← create_scalar_store value
    let task ← create_task .CUNUMERIC_FILL
    let task := (task.add_output self.store_).1
    let task := (task.add_input fill_value).1
    submit task

/-- `NDArray::eye(k)`. -/
def eye (self : NDArray) (k : Int) : M Unit :=
  if self.size = 0 then M.ret ()
  else do
    M.cassert (self.dim == 2)
    let zero := generate_zero self.type
    self.fill zero
    let task ← create_task .CUNUMERIC_EYE
    let task := (task.add_input self.store_).1
    let task := (task.add_output self.store_).1
    let task := task.add_scalar_arg (.int32 k)
    submit task

/-- `NDArray::bincount(rhs, weights)`. -/
def bincount (self rhs : NDArray) (weights : Option NDArray) : M Unit :=
  if self.size = 0 then M.ret ()
  else do
    M.cassert (self.dim == 1)
    match weights with
    | some w => M.cassert (decide (rhs.shape = w.shape))
    | none => M.ret ()
    let zero := generate_zero self.type
    self.fill zero
    let task ← create_task .CUNUMERIC_BINCOUNT
    let redop := ReductionOpKind.ADD
    let (task, p_lhs) := task.add_reduction self.store_ redop
    let (task, p_rhs) := task.add_input rhs.store_
    let task := task.add_constraint (.broadcast p_lhs [0])
    let task :=
      match weights with
      | some w =>
        let (task, p_weight) := task.add_input w.store_
        task.add_constraint (.align p_rhs p_weight)
      | none => task
    submit task

/-- `NDArray::sort_task(rhs, argsort, stable)`; the result is the array after
the call, whose store the call may have replaced. -/
def sort_task (self rhs : NDArray) (argsort stable : Bool) : M NDArray := do
  let task ← create_task .CUNUMERIC_SORT
  let (task, p_rhs) := task.add_input rhs.store_
  let rt ← M.runtime
  let machine := rt.machine
  let uses_unbound_output := decide (machine.count > 1) && decide (rhs.dim = 1)
  let (task, unbound) ←
    if uses_unbound_output then do
      let unbound ← create_unbound_array self.type
      pure ((task.add_output unbound.get_store).1, some unbound)
    else
      let (task, p_lhs) := task.add_output self.store_
      pure (task.add_constraint (.align p_lhs p_rhs), none)
  let task :=
    if machine.gpus > 0 then task.add_communicator .nccl else task.add_communicator .cpu
  let task := task.add_scalar_arg (.bool argsort)
  let task := task.add_scalar_arg (.uint64s rhs.shape)
  let task := task.add_scalar_arg (.bool stable)
  submit task
  match unbound with
  | some u => return { store_ := u.get_store }
  | none => return self

/-- `NDArray::unary_op(op_code, input)`. -/
def unary_op (self : NDArray) (op_code : UnaryOpCode) (input : NDArray) : M Unit :=
  if self.size = 0 then M.ret ()
  else do
    let task ← create_task .CUNUMERIC_UNARY_OP
    let rhs ← broadcast_to self.shape input.store_
    let (task, p_out) := task.add_output self.store_
    let (task, p_in) := task.add_input rhs
    let task := task.add_scalar_arg (.unaryOp op_code)
    let task := task.add_constraint (.align p_out p_in)
    submit task

/-- `NDArray::assign(other)`. -/
def assign (self other : NDArray) : M Unit := self.unary_op .COPY other

/-- `NDArray::swapaxes(axis1, axis2)`. -/
def swapaxes (self : NDArray) (axis1 axis2 : Int) : M NDArray := do
  let axis1 ← normalize_axis_index axis1 self.dim
  let axis2 ← normalize_axis_index axis2 self.dim
  if self.shape.length = 1 ∨ axis1 = axis2 then return self
  else
    let ndim := self.dim
    let dims := List.range ndim
    if axis1 < 0 ∨ axis2 < 0 then M.raise .index_out_of_range
    else
      let dims := (dims.set axis1.toNat axis2.toNat).set axis2.toNat axis1.toNat
      let transposed ← self.store_.withView (self.store_.view.transpose dims)
      return { store_ := transposed }

/-- `NDArray::sort_swapped(rhs, argsort, sort_axis, stable)`; `sort` is the
overload of `NDArray::sort` with a stable flag, which it calls. -/
def sort_swapped (sort : NDArray → NDArray → Bool → Option Int → Bool → M NDArray)
    (self rhs : NDArray) (argsort : Bool) (sort_axis : Int) (stable : Bool) : M NDArray := do
  let sort_axis ← normalize_axis_index sort_axis rhs.dim
  let swapped ← rhs.swapaxes sort_axis ((rhs.dim : Int) - 1)
  let swapped_copy ← create_array swapped.shape swapped.type true
  swapped_copy.assign swapped
  if argsort then do
    let sort_result ← create_array swapped_copy.shape self.type true
    let sort_result ← sort sort_result swapped_copy argsort (some (-1)) stable
    let back ← sort_result.swapaxes ((rhs.dim : Int) - 1) sort_axis
    return { store_ := back.get_store }
  else do
    let swapped_copy ← sort swapped_copy swapped_copy argsort (some (-1)) stable
    let back ← swapped_copy.swapaxes ((rhs.dim : Int) - 1) sort_axis
    return { store_ := back.get_store }

/-- `NDArray::sort(rhs, argsort, axis, stable)`, the overload with a stable
flag. It and `sort_swapped` call each other; `fuel` bounds the depth of these
calls. -/
def sort_stable : Nat → NDArray → NDArray → Bool → Option Int → Bool → M NDArray
  | 0, _, _, _, _, _ => M.raise .out_of_fuel
  | fuel + 1, self, rhs, argsort, axis, stable => do
    if axis.isNone ∧ rhs.dim > 1 then M.cassert false else M.ret ()
    let computed_axis ←
      match axis with
      | some a => normalize_axis_index a rhs.dim
      | none => M.ret 0
    if computed_axis = (rhs.dim : Int) - 1 then self.sort_task rhs argsort stable
    else sort_swapped (sort_stable fuel) self rhs argsort computed_axis stable

/-- `NDArray::sort(rhs, argsort, axis, kind)`, the overload with the name of
the algorithm. The calls it starts are at most two deep. -/
def sort (self rhs : NDArray) (argsort : Bool) (axis : Option Int) (kind : String) :
    M NDArray :=
  if axis.isSome ∧ (axis.getD 0 ≥ (rhs.dim : Int) ∨ axis.getD 0 < -(rhs.dim : Int)) then
    M.raise .invalid_axis
  else if ¬(kind = "quicksort" ∨ kind = "mergesort" ∨ kind = "heapsort" ∨ kind = "stable") then
    M.raise .invalid_kind
  else
    let stable := decide (kind = "stable")
    sort_stable 2 self rhs argsort axis stable

end NDArray

namespace NDArray

/-- `NDArray::trilu(rhs, k, lower)`. -/
def trilu (self rhs : NDArray) (k : Int) (lower : Bool) : M Unit :=
  if self.size = 0 then M.ret ()
  else do
    let task ← create_task .CUNUMERIC_TRILU
    let out_shape := self.shape
    let rhs_store ← broadcast_to out_shape rhs.store_
    let rhs : NDArray := { store_ := rhs_store }
    let task := task.add_scalar_arg (.bool lower)
    let task := task.add_scalar_arg (.int32 k)
    let (task, p_lhs) := task.add_output self.store_
    let (task, p_rhs) := task.add_input rhs.store_
    let task := task.add_constraint (.align p_lhs p_rhs)
    submit task

/-- `NDArray::binary_op(op_code, rhs1, rhs2)`. -/
def binary_op (self : NDArray) (op_code : Int) (rhs1 rhs2 : NDArray) : M Unit :=
  if rhs1.type ≠ rhs2.type then M.raise .operands_must_have_same_type
  else if self.size = 0 then M.ret ()
  else do
    let task ← create_task .CUNUMERIC_BINARY_OP
    let out_shape := self.shape
    let rhs1_store ← broadcast_to out_shape rhs1.store_
    let rhs2_store ← broadcast_to out_shape rhs2.store_
    let (task, p_lhs) := task.add_output self.store_
    let (task, p_rhs1) := task.add_input rhs1_store
    let (task, p_rhs2) := task.add_input rhs2_store
    let task := task.add_scalar_arg (.int32 op_code)
    let task := task.add_constraint (.align p_lhs p_rhs1)
    let task := task.add_constraint (.align p_rhs1 p_rhs2)
    submit task

/-- `NDArray::binary_reduction(op_code, rhs1, rhs2)`; the value of
`static_cast<int32_t>(BinaryOpCode::NOT_EQUAL)` is that of the build. -/
def binary_reduction (self : NDArray) (op_code : Int) (rhs1 rhs2 : NDArray) : M Unit :=
  if self.size = 0 then M.ret ()
  else do
    let rhs1_store ← broadcast_pair rhs1 rhs2
    let rhs2_store ← broadcast_pair rhs2 rhs1
    let rt ← M.runtime
    let redop ←
      if op_code = rt.build.BinaryOpCode_NOT_EQUAL then do
        let redop ← get_reduction_op .SUM
        self.fill (.bool false)
        pure redop
      else do
        let redop ← get_reduction_op .PROD
        self.fill (.bool true)
        pure redop
    let task ← create_task .CUNUMERIC_BINARY_RED
    let task := (task.add_reduction self.store_ redop).1
    let (task, p_rhs1) := task.add_input rhs1_store
    let (task, p_rhs2) := task.add_input rhs2_store
    let task := task.add_scalar_arg (.int32 op_code)
    let task := task.add_constraint (.align p_rhs1 p_rhs2)
    submit task

/-- `NDArray::unary_reduction(op_code_, input)`, the overload with two
arguments. -/
def unary_reduction2 (self : NDArray) (op_code_ : UnaryRedCode) (input : NDArray) : M Unit :=
  if self.size = 0 then M.ret ()
  else do
    let op_code := op_code_
    let identity ← get_reduction_identity op_code self.type
    self.fill identity
    let task ← create_task .CUNUMERIC_SCALAR_UNARY_RED
    let redop ← get_reduction_op op_code
    let task := (task.add_reduction self.store_ redop).1
    let task := (task.add_input input.store_).1
    let task := task.add_scalar_arg (.unaryRed op_code_)
    let task := task.add_scalar_arg (.uint64s input.shape)
    submit task

/-- `NDArray::dot(rhs1, rhs2)`. -/
def dot (self rhs1 rhs2 : NDArray) : M Unit :=
  if self.size = 0 then M.ret ()
  else do
    let identity ← get_reduction_identity .SUM self.type
    self.fill identity
    M.cassert (self.dim == 2 && rhs1.dim == 2 && rhs2.dim == 2)
    let m := rhs1.shape.getD 0 0
    let n := rhs2.shape.getD 1 0
    let k := rhs1.shape.getD 1 0
    let lhs_s ← self.store_.withView (self.store_.view.promote 1 k)
    let rhs1_s ← rhs1.store_.withView (rhs1.store_.view.promote 2 n)
    let rhs2_s ← rhs2.store_.withView (rhs2.store_.view.promote 0 m)
    let task ← create_task .CUNUMERIC_MATMUL
    let redop ← get_reduction_op .SUM
    let (task, p_lhs) := task.add_reduction lhs_s redop
    let (task, p_rhs1) := task.add_input rhs1_s
    let (task, p_rhs2) := task.add_input rhs2_s
    let task := task.add_constraint (.align p_lhs p_rhs1)
    let task := task.add_constraint (.align p_rhs1 p_rhs2)
    submit task

/-- `NDArray::arange(start, stop, step)`. -/
def arange (self : NDArray) (start stop step : Scalar) : M Unit :=
  if self.size = 0 then M.ret ()
  else if start.type ≠ self.type ∨ stop.type ≠ self.type ∨ step.type ≠ self.type then
    M.raise .start_stop_step_type
  else do
    M.cassert (self.dim == 1)
    let task ← create_task .CUNUMERIC_ARANGE
    let task := (task.add_output self.store_).1
    let task := task.add_scalar_arg start
    let task := task.add_scalar_arg step
    submit task

/-- `NDArray::create_window(op_code, M, args)`; every `double` of `args` is
given by its bits. -/
def create_window (self : NDArray) (op_code : Int) (m : Int) (args : List Nat) : M Unit :=
  if self.size = 0 then M.ret ()
  else do
    let task ← create_task .CUNUMERIC_WINDOW
    let task := (task.add_output self.store_).1
    let task := task.add_scalar_arg (.int32 op_code)
    let task := task.add_scalar_arg (.int64 m)
    let task := args.foldl (fun (t : Task) arg => t.add_scalar_arg (.float64 arg)) task
    submit task

/-- `NDArray::convolve(input, filter)`. The offsets are
`(filter.store_.extents() + 1) / 2`, taken extent by extent. -/
def convolve (self input filter : NDArray) : M Unit := do
  let task ← create_task .CUNUMERIC_CONVOLVE
  let (task, p_filter) := task.add_input filter.store_
  let (task, p_input) := task.add_input input.store_
  let (task, p_halo) := task.declare_partition
  let task := task.add_input_at input.store_ p_halo
  let (task, p_output) := task.add_output self.store_
  let task := task.add_scalar_arg (.uint64s self.shape)
  let offsets := filter.store_.view.extents.map fun e => (e + 1) / 2
  let task := task.add_constraint (.align p_input p_output)
  let task := task.add_constraint (.bloat p_input p_halo offsets offsets)
  let task := task.add_constraint (.broadcast p_filter (List.range self.dim))
  submit task

/-- `NDArray::convert(rhs, nan_op)`; `none` is the default value of `nan_op`,
which the header declares. -/
def convert (self rhs : NDArray) (nan_op : Option Int) : M Unit := do
  let lhs_array := self
  let rhs_array := rhs
  M.cassert (decide (lhs_array.type ≠ rhs_array.type))
  let lhs_s := lhs_array.store_
  let rhs_s := rhs_array.store_
  let task ← create_task .CUNUMERIC_CONVERT
  let (task, p_lhs) := task.add_output lhs_s
  let (task, p_rhs) := task.add_input rhs_s
  let task := task.add_scalar_arg
    (match nan_op with
     | some n => .int32 n
     | none => .nanOp_default)
  let task := task.add_constraint (.align p_lhs p_rhs)
  submit task

/-- `NDArray::as_type(type)`. -/
def as_type (self : NDArray) (type : DType) : M NDArray := do
  let out ← create_array self.shape type true
  if self.size = 0 then return out
  else do
    out.convert self none
    return out

/-- `NDArray::broadcast_where(where, source)`. -/
def broadcast_where (where_ source : NDArray) : M NDArray :=
  if where_.shape = source.shape then M.ret where_
  else do
    let where_shape ← broadcast_shapes [where_, source]
    let where_store ← broadcast_to where_shape where_.store_
    return { store_ := where_store }

/-- The loop `while (p_lhs.dim() > 1) p_lhs = p_lhs.project(0, 0);`. Every
iteration removes an axis, so no more than `fuel = p_lhs.dim()` iterations
run. -/
def project_to_scalar : Nat → LogicalStore → Except StoreError LogicalStore
  | 0, s => .ok s
  | fuel + 1, s =>
    if s.dim > 1 then (s.project 0 0).bind (project_to_scalar fuel) else .ok s

/-- The call `result.project(axis, 0)` for an `int32_t` axis. -/
def project_axis (s : LogicalStore) (axis : Int) : Except StoreError LogicalStore :=
  if axis < 0 then .error .invalidProjection else s.project axis.toNat 0

/-- The call `result.promote(axis, size)` for an `int32_t` axis. -/
def promote_axis (s : LogicalStore) (axis : Int) (size : Nat) :
    Except StoreError LogicalStore :=
  if axis < 0 then .error .invalidPromotion else s.promote axis.toNat size

/-- The views of the destination that `unary_reduction` builds before it
checks the number of axes: with `keepdims` every reduced axis is projected out,
one after the other, then every reduced axis is promoted to its extent in the
source. -/
def reduction_view (lhs : LogicalStore) (rhs_shape : List Nat) (axes : List Int)
    (is_keepdims : Bool) : Except StoreError LogicalStore := do
  let result ←
    if is_keepdims then axes.foldlM project_axis lhs else pure lhs
  axes.foldlM (fun r axis => promote_axis r axis (rhs_shape.getD axis.toNat 0)) result

/-- `NDArray::unary_reduction(op, src, where, orig_axis, axes, keepdims, args,
initial)`. -/
def unary_reduction (self : NDArray) (op : UnaryRedCode) (src : NDArray)
    (where_ : Option NDArray) (_orig_axis : Option (List Int)) (axes : Option (List Int))
    (keepdims : Option Bool) (args : Option (List NDArray)) (initial : Option Scalar) :
    M Unit := do
  let lhs_array := self
  let rhs_array := src
  M.cassert (decide (lhs_array.dim ≤ rhs_array.dim))
  let op_code := op
  (match initial with
   | some v => lhs_array.fill v
   | none => do
     let identity ← get_reduction_identity op_code lhs_array.type
     lhs_array.fill identity)
  let is_where := where_.isSome
  let is_keepdims := keepdims.getD false
  if lhs_array.size = 1 then do
    M.cassert (axes.isNone ||
      decide ((lhs_array.dim : Int) =
        (rhs_array.dim : Int) - (if is_keepdims then 0 else ((axes.getD []).length : Int))))
    let p_lhs ← lhs_array.store_.withView
      (project_to_scalar lhs_array.store_.view.dim lhs_array.store_.view)
    let task ← create_task .CUNUMERIC_SCALAR_UNARY_RED
    let redop ← get_reduction_op op_code
    let task := (task.add_reduction p_lhs redop).1
    let (task, p_rhs) := task.add_input rhs_array.store_
    let task := task.add_scalar_arg (.unaryRed op)
    let task := task.add_scalar_arg (.uint64s rhs_array.shape)
    let task := task.add_scalar_arg (.bool is_where)
    let task :=
      match where_ with
      | some w =>
        let (task, p_where) := task.add_input w.store_
        task.add_constraint (.align p_rhs p_where)
      | none => task
    let task :=
      match args with
      | some arg_array => arg_array.foldl (fun (t : Task) (arg : NDArray) => (t.add_input arg.store_).1) task
      | none => task
    submit task
  else do
    M.cassert axes.isSome
    match axes with
    | none => M.raise .bad_optional_access
    | some axes => do
      let result ← lhs_array.store_.withView
        (reduction_view lhs_array.store_.view rhs_array.shape axes is_keepdims)
      if axes.length > 1 then M.raise .multiple_dimensions
      else do
        let task ← create_task .CUNUMERIC_UNARY_RED
        let redop ← get_reduction_op op_code
        let (task, p_lhs) := task.add_reduction result redop
        let (task, p_rhs) := task.add_input rhs_array.store_
        let task := task.add_scalar_arg (.int32 (axes.getD 0 0))
        let task := task.add_scalar_arg (.unaryRed op)
        let task := task.add_scalar_arg (.bool is_where)
        let task :=
          match where_ with
          | some w =>
            let (task, p_where) := task.add_input w.store_
            task.add_constraint (.align p_rhs p_where)
          | none => task
        let task :=
          match args with
          | some arg_array => arg_array.foldl (fun (t : Task) (arg : NDArray) => (t.add_input arg.store_).1) task
          | none => task
        let task := task.add_constraint (.align p_lhs p_rhs)
        submit task

end NDArray

/-- What `_perform_unary_reduction` has settled once its checks are through:
the element types, the normalised axes, the implied output shape and the
output array. -/
structure ReductionSetup where
  dtype : DType
  res_dtype : DType
  axes : List Int
  out_shape : List Nat
  out : NDArray
  deriving DecidableEq

/-- The output shape `_perform_unary_reduction` derives: the source shape
without the reduced axes, or with extent 1 in their place under `keepdims`. -/
def implied_out_shape (shape : List Nat) (axes : List Int) (keepdims : Bool) : List Nat :=
  (List.range shape.length).foldl
    (fun out_shape (i : Nat) =>
      if (i : Int) ∉ axes then out_shape ++ [shape.getD i 0]
      else if keepdims then out_shape ++ [1]
      else out_shape)
    []

/-- Modelled from the spec: `cunumeric::full(shape, value)`, absent from the sources: a new
array of that shape and of the type of the value, filled with the value. -/
def full (shape : List Nat) (value : Scalar) : M NDArray := do
  let out ← create_array shape value.type true
  out.fill value
  return out

namespace NDArray

/-- The arg-reductions of `_perform_unary_reduction`. -/
def is_argred (op : UnaryRedCode) : Bool :=
  op ∈ [UnaryRedCode.ARGMAX, .ARGMIN, .NANARGMAX, .NANARGMIN]

/-- The first part of `NDArray::_perform_unary_reduction`: the resolution of
the element types, the rejection of (arg)max/min on complex sources and of a
`where` array that is not boolean, the normalisation of the axes, the implied
output shape, and the creation or the check of the output array. -/
def perform_unary_reduction_checks (op : UnaryRedCode) (src : NDArray)
    (axis : Option (List Int)) (dtype res_dtype : Option DType) (out : Option NDArray)
    (keepdims : Option Bool) (where_ : Option NDArray) : M ReductionSetup := do
  let (dtype, res_dtype) ←
    (match res_dtype with
     | some r => do
       M.cassert (!dtype.isSome)
       pure (src.type, r)
     | none =>
       match dtype with
       | some d => pure (d, d)
       | none =>
         match out with
         | some o => pure (o.type, o.type)
         | none => pure (src.type, src.type))
  if (src.type = DType.complex64 ∨ src.type = DType.complex128) ∧
      op ∈ [UnaryRedCode.ARGMAX, .ARGMIN, .MAX, .MIN] then
    M.raise .complex_argminmax
  else do
    (match where_ with
     | some w => if w.type ≠ DType.bool_ then M.raise .where_should_be_bool else M.ret ()
     | none => M.ret ())
    let axes ←
      (match axis with
       | none => pure ((List.range src.dim).map Int.ofNat)
       | some a => normalize_axis_vector a src.dim)
    let out_shape := implied_out_shape src.shape axes (keepdims.getD false)
    let out ←
      (match out with
       | none => create_array out_shape res_dtype true
       | some o =>
         if o.shape ≠ out_shape then M.raise .output_shapes_do_not_match else pure o)
    return { dtype := dtype, res_dtype := res_dtype, axes := axes, out_shape := out_shape,
             out := out }

/-- The second part of `NDArray::_perform_unary_reduction`: the conversion of
the source, the choice of the array reduced into, the reduction itself, and the
copy into the output array. -/
def perform_unary_reduction_run (self : NDArray) (op : UnaryRedCode) (src : NDArray)
    (axis : Option (List Int)) (keepdims : Option Bool) (args : Option (List NDArray))
    (initial : Option Scalar) (where_ : Option NDArray) (setup : ReductionSetup) :
    M NDArray := do
  let src ← if setup.dtype ≠ src.type then src.as_type setup.dtype else pure src
  let result ←
    if setup.out.type ≠ setup.res_dtype then create_array setup.out_shape setup.res_dtype true
    else pure setup.out
  let where_array ←
    match where_ with
    | some w => do
      let w ← broadcast_where w src
      pure (some w)
    | none => pure none
  let argred := is_argred op
  let result ←
    if argred then do
      M.cassert (!initial.isSome)
      let argred_dtype := get_argred_type src.type
      create_array result.shape argred_dtype true
    else pure result
  result.unary_reduction op src where_array axis (some setup.axes) keepdims args initial
  if argred then self.unary_op .GETARG result else M.ret ()
  if setup.out.type ≠ result.type then setup.out.convert result none else M.ret ()
  return setup.out

/-- `NDArray::_perform_unary_reduction(op, src, axis, dtype, res_dtype, out,
keepdims, args, initial, where)`. -/
def _perform_unary_reduction (self : NDArray) (op : UnaryRedCode) (src : NDArray)
    (axis : Option (List Int)) (dtype res_dtype : Option DType) (out : Option NDArray)
    (keepdims : Option Bool) (args : Option (List NDArray)) (initial : Option Scalar)
    (where_ : Option NDArray) : M NDArray := do
  let setup ← perform_unary_reduction_checks op src axis dtype res_dtype out keepdims where_
  perform_unary_reduction_run self op src axis keepdims args initial where_ setup

/-- `NDArray::_convert_future_to_regionfield(change_shape)`. -/
def _convert_future_to_regionfield (self : NDArray) (change_shape : Bool) : M NDArray :=
  if change_shape ∧ self.dim = 0 then do
    let out ← create_array [1] self.type false
    out.assign self
    return out
  else do
    let out ← create_array self.shape self.type false
    out.assign self
    return out

/-- `NDArray::_wrap(new_len)`. -/
def _wrap (self : NDArray) (new_len : Nat) : M NDArray :=
  if 0 = new_len then create_array [0] self.type true
  else if self.size = 0 then M.raise .wrap_empty
  else if 1 = new_len then do
    let tmp_store ← self.store_.withView
      ((List.range self.dim).foldlM (fun (s : LogicalStore) _ => s.project 0 0)
        self.store_.view)
    let tmp_arr : NDArray := { store_ := tmp_store }
    let out ← create_array tmp_arr.shape tmp_arr.type true
    out.assign tmp_arr
    return out
  else do
    let src ←
      if self.store_.has_scalar_storage || self.store_.transformed then
        self._convert_future_to_regionfield self.store_.has_scalar_storage
      else pure self
    let task ← create_task .CUNUMERIC_WRAP
    let indirect ← create_array [new_len] (DType.point_type src.dim) false
    let task := (task.add_output indirect.store_).1
    let task := task.add_scalar_arg (.uint64s src.shape)
    let task := task.add_scalar_arg (.bool false)
    let task := task.add_scalar_arg (.bool false)
    submit task
    let out ← create_array [new_len] src.type false
    issue_gather out.store_ src.store_ indirect.store_
    return out

/-- `NDArray::_warn_and_convert(type)`. -/
def _warn_and_convert (self : NDArray) (type : DType) : M NDArray :=
  if self.type ≠ type then do
    log_warning type
    self.as_type type
  else M.ret self

/-- `NDArray::wrap_indices(n)`; the value of
`static_cast<int32_t>(cunumeric::BinaryOpCode::MOD)` is that of the build. -/
def wrap_indices (self : NDArray) (n : Scalar) : M NDArray := do
  let out ← create_array self.shape self.type true
  let divisor ← full [] n
  let rt ← M.runtime
  out.binary_op rt.build.BinaryOpCode_MOD self divisor
  return out

/-- Modelled from the spec: the element that the `CUNUMERIC_BINARY_OP` task of
`wrap_indices` stores for the `int64` index `i` and the scalar `n`. The kernel
of that task is outside the sources; under the operation `MOD` on an integral
type it computes, in the spec's words, the "truncating remainder
(language-arithmetic `%`)", which is what the integral overload of
`BinaryOp<MOD>` of `binary_op.h` returns. -/
def wrap_indices_element (i n : Int) : Option Int := MOD_integral .INT64_LT i n

/-- `NDArray::clip_indices(min, max)`. -/
def clip_indices (self : NDArray) (min max : Scalar) : M NDArray := do
  let out ← create_array self.shape self.type true
  let task ← create_task .CUNUMERIC_UNARY_OP
  let (task, p_out) := task.add_output out.store_
  let (task, p_in) := task.add_input self.store_
  let task := task.add_scalar_arg (.unaryOp .CLIP)
  let task := task.add_scalar_arg min
  let task := task.add_scalar_arg max
  let task := task.add_constraint (.align p_out p_in)
  submit task
  return out

/-- `NDArray::put(indices, values, mode)`. -/
def put (self indices values : NDArray) (mode : String) : M Unit :=
  if values.size = 0 ∨ indices.size = 0 ∨ self.size = 0 then M.ret ()
  else if mode ≠ "raise" ∧ mode ≠ "wrap" ∧ mode ≠ "clip" then M.raise .put_mode
  else do
    let indices ← indices._warn_and_convert DType.int64
    let values ← values._warn_and_convert self.type
    let indices ← if indices.dim > 1 then indices._wrap indices.size else pure indices
    let values ←
      if values.dim ≠ indices.dim ∨ values.size ≠ indices.size then values._wrap indices.size
      else pure values
    let indices ←
      if mode = "wrap" then indices.wrap_indices (.int64 self.size)
      else if mode = "clip" then indices.clip_indices (.int64 0) (.int64 ((self.size : Int) - 1))
      else pure indices
    let indices ←
      if indices.store_.has_scalar_storage || indices.store_.transformed then
        indices._convert_future_to_regionfield indices.store_.has_scalar_storage
      else pure indices
    let values ←
      if values.store_.has_scalar_storage || values.store_.transformed then
        values._convert_future_to_regionfield values.store_.has_scalar_storage
      else pure values
    let (need_copy, self_tmp) ←
      if self.store_.has_scalar_storage || self.store_.transformed then do
        let self_tmp ← self._convert_future_to_regionfield self.store_.has_scalar_storage
        pure (true, self_tmp)
      else pure (false, self)
    let check_bounds := decide (mode = "raise")
    let task ← create_task .CUNUMERIC_WRAP
    let indirect ← create_array indices.shape (DType.point_type self_tmp.dim) false
    let (task, p_indirect) := task.add_output indirect.store_
    let (task, p_indices) := task.add_input indices.store_
    let task := task.add_scalar_arg (.uint64s self_tmp.shape)
    let task := task.add_scalar_arg (.bool true)
    let task := task.add_scalar_arg (.bool check_bounds)
    let task := task.add_constraint (.align p_indices p_indirect)
    let task := task.throws_exception true
    submit task
    issue_scatter self_tmp.store_ indirect.store_ values.store_
    if need_copy then do
      let self_tmp ←
        if self.store_.has_scalar_storage then do
          let projected ← self_tmp.store_.withView (self_tmp.store_.view.project 0 0)
          pure ({ store_ := projected } : NDArray)
        else pure self_tmp
      self.assign self_tmp
    else M.ret ()

end NDArray

/-! ## Observations of the runtime and sample arrays -/

/-- A runtime that has not been handed anything yet, on one CPU, built without
`DEBUG_CUNUMERIC` and with assertions; 11 and 13 stand for the values of the
enumerators `MOD` and `NOT_EQUAL`. -/
def sampleRuntime : Runtime :=
  { build := { debug_cunumeric := false, ndebug := false, BinaryOpCode_MOD := 11,
               BinaryOpCode_NOT_EQUAL := 13 }
    machine := { count := 1, gpus := 0 }
    log := [], next_store := 100, next_task := 0, next_epoch := 0, identities := [] }

/-- An array over backing storage `b` with the given shape and element type. -/
def NDArray.ofShape (b : Nat) (shape : List Nat) (type : DType) : NDArray :=
  { store_ := { view := LogicalStore.ofShape b shape, type := type, unbound := false,
                scalar := false } }

/-- The extents of the inputs of every task submitted, in order. -/
def submitted_input_shapes (rt : Runtime) : List (List (List Nat)) :=
  rt.log.filterMap fun e =>
    match e with
    | .submit t => some (t.inputs.map fun i => i.1.view.extents)
    | _ => none

/-- The constraints of every task submitted, in order. -/
def submitted_constraints (rt : Runtime) : List (List Constraint) :=
  rt.log.filterMap fun e =>
    match e with
    | .submit t => some t.constraints
    | _ => none

/-- The reduction tasks among what was handed to the runtime, in order. -/
def submitted_reductions (rt : Runtime) : List Task :=
  rt.log.filterMap fun e =>
    match e with
    | .submit t =>
      if t.task_id = .CUNUMERIC_UNARY_RED ∨ t.task_id = .CUNUMERIC_SCALAR_UNARY_RED then some t
      else none
    | _ => none

/-- The call `m` never fails with the multiple-dimensions error. -/
def NoMultipleDimensions {α : Type} (m : M α) : Prop :=
  ∀ rt, (m rt).1 ≠ .error .multiple_dimensions

/-- The (arg)max/min reductions that a complex source does not support. -/
def complex_rejected (op : UnaryRedCode) (src : NDArray) : Prop :=
  (src.type = DType.complex64 ∨ src.type = DType.complex128) ∧
    op ∈ [UnaryRedCode.ARGMAX, .ARGMIN, .MAX, .MIN]

instance (op : UnaryRedCode) (src : NDArray) : Decidable (complex_rejected op src) := by
  unfold complex_rejected; infer_instance

/-- The normalised form of an axis list whose entries all are in range. -/
def normalized_axes (axes : List Int) (ndim : Nat) : List Int :=
  axes.map fun x => if x < 0 then x + ndim else x

/-- The axes `_perform_unary_reduction` reduces: all of them when no axis is
given, the normalised ones otherwise. -/
def reduced_axes (axis : Option (List Int)) (ndim : Nat) : List Int :=
  match axis with
  | none => (List.range ndim).map Int.ofNat
  | some a => normalized_axes a ndim

/-- The element types `_perform_unary_reduction` settles on, first the one
computed in, then the one of the result. -/
def resolved_types (src : NDArray) (dtype res_dtype : Option DType) (out : Option NDArray) :
    DType × DType :=
  match res_dtype with
  | some r => (src.type, r)
  | none =>
    match dtype with
    | some d => (d, d)
    | none =>
      match out with
      | some o => (o.type, o.type)
      | none => (src.type, src.type)

/-! ## The cache of reduction identities -/

/-- Modelled from the spec: a range of an axis (`legate::Slice`, which `slice` names): a
start and a stop, each of them open when absent. -/
structure Slice where
  start : Option Int
  stop : Option Int
  deriving DecidableEq

/-- Modelled from the spec: `LogicalStore::slice(dim, sl)`, absent from the sources. It
restricts axis `dim` to the range of `sl`: an open start is 0, an open stop is
the extent, a negative bound counts from the end; the other axes are untouched.
It is rejected when `dim` is not an axis, or when the range is non-empty and
leaves the axis. -/
def LogicalStore.slice (s : LogicalStore) (dim : Nat) (sl : Slice) :
    Except StoreError LogicalStore :=
  match s.axes[dim]? with
  | none => .error .invalidSlice
  | some ax =>
    let extent : Int := ax.extent
    let start := sl.start.getD 0
    let stop := sl.stop.getD extent
    let start := if start < 0 then start + extent else start
    let stop := if stop < 0 then stop + extent else stop
    let start := (max 0 start).toNat
    let stop := (max 0 stop).toNat
    if start < stop ∧ (ax.extent ≤ start ∨ ax.extent < stop) then .error .sliceOutOfBounds
    else
      .ok { s with
            axes := s.axes.set dim { ax with extent := stop - start }
            transforms := s.transforms ++ [.slice dim start stop] }

/-- Conversion of an `int32_t` to `uint64_t`: reduction modulo `2^64`. -/
def to_uint64 (x : Int) : Nat := (x % 2 ^ 64).toNat

/-- Subtraction of `uint64_t` values: modulo `2^64`. -/
def usub64 (x y : Nat) : Nat := (x + 2 ^ 64 - y % 2 ^ 64) % 2 ^ 64

/-- Reduction of an integer to the range of `int32_t`. -/
def wrap_int32 (x : Int) : Int := (x + 2 ^ 31) % 2 ^ 32 - 2 ^ 31

/-- The view in which the `i`-th slice of the list is applied to axis `i`,
counted from `first`, and the remaining axes are untouched. -/
def slice_each_axis : List Slice → Nat → LogicalStore → Except StoreError LogicalStore
  | [], _, s => .ok s
  | sl :: rest, first, s => (s.slice first sl).bind (slice_each_axis rest (first + 1))

namespace NDArray

/-- `NDArray::operator[](slices)`. The loop carries the counter `dim` along
with the view. -/
def getitem (self : NDArray) (slices : List Slice) : M NDArray :=
  if slices.length > self.dim then M.raise .slice_count
  else do
    let (_, sliced) ← M.ofStore
      (slices.foldlM
        (fun (state : Nat × LogicalStore) sl => do
          let sliced ← state.2.slice 0 sl
          pure (state.1 + 1, sliced))
        (0, self.store_.view))
    return { store_ := { self.store_ with view := sliced } }

/-- The call `store_.transpose(axes)` for a vector of `int32_t`. -/
def transpose_view (s : LogicalStore) (axes : List Int) : Except StoreError LogicalStore :=
  if ∃ ax ∈ axes, ax < 0 then .error .invalidTransposition
  else s.transpose (axes.map Int.toNat)

/-- `NDArray::transpose(axes)`. -/
def transpose (self : NDArray) (axes : List Int) : M NDArray :=
  if self.dim = 1 then M.ret self
  else if axes.length ≠ self.dim then M.raise .transpose_axes_size
  else do
    let store ← self.store_.withView (transpose_view self.store_.view axes)
    return { store_ := store }

end NDArray

/-- The element `v.end()[-i]` of a vector: the `i`-th from the end, counted
from 1. A read before the beginning is outside the vector and modelled as 0. -/
def from_end (v : List Nat) (i : Nat) : Nat :=
  if i ≤ v.length then v.getD (v.length - i) 0 else 0

/-- The element `v[i]` of a vector for an `int32_t` index; a read at a negative
index is outside the vector and modelled as 0. -/
def at_index (v : List Nat) (i : Int) : Nat :=
  if i < 0 then 0 else v.getD i.toNat 0

/-- The call `store.slice(dim, sl)` for an `int32_t` axis. -/
def slice_axis (s : LogicalStore) (dim : Int) (sl : Slice) : Except StoreError LogicalStore :=
  if dim < 0 then .error .invalidSlice else s.slice dim.toNat sl

namespace NDArray

/-- The views `diag_task` builds when it extracts a diagonal: the matrix cut at
the offset, the diagonal promoted to the rank of the matrix. -/
def diag_extract_views (diag matrix : LogicalStore) (ndim : Nat) (offset : Int) (naxes : Nat)
    (trace : Bool) : Except StoreError (LogicalStore × LogicalStore) := do
  let start : Int := (matrix.dim : Int) - naxes
  let n : Int := (ndim : Int) - 1
  if naxes = 2 then do
    let matrix ←
      if offset > 0 then slice_axis matrix (start + 1) ⟨some offset, none⟩ else pure matrix
    if trace then
      if ndim = 2 then do
        let diag ← diag.promote 0 (matrix.extents.getD 0 0)
        let diag ← diag.project 1 0
        let diag ← diag.promote 1 (matrix.extents.getD 1 0)
        return (diag, matrix)
      else do
        let diag ← (List.range naxes).foldlM
          (fun (diag : LogicalStore) (i : Nat) =>
            promote_axis diag start (from_end matrix.extents (i + 1)))
          diag
        return (diag, matrix)
    else
      if at_index matrix.extents (n - 1) < at_index matrix.extents n then do
        let diag ← promote_axis diag (start + 1) (at_index matrix.extents ((ndim : Int) - 1))
        return (diag, matrix)
      else do
        let diag ← promote_axis diag start (at_index matrix.extents ((ndim : Int) - 2))
        return (diag, matrix)
  else do
    let diag ← (List.range (naxes - 1)).foldlM
      (fun (diag : LogicalStore) (i : Nat) =>
        promote_axis diag start (from_end matrix.extents (i + 2)))
      diag
    return (diag, matrix)

/-- The views `diag_task` builds when it writes a diagonal into a matrix: the
matrix cut at the offset, the diagonal promoted along the longer side. -/
def diag_build_views (diag matrix : LogicalStore) (shape : List Nat) (offset : Int) :
    Except StoreError (LogicalStore × LogicalStore) := do
  let matrix ←
    if offset > 0 then matrix.slice 1 ⟨some offset, none⟩
    else if offset < 0 then matrix.slice 0 ⟨some (wrap_int32 (-offset)), none⟩
    else pure matrix
  let diag ←
    if shape.getD 0 0 < shape.getD 1 0 then diag.promote 1 (shape.getD 1 0)
    else diag.promote 0 (shape.getD 0 0)
  return (diag, matrix)

/-- `NDArray::diag_task(rhs, offset, naxes, extract, trace)`. -/
def diag_task (self rhs : NDArray) (offset : Int) (naxes : Nat) (extract trace : Bool) :
    M Unit := do
  let zero := generate_zero self.type
  self.fill zero
  if extract then do
    let (diag, matrix) ← M.ofStore
      (diag_extract_views self.store_.view rhs.store_.view rhs.dim offset naxes trace)
    let task ← create_task .CUNUMERIC_DIAG
    let redop ← get_reduction_op .SUM
    let (task, p_diag) := task.add_reduction { self.store_ with view := diag } redop
    let (task, p_matrix) := task.add_input { rhs.store_ with view := matrix }
    let task := task.add_constraint (.align p_matrix p_diag)
    let task := task.add_scalar_arg (.int32 naxes)
    let task := task.add_scalar_arg (.bool extract)
    submit task
  else do
    let (diag, matrix) ← M.ofStore
      (diag_build_views rhs.store_.view self.store_.view self.shape offset)
    let task ← create_task .CUNUMERIC_DIAG
    let (task, p_matrix) := task.add_output { self.store_ with view := matrix }
    let (task, p_diag) := task.add_input { rhs.store_ with view := diag }
    let task := task.add_input_at { self.store_ with view := matrix } p_matrix
    let task := task.add_constraint (.align p_diag p_matrix)
    let task := task.add_scalar_arg (.int32 naxes)
    let task := task.add_scalar_arg (.bool extract)
    submit task

/-- The branch `N == 2` of `NDArray::diag_helper`: the two axes go last, in the
order the sign of the offset decides; a negative offset is negated (in
`int32_t`); the offset is compared with the last extent as a `uint64_t`; the
length of the diagonal is computed in `uint64_t`. It returns the transposed
array, the length and the offset it leaves. -/
def diag_helper_two_axes (self : NDArray) (offset : Int) (axes transpose_axes : List Int) :
    M (NDArray × Nat × Int) := do
  let (transpose_axes, offset) :=
    if offset ≥ 0 then (transpose_axes ++ [axes.getD 0 0, axes.getD 1 0], offset)
    else (transpose_axes ++ [axes.getD 1 0, axes.getD 0 0], wrap_int32 (-offset))
  let a ← self.transpose transpose_axes
  if to_uint64 offset ≥ a.shape.getD (self.dim - 1) 0 then M.raise .diag_offset_out_of_range
  else
    let diag_size :=
      max 0 (min (from_end a.shape 2) (usub64 (from_end a.shape 1) (to_uint64 offset)))
    return (a, diag_size, offset)

/-- The branch `N > 2` of `NDArray::diag_helper`: no offset is taken; the axes
go last, from the longest to the shortest. `std::sort` leaves the order of
axes of equal extent open; the model sorts by insertion. -/
def diag_helper_many_axes (self : NDArray) (offset : Int) (axes transpose_axes : List Int) :
    M (NDArray × Nat × Int) :=
  if offset ≠ 0 then M.raise .diag_offset_many_axes
  else do
    let axes :=
      (axes.insertionSort fun i j => at_index self.shape i ≤ at_index self.shape j).reverse
    let a ← self.transpose (transpose_axes ++ axes)
    return (a, a.shape.getD (a.dim - 1) 0, offset)

/-- `NDArray::diag_helper(offset, axes, extract, trace, type, out)`. -/
def diag_helper (self : NDArray) (offset : Int) (axes : List Int) (extract trace : Bool)
    (type : Option DType) (out : Option NDArray) : M NDArray :=
  if self.dim ≤ 1 then M.raise .diag_dim
  else if out.isSome ∧ trace = false then M.raise .diag_out_without_trace
  else if type.isSome ∧ trace = false then M.raise .diag_type_without_trace
  else do
    let N := axes.length
    M.cassert (decide (N > 0))
    if N ≠ (axes.map to_uint64).dedup.length then M.raise .diag_axes_not_different
    else if self.dim < N then M.raise .diag_too_many_axes
    else do
      let transpose_axes :=
        ((List.range self.dim).filter fun (ax : Nat) => (ax : Int) ∉ axes).map Int.ofNat
      let _ ← create_unbound_array self.store_.type
      let (a, diag_size, offset) ←
        (if N = 2 then diag_helper_two_axes self offset axes transpose_axes
         else if N > 2 then diag_helper_many_axes self offset axes transpose_axes
         else M.raise .diag_too_few_axes)
      let tr_shape := a.shape.take (a.dim - N)
      let out_shape ←
        (if trace then
          if N ≠ 2 then M.raise .trace_two_axes
          else if self.dim = 2 then M.ret [1]
          else if self.dim > 2 then M.ret tr_shape
          else M.raise .trace_dim
         else M.ret (tr_shape ++ [diag_size]))
      if out.isSome ∧ (out.map NDArray.shape) ≠ some out_shape then M.raise .diag_out_shape
      else do
        let res_type :=
          match type with
          | some t => t
          | none =>
            match out with
            | some o => o.type
            | none => self.store_.type
        let a ← (if self.store_.type ≠ res_type then a.as_type res_type else M.ret a)
        match out with
        | some o =>
          if o.type = res_type then do
            o.diag_task a offset N extract trace
            return o
          else do
            let res ← create_array out_shape res_type true
            res.diag_task a offset N extract trace
            o.assign res
            return res
        | none => do
          let res ← create_array out_shape res_type true
          res.diag_task a offset N extract trace
          return res

end NDArray

/-! ## Properties of `NDArray::broadcast` -/

/-- One more iteration of a counted loop with early exit. -/
theorem foldlM_range_succ {α : Type} (f : α → Nat → Except StoreError α) (init : α) (k : Nat) :
    (List.range (k + 1)).foldlM f init = (List.range k).foldlM f init >>= fun r => f r k := by
  rw [List.range_succ, List.foldlM_append]
  congr 1
  funext r
  simp [List.foldlM_cons, List.foldlM_nil]

/-- The first loop of `broadcast` never fails: after `k` iterations it has put `k`
zero-stride axes in front of the store, with the leading extents of the shape. -/
theorem promoteLoop_eq (shape : List Nat) (store : LogicalStore) (k : Nat) :
    (List.range k).foldlM (promoteStep shape) store =
      .ok { store with
            axes := (List.range k).map (fun d => bcastAxis (shape.getD d 0)) ++ store.axes
            transforms := store.transforms ++
              (List.range k).map (fun d => Transform.promote d (shape.getD d 0)) } := by
  induction k with
  | zero => simp [pure, Except.pure]
  | succ k ih =>
    rw [foldlM_range_succ, ih]
    simp only [bind, Except.bind, promoteStep, LogicalStore.promote, LogicalStore.dim]
    have hlen : k ≤ ((List.range k).map (fun d => bcastAxis (shape.getD d 0)) ++ store.axes).length := by
      simp
    rw [if_pos hlen]
    congr 1
    simp only [List.range_succ, List.map_append, List.map_cons, List.map_nil, List.append_assoc]
    have h1 : ((List.range k).map (fun d => bcastAxis (shape.getD d 0))).length = k := by simp
    congr 1
    rw [List.take_append_of_le_length (by simp), List.drop_append_of_le_length (by simp)]
    rw [List.take_of_length_le (by simp), List.drop_of_length_le (by simp)]
    simp [bcastAxis]

/-- Projecting axis `k` at index 0 and promoting it again replaces the axis by a
zero-stride one. -/
theorem project_promote_eq (res : LogicalStore) (k s : Nat) (a : Axis)
    (ha : res.axes[k]? = some a) (hpos : 0 < a.extent) :
    (res.project k 0 >>= fun p => p.promote k s) =
      .ok { res with
            axes := res.axes.set k (bcastAxis s)
            transforms := res.transforms ++ [.project k 0, .promote k s] } := by
  have hk : k < res.axes.length := by
    rcases List.getElem?_eq_some_iff.mp ha with ⟨h, _⟩
    exact h
  simp only [LogicalStore.project, ha, if_pos hpos, bind, Except.bind, LogicalStore.promote,
    LogicalStore.dim]
  have hlen : k ≤ (res.axes.take k ++ res.axes.drop (k + 1)).length := by
    simp [List.length_take]; omega
  rw [if_pos hlen]
  congr 1
  have htl : (res.axes.take k).length = k := by simp [List.length_take]; omega
  have e1 : List.take k (List.take k res.axes ++ List.drop (k + 1) res.axes) = List.take k res.axes := by
    rw [List.take_append_of_le_length (by omega), List.take_of_length_le (by omega)]
  have e2 : List.drop k (List.take k res.axes ++ List.drop (k + 1) res.axes)
      = List.drop (k + 1) res.axes := by
    rw [List.drop_append_of_le_length (by omega), List.drop_of_length_le (by omega)]
    simp
  simp only [e1, e2, List.append_assoc, List.cons_append, List.nil_append]
  congr 1
  rw [List.set_eq_take_append_cons_drop]
  simp [hk, bcastAxis]

/-- What the second loop of `broadcast` has done to the view after its first
`k` iterations, whenever it got that far. -/
theorem stretchLoop_inv (debug : Bool) (shape orig : List Nat) (res : LogicalStore) :
    ∀ (k : Nat) (r : LogicalStore),
      (List.range k).foldlM (stretchStep debug shape orig) res = .ok r →
      r.backing = res.backing ∧ r.axes.length = res.axes.length ∧
      ∀ j, r.axes[j]? =
        if j < k ∧ j < res.axes.length ∧ orig.getD j 0 ≠ shape.getD j 0
        then some (bcastAxis (shape.getD j 0)) else res.axes[j]? := by
  intro k
  induction k with
  | zero =>
    intro r h
    simp [pure, Except.pure] at h
    subst h
    simp
  | succ k ih =>
    intro r h
    rw [foldlM_range_succ] at h
    cases hp : (List.range k).foldlM (stretchStep debug shape orig) res with
    | error e => rw [hp] at h; simp [bind, Except.bind] at h
    | ok rk =>
      rw [hp] at h
      obtain ⟨hb, hl, hax⟩ := ih rk hp
      simp only [bind, Except.bind, stretchStep] at h
      by_cases hne : orig.getD k 0 ≠ shape.getD k 0
      · rw [if_pos hne] at h
        cases hd : debugAssert debug (orig.getD k 0 == 1) with
        | error e => rw [hd] at h; simp at h
        | ok u =>
          rw [hd] at h
          simp only at h
          cases hx : rk.axes[k]? with
          | none =>
            simp [LogicalStore.project, hx] at h
          | some a =>
            by_cases hpos : 0 < a.extent
            · have := project_promote_eq rk k (shape.getD k 0) a hx hpos
              simp only [bind, Except.bind] at this
              rw [this] at h
              simp only [Except.ok.injEq] at h
              subst h
              have hk : k < res.axes.length := by
                rcases List.getElem?_eq_some_iff.mp hx with ⟨h, _⟩
                omega
              refine ⟨hb, by simpa using hl, ?_⟩
              intro j
              simp only [List.getElem?_set]
              by_cases hjk : k = j
              · subst hjk
                simp [-List.getD_eq_getElem?_getD, hl, hk, hne]
              · rw [if_neg hjk, hax j]
                have : (j < k + 1) ↔ (j < k) := by
                  constructor <;> intro h' <;> omega
                simp only [this]
            · simp [LogicalStore.project, hx, hpos] at h
      · rw [if_neg hne] at h
        simp only [Except.ok.injEq] at h
        subst h
        refine ⟨hb, hl, ?_⟩
        intro j
        rw [hax j]
        by_cases hjk : j = k
        · subst hjk
          simp [-List.getD_eq_getElem?_getD, hne]
        · have : (j < k + 1) ↔ (j < k) := by
            constructor <;> intro h' <;> omega
          simp only [this]

/-- The second loop of `broadcast` runs to completion when every mismatching
axis has extent 1. -/
theorem stretchLoop_ok (debug : Bool) (shape : List Nat) (res : LogicalStore) :
    ∀ (k : Nat), k ≤ res.axes.length →
      (∀ j, j < k → res.extents.getD j 0 ≠ shape.getD j 0 → res.extents.getD j 0 = 1) →
      ∃ r, (List.range k).foldlM (stretchStep debug shape res.extents) res = .ok r := by
  intro k
  induction k with
  | zero => intro _ _; exact ⟨res, by simp [pure, Except.pure]⟩
  | succ k ih =>
    intro hk hc
    obtain ⟨rk, hrk⟩ := ih (by omega) (fun j hj => hc j (by omega))
    obtain ⟨_, hl, hax⟩ := stretchLoop_inv debug shape res.extents res k rk hrk
    rw [foldlM_range_succ, hrk]
    simp only [bind, Except.bind, stretchStep]
    by_cases hne : res.extents.getD k 0 ≠ shape.getD k 0
    · rw [if_pos hne]
      have h1 := hc k (by omega) hne
      have hd : debugAssert debug (res.extents.getD k 0 == 1) = .ok () := by
        simp [-List.getD_eq_getElem?_getD, debugAssert, h1]
      rw [hd]
      simp only
      have hx : rk.axes[k]? = some (res.axes.get ⟨k, by omega⟩) := by
        rw [hax k]
        simp
      have hpos : 0 < (res.axes.get ⟨k, by omega⟩).extent := by
        have : res.extents.getD k 0 = (res.axes.get ⟨k, by omega⟩).extent := by
          simp [LogicalStore.extents, List.getD_eq_getElem?_getD, List.getElem?_map,
            List.getElem?_eq_getElem (show k < res.axes.length by omega)]
        omega
      have := project_promote_eq rk k (shape.getD k 0) _ hx hpos
      simp only [bind, Except.bind] at this
      exact ⟨_, this⟩
    · rw [if_neg hne]
      exact ⟨rk, rfl⟩

/-- The second loop of `broadcast` leaves a view alone whose leading extents
already are those of the target. -/
theorem stretchLoop_noop (debug : Bool) (shape orig : List Nat) (res : LogicalStore) :
    ∀ (k : Nat), (∀ j, j < k → orig.getD j 0 = shape.getD j 0) →
      (List.range k).foldlM (stretchStep debug shape orig) res = .ok res := by
  intro k
  induction k with
  | zero => intro _; simp [pure, Except.pure]
  | succ k ih =>
    intro hc
    rw [foldlM_range_succ, ih (fun j hj => hc j (by omega))]
    simp [-List.getD_eq_getElem?_getD, bind, Except.bind, stretchStep, hc k (by omega)]

/-- Extent `j` of a view, read off its axes. -/
theorem getD_extents (s : LogicalStore) (j : Nat) :
    s.extents.getD j 0 = (s.axes[j]?.map Axis.extent).getD 0 := by
  simp [LogicalStore.extents, List.getD_eq_getElem?_getD, List.getElem?_map]

/-- A store whose extents, right-aligned against the target shape, are the
target's or 1 broadcasts to a view of exactly that shape: leading axes inserted,
extent-1 axes stretched, the other axes passed through. -/
theorem broadcast_compatible (debug : Bool) (S : List Nat) (store : LogicalStore)
    (hrank : store.dim ≤ S.length)
    (hcompat : ∀ i, i < store.dim →
      store.extents.getD i 0 = S.getD (i + (S.length - store.dim)) 0 ∨
      store.extents.getD i 0 = 1) :
    ∃ r, broadcast debug S store = .ok r ∧
      r.backing = store.backing ∧
      r.dim = S.length ∧
      r.extents = S ∧
      (∀ j, j < S.length - store.dim → r.axes[j]? = some ⟨S.getD j 0, .broadcasted⟩) ∧
      (∀ i, i < store.dim →
        r.axes[i + (S.length - store.dim)]? =
          if store.extents.getD i 0 = S.getD (i + (S.length - store.dim)) 0
          then store.axes[i]?
          else some ⟨S.getD (i + (S.length - store.dim)) 0, .broadcasted⟩) := by
  have hdim : store.axes.length ≤ S.length := hrank
  simp only [LogicalStore.dim] at hcompat ⊢
  generalize hd : S.length - store.axes.length = d at hcompat ⊢
  have hdiff : ((S.length : Int) - (store.axes.length : Int)).toNat = d := by omega
  have hge : decide ((S.length : Int) - (store.axes.length : Int) ≥ 0) = true := by
    simp; omega
  -- the view after the first loop
  obtain ⟨res, hres⟩ : ∃ res : LogicalStore, res =
      { store with
        axes := (List.range d).map (fun k => bcastAxis (S.getD k 0)) ++ store.axes
        transforms := store.transforms ++
          (List.range d).map (fun k => Transform.promote k (S.getD k 0)) } := ⟨_, rfl⟩
  have hlen : res.axes.length = S.length := by
    rw [hres]; simp; omega
  have hresax : ∀ j, res.axes[j]? =
      if j < d then some (bcastAxis (S.getD j 0)) else store.axes[j - d]? := by
    intro j
    rw [hres]
    simp only
    by_cases hj : j < d
    · rw [if_pos hj, List.getElem?_append_left (by simpa using hj)]
      simp [-List.getD_eq_getElem?_getD, hj]
    · rw [if_neg hj, List.getElem?_append_right (by simpa using hj)]
      simp
  have hcond : ∀ j, j < S.length → res.extents.getD j 0 ≠ S.getD j 0 →
      res.extents.getD j 0 = 1 := by
    intro j hj hne
    rw [getD_extents, hresax] at hne ⊢
    by_cases hjd : j < d
    · rw [if_pos hjd] at hne
      simp [bcastAxis] at hne
    · rw [if_neg hjd] at hne ⊢
      have hi : j - d < store.axes.length := by omega
      have := hcompat (j - d) hi
      rw [getD_extents, show j - d + d = j by omega] at this
      rcases this with h | h
      · exact absurd h hne
      · exact h
  obtain ⟨r, hr⟩ := stretchLoop_ok debug S res S.length (by omega) hcond
  obtain ⟨hb, hl, hax⟩ := stretchLoop_inv debug S res.extents res S.length r hr
  have hbro : broadcast debug S store = .ok r := by
    simp only [broadcast, LogicalStore.dim, debugAssert, hge, hdiff, promoteLoop_eq, bind,
      Except.bind, ← hres, hr, hl, hlen, pure, Except.pure]
    simp
  refine ⟨r, hbro, ?_, ?_, ?_, ?_, ?_⟩
  · rw [hb, hres]
  · simp [LogicalStore.dim, hl, hlen]
  · apply List.ext_getElem?
    intro j
    simp only [LogicalStore.extents, List.getElem?_map, hax j]
    by_cases hj : j < S.length
    · by_cases hne : res.extents.getD j 0 ≠ S.getD j 0
      · rw [if_pos ⟨hj, by omega, hne⟩]
        simp [bcastAxis, List.getD_eq_getElem?_getD, List.getElem?_eq_getElem hj]
      · rw [if_neg (by tauto)]
        have hne' : res.extents.getD j 0 = S.getD j 0 := by
          by_contra hcon; exact hne hcon
        rw [getD_extents] at hne'
        have hj' : j < res.axes.length := by omega
        rw [List.getElem?_eq_getElem hj'] at hne' ⊢
        simp [List.getD_eq_getElem?_getD, List.getElem?_eq_getElem hj] at hne' ⊢
        exact hne'
    · rw [if_neg (by omega)]
      simp [List.getElem?_eq_none (show S.length ≤ j by omega),
        List.getElem?_eq_none (show res.axes.length ≤ j by omega)]
  · intro j hj
    rw [hax j, hresax j, if_pos hj]
    have : res.extents.getD j 0 = S.getD j 0 := by
      rw [getD_extents, hresax j, if_pos hj]; simp [bcastAxis]
    rw [if_neg (by tauto)]
    rfl
  · intro i hi
    have hnd : ¬ (i + d < d) := by omega
    have hext : res.extents.getD (i + d) 0 = store.extents.getD i 0 := by
      rw [getD_extents, getD_extents, hresax, if_neg hnd, show i + d - d = i by omega]
    rw [hax (i + d), hresax (i + d), if_neg hnd, show i + d - d = i by omega, hext]
    by_cases he : store.extents.getD i 0 = S.getD (i + d) 0
    · rw [if_pos he, if_neg (by tauto)]
    · rw [if_neg he, if_pos ⟨by omega, by omega, he⟩]
      rfl

/-- C1: when the store has rank at most that of the target shape `S` and each of
its extents, right-aligned against `S`, equals the target extent or 1,
`broadcast` returns a view on the same backing storage, of the rank of `S` and
with exactly the extents `S`. The missing leading axes are inserted as
zero-stride axes of extent `S[j]`; operand axis `i` lands on axis
`i + (r - r')`, untouched when its extent already is the target extent, and
replaced by a zero-stride axis of the target extent otherwise (extent 1). -/
theorem broadcast_right_aligns (debug : Bool) (S : List Nat) (store : LogicalStore)
    (hrank : store.dim ≤ S.length)
    (hcompat : ∀ i, i < store.dim →
      store.extents.getD i 0 = S.getD (i + (S.length - store.dim)) 0 ∨
      store.extents.getD i 0 = 1) :
    ∃ r, broadcast debug S store = .ok r ∧
      r.backing = store.backing ∧
      r.dim = S.length ∧
      r.extents = S ∧
      (∀ j, j < S.length - store.dim → r.axes[j]? = some ⟨S.getD j 0, .broadcasted⟩) ∧
      (∀ i, i < store.dim →
        r.axes[i + (S.length - store.dim)]? =
          if store.extents.getD i 0 = S.getD (i + (S.length - store.dim)) 0
          then store.axes[i]?
          else some ⟨S.getD (i + (S.length - store.dim)) 0, .broadcasted⟩) :=
  broadcast_compatible debug S store hrank hcompat

/-- The operand of shape `[3, 1]` broadcast to the target `[2, 3, 4]`. -/
theorem broadcast_right_aligns_witness :
    ∃ r, broadcast false [2, 3, 4] sampleOperand = .ok r ∧
      r.backing = sampleOperand.backing ∧
      r.dim = [2, 3, 4].length ∧
      r.extents = [2, 3, 4] ∧
      (∀ j, j < [2, 3, 4].length - sampleOperand.dim →
        r.axes[j]? = some ⟨[2, 3, 4].getD j 0, .broadcasted⟩) ∧
      (∀ i, i < sampleOperand.dim →
        r.axes[i + ([2, 3, 4].length - sampleOperand.dim)]? =
          if sampleOperand.extents.getD i 0 =
            [2, 3, 4].getD (i + ([2, 3, 4].length - sampleOperand.dim)) 0
          then sampleOperand.axes[i]?
          else some ⟨[2, 3, 4].getD (i + ([2, 3, 4].length - sampleOperand.dim)) 0,
            .broadcasted⟩) :=
  broadcast_right_aligns false [2, 3, 4] sampleOperand (by decide) (by decide)

/-- C3: broadcasting is idempotent. Whenever `broadcast S A` returns a view `r`,
`broadcast S r` returns that same view: same axes, and no promotion or
projection added to its transformations. -/
theorem broadcast_idempotent (debug : Bool) (S : List Nat) (A r : LogicalStore)
    (h : broadcast debug S A = .ok r) : broadcast debug S r = .ok r := by
  simp only [broadcast, promoteLoop_eq, bind, Except.bind] at h
  cases ha : debugAssert debug (decide ((S.length : Int) - (A.dim : Int) ≥ 0)) with
  | error e => rw [ha] at h; simp at h
  | ok u =>
    rw [ha] at h
    simp only at h
    generalize hres : ({ A with
        axes := (List.range ((S.length : Int) - (A.dim : Int)).toNat).map
          (fun k => bcastAxis (S.getD k 0)) ++ A.axes
        transforms := A.transforms ++
          (List.range ((S.length : Int) - (A.dim : Int)).toNat).map
            (fun k => Transform.promote k (S.getD k 0)) } : LogicalStore) = res at h
    have hlen : S.length ≤ res.axes.length := by
      rw [← hres]; simp [LogicalStore.dim]; omega
    cases hl2 : (List.range S.length).foldlM (stretchStep debug S res.extents) res with
    | error e => rw [hl2] at h; simp at h
    | ok r2 =>
      rw [hl2] at h
      simp only at h
      cases hfin : debugAssert debug (r2.dim == S.length) with
      | error e => rw [hfin] at h; simp at h
      | ok u2 =>
        rw [hfin] at h
        simp only [pure, Except.pure, Except.ok.injEq] at h
        subst h
        obtain ⟨_, hl, hax⟩ := stretchLoop_inv debug S res.extents res S.length r2 hl2
        have hext : ∀ j, j < S.length → r2.extents.getD j 0 = S.getD j 0 := by
          intro j hj
          rw [getD_extents, hax j]
          by_cases hne : res.extents.getD j 0 ≠ S.getD j 0
          · rw [if_pos ⟨hj, by omega, hne⟩]; simp [bcastAxis]
          · rw [if_neg (by tauto), ← getD_extents]
            by_contra hcon; exact hne hcon
        have hdim : S.length ≤ r2.dim := by simp only [LogicalStore.dim]; omega
        have hz : ((S.length : Int) - (r2.dim : Int)).toNat = 0 := by omega
        have hfirst : debugAssert debug (decide ((S.length : Int) - (r2.dim : Int) ≥ 0))
            = .ok () := by
          cases debug with
          | false => simp [debugAssert]
          | true =>
            have : r2.dim = S.length := by
              simpa [debugAssert] using hfin
            simp [debugAssert, this]
        simp only [broadcast, hz, hfirst, bind, Except.bind, List.range_zero, List.foldlM_nil,
          pure, Except.pure, stretchLoop_noop debug S r2.extents r2 S.length hext, hfin]

/-- Broadcasting the operand of shape `[3, 1]` to `[2, 3, 4]` a second time. -/
theorem broadcast_idempotent_witness :
    broadcast false [2, 3, 4] sampleBroadcast = .ok sampleBroadcast :=
  broadcast_idempotent false [2, 3, 4] sampleOperand sampleBroadcast rfl

/-- C2: in a build without `DEBUG_CUNUMERIC`, broadcasting a store of shape `[2]`
to the target `[3]` reports no error: the axis of extent 2 is projected onto
its index 0 and stretched to extent 3. -/
theorem broadcast_mismatch_not_detected :
    broadcast false [3] (LogicalStore.ofShape 0 [2]) =
      .ok { backing := 0
            axes := [⟨3, .broadcasted⟩]
            transforms := [.project 0 0, .promote 0 3] } := by
  rfl


/-! ## Properties of the dispatch table and of the numeric functors -/

/-- C4: the validity bit is false exactly for `FLOOR_DIVIDE` and `MOD` on the two
complex types, and true for every other pair of an operation code and an
element type. -/
theorem BinaryOp_valid_table (op : BinaryOpCode) (ty : LegateTypeCode) :
    BinaryOp.valid op ty = false ↔
      (op = .FLOOR_DIVIDE ∨ op = .MOD) ∧ (ty = .COMPLEX64_LT ∨ ty = .COMPLEX128_LT) := by
  cases op <;> cases ty <;> simp [BinaryOp.valid]

/-- C5: for each of the fifteen operation codes `c`, `op_dispatch` leaves the
`switch` through a `case` label and returns `f` instantiated with that same
code `c`; neither the `assert(false)` nor the trailing `ADD` instantiation is
reached. -/
theorem op_dispatch_total {α β : Type} (ndebug : Bool) (c : BinaryOpCode)
    (f : BinaryOpCode → α → β) (args : α) :
    op_dispatch ndebug c.toInt f args = .viaCase (f c args) := by
  cases c <;> simp [op_dispatch, BinaryOpCode.toInt]

/-- Rounding toward zero commutes with negation. -/
theorem trunc_neg (q : ℚ) : trunc (-q) = -trunc q := by
  unfold trunc
  rcases lt_trichotomy q 0 with h | h | h
  · rw [if_pos (by linarith), if_neg (by linarith), Int.floor_neg]
  · subst h; simp
  · rw [if_neg (by linarith), if_pos (by linarith), Int.ceil_neg]

/-- Rounding the exact quotient toward zero, non-negative dividend and positive
divisor. -/
theorem trunc_div_of_nonneg (a b : Int) (ha : 0 ≤ a) (hb : 0 < b) :
    trunc ((a : ℚ) / (b : ℚ)) = Int.tdiv a b := by
  have hq : (0 : ℚ) ≤ (a : ℚ) / (b : ℚ) := by positivity
  obtain ⟨n, rfl⟩ := Int.eq_ofNat_of_zero_le hb.le
  rw [trunc, if_pos hq, Int.tdiv_eq_ediv ha hb.le]
  exact_mod_cast Rat.floor_intCast_div_natCast a n

/-- Rounding the exact quotient toward zero, positive divisor. -/
theorem trunc_div_of_pos (a b : Int) (hb : 0 < b) :
    trunc ((a : ℚ) / (b : ℚ)) = Int.tdiv a b := by
  rcases le_or_lt 0 a with ha | ha
  · exact trunc_div_of_nonneg a b ha hb
  · have h := trunc_div_of_nonneg (-a) b (by omega) hb
    rw [Int.neg_tdiv] at h
    have e : ((a : ℚ) / (b : ℚ)) = -(((-a : Int) : ℚ) / (b : ℚ)) := by
      push_cast; ring
    rw [e, trunc_neg, h]; simp

/-- Rounding the exact quotient toward zero is the built-in integer division. -/
theorem trunc_div_eq_tdiv (a b : Int) (hb : b ≠ 0) :
    trunc ((a : ℚ) / (b : ℚ)) = Int.tdiv a b := by
  rcases lt_or_gt_of_ne hb with h | h
  · have h' := trunc_div_of_pos a (-b) (by omega)
    rw [Int.tdiv_neg] at h'
    have e : ((a : ℚ) / (b : ℚ)) = -((a : ℚ) / ((-b : Int) : ℚ)) := by
      push_cast; rw [div_neg]; ring
    rw [e, trunc_neg, h']; simp
  · exact trunc_div_of_pos a b h

/-- The truncating remainder of a negated dividend. -/
theorem neg_tmod_eq (a b : Int) : Int.tmod (-a) b = -Int.tmod a b := by
  rw [Int.tmod_def, Int.tmod_def, Int.neg_tdiv]
  ring

/-- Bounds on the truncating remainder for a positive divisor. -/
theorem tmod_bounds_of_pos (a b : Int) (hb : 0 < b) :
    (0 ≤ a → 0 ≤ Int.tmod a b ∧ Int.tmod a b ≤ a) ∧
    (a ≤ 0 → a ≤ Int.tmod a b ∧ Int.tmod a b ≤ 0) ∧
    (-b < Int.tmod a b ∧ Int.tmod a b < b) := by
  have base : ∀ c : Int, 0 ≤ c → 0 ≤ Int.tmod c b ∧ Int.tmod c b ≤ c ∧ Int.tmod c b < b := by
    intro c hc
    refine ⟨Int.tmod_nonneg b hc, ?_, Int.tmod_lt_of_pos c hb⟩
    have h1 := Int.tmod_def c b
    have h2 : 0 ≤ b * Int.tdiv c b := Int.mul_nonneg hb.le (Int.tdiv_nonneg hc hb.le)
    omega
  rcases le_or_lt 0 a with ha | ha
  · obtain ⟨h1, h2, h3⟩ := base a ha
    exact ⟨fun _ => ⟨h1, h2⟩, fun h => ⟨by omega, by omega⟩, by omega, h3⟩
  · obtain ⟨h1, h2, h3⟩ := base (-a) (by omega)
    rw [neg_tmod_eq] at h1 h2 h3
    exact ⟨fun h => by omega, fun _ => ⟨by omega, by omega⟩, by omega, by omega⟩

/-- The truncating remainder lies between zero and the dividend and is
smaller in magnitude than the divisor. -/
theorem tmod_bounds (a b : Int) (hb : b ≠ 0) :
    (0 ≤ a → 0 ≤ Int.tmod a b ∧ Int.tmod a b ≤ a) ∧
    (a ≤ 0 → a ≤ Int.tmod a b ∧ Int.tmod a b ≤ 0) ∧
    |Int.tmod a b| < |b| := by
  rcases lt_or_gt_of_ne hb with h | h
  · obtain ⟨h1, h2, h3, h4⟩ := tmod_bounds_of_pos a (-b) (by omega)
    rw [Int.tmod_neg] at h1 h2 h3 h4
    refine ⟨h1, h2, ?_⟩
    rw [abs_lt, abs_of_neg h]
    constructor <;> omega
  · obtain ⟨h1, h2, h3, h4⟩ := tmod_bounds_of_pos a b h
    refine ⟨h1, h2, ?_⟩
    rw [abs_lt, abs_of_pos h]
    exact ⟨h3, h4⟩

/-- Size of the truncating quotient: the dividend or its negation for a
divisor of magnitude one, at most half the dividend otherwise. -/
theorem tdiv_bounds (a b : Int) (hb : b ≠ 0) :
    (0 ≤ a → 0 < b → 0 ≤ Int.tdiv a b) ∧
    ((b = 1 ∧ Int.tdiv a b = a) ∨ (b = -1 ∧ Int.tdiv a b = -a) ∨
      (Int.tdiv a b).natAbs ≤ a.natAbs / 2) := by
  refine ⟨fun ha hb' => Int.tdiv_nonneg ha hb'.le, ?_⟩
  by_cases h1 : b = 1
  · left; subst h1; exact ⟨rfl, Int.tdiv_one a⟩
  by_cases h2 : b = -1
  · right; left; subst h2
    refine ⟨rfl, ?_⟩
    rw [Int.tdiv_neg, Int.tdiv_one]
  right; right
  rw [Int.natAbs_tdiv]
  have hb2 : 2 ≤ b.natAbs := by omega
  exact Nat.div_le_div_left hb2 (by omega)

/-- The built-in division of two values of an integral type is defined unless
the divisor is zero or the quotient overflows the promoted type. -/
theorem cdiv_defined (t : LegateTypeCode) (a b : Int)
    (ht : t.isIntegral = true) (ha : t.holds a = true) (hb : t.holds b = true)
    (hb0 : b ≠ 0) (hno : ¬ (a = t.promoted.minVal ∧ b = -1)) :
    cdiv t a b = some (Int.tdiv a b) := by
  obtain ⟨hnn, hsz⟩ := tdiv_bounds a b hb0
  have hin : t.promoted.holds (Int.tdiv a b) = true := by
    cases t <;>
      simp [LegateTypeCode.isIntegral, LegateTypeCode.holds, LegateTypeCode.minVal,
        LegateTypeCode.maxVal, LegateTypeCode.promoted] at ht ha hb hno ⊢ <;>
      omega
  simp [cdiv, hb0, hin]

/-- Converting a value of an integral type to that type changes nothing. -/
theorem narrow_of_holds (t : LegateTypeCode) (x : Int)
    (ht : t.isIntegral = true) (hx : t.holds x = true) : t.narrow x = x := by
  cases t <;>
    simp [LegateTypeCode.isIntegral, LegateTypeCode.holds, LegateTypeCode.minVal,
      LegateTypeCode.maxVal, LegateTypeCode.narrow] at ht hx ⊢ <;>
    omega

/-- C7: for an integral element type and operands `a`, `b` of that type with
`b ≠ 0` and no overflow of the quotient, the `MOD` functor returns the
truncating remainder `a - b * trunc(a / b)`; it is zero or has the sign of the
dividend, and its magnitude is below that of the divisor. -/
theorem MOD_integral_truncating (t : LegateTypeCode) (a b : Int)
    (ht : t.isIntegral = true) (ha : t.holds a = true) (hb : t.holds b = true)
    (hb0 : b ≠ 0) (hno : ¬ (a = t.promoted.minVal ∧ b = -1)) :
    MOD_integral t a b = some (Int.tmod a b) ∧
    Int.tmod a b = a - b * trunc ((a : ℚ) / (b : ℚ)) ∧
    (Int.tmod a b = 0 ∨ Int.sign (Int.tmod a b) = Int.sign a) ∧
    |Int.tmod a b| < |b| := by
  obtain ⟨hpos, hneg, habs⟩ := tmod_bounds a b hb0
  have hr : t.holds (Int.tmod a b) = true := by
    simp only [LegateTypeCode.holds, Bool.and_eq_true, decide_eq_true_eq] at ha ⊢
    have hmin : t.minVal ≤ 0 := by cases t <;> simp [LegateTypeCode.minVal]
    have hmax : 0 ≤ t.maxVal := by cases t <;> simp [LegateTypeCode.maxVal]
    rcases le_or_lt 0 a with h | h
    · have := hpos h; constructor <;> omega
    · have := hneg h.le; constructor <;> omega
  refine ⟨?_, ?_, ?_, habs⟩
  · simp [cmod, MOD_integral, cdiv_defined t a b ht ha hb hb0 hno, narrow_of_holds t _ ht hr]
  · rw [trunc_div_eq_tdiv a b hb0, Int.tmod_def]
  · rcases lt_trichotomy a 0 with h | h | h
    · have := hneg h.le
      rcases eq_or_lt_of_le this.2 with h0 | h0
      · exact Or.inl h0
      · right; rw [Int.sign_eq_neg_one_of_neg h0, Int.sign_eq_neg_one_of_neg h]
    · left; have := hpos h.ge; omega
    · have := hpos h.le
      rcases eq_or_lt_of_le this.1 with h0 | h0
      · exact Or.inl h0.symm
      · right; rw [Int.sign_eq_one_of_pos h0, Int.sign_eq_one_of_pos h]

/-- The `int32` operands `-7` and `2`. -/
theorem MOD_integral_truncating_witness :
    MOD_integral .INT32_LT (-7) 2 = some (Int.tmod (-7) 2) ∧
    Int.tmod (-7) 2 = -7 - 2 * trunc (((-7 : Int) : ℚ) / ((2 : Int) : ℚ)) ∧
    (Int.tmod (-7) 2 = 0 ∨ Int.sign (Int.tmod (-7) 2) = Int.sign (-7)) ∧
    |Int.tmod (-7) 2| < |(2 : Int)| :=
  MOD_integral_truncating .INT32_LT (-7) 2 (by decide) (by decide) (by decide) (by decide)
    (by decide)

/-- C8: on the `int32` operands `-7` and `2` the `FLOOR_DIVIDE` functor returns
`-3`, the quotient rounded toward zero, whereas `floor(-7 / 2)` is `-4`. -/
theorem FLOOR_DIVIDE_integral_truncates :
    FLOOR_DIVIDE_integral .INT32_LT (-7) 2 = some (-3) ∧ ⌊((-7 : Int) : ℚ) / ((2 : Int) : ℚ)⌋ = -4 := by
  constructor
  · have h : cdiv .INT32_LT (-7) 2 = some (-3) := by decide
    simp only [FLOOR_DIVIDE_integral, h, toDouble]
    rw [if_pos (by decide), Int.floor_intCast]
    decide
  · norm_num [Int.floor_eq_iff]


/-! ## Properties of the `where` kernel -/

/-- A sequence of stores leaves `v` at address `x` when every store to `x` puts
`v` there and either some store hits `x` or `v` was there before. -/
theorem foldl_update_eq {ι α : Type} (A : ι → Int) (V : ι → α) (x : Int) (v : α) :
    ∀ (l : List ι) (m : Int → α),
      (m x = v ∨ ∃ i ∈ l, A i = x) → (∀ j ∈ l, A j = x → V j = v) →
      (l.foldl (fun m i => Function.update m (A i) (V i)) m) x = v := by
  intro l
  induction l with
  | nil =>
    intro m h _
    rcases h with h | ⟨i, hi, _⟩
    · simpa using h
    · simp at hi
  | cons j l ih =>
    intro m h hv
    rw [List.foldl_cons]
    apply ih
    · by_cases hj : A j = x
      · left
        have hvj := hv j (List.mem_cons_self _ _) hj
        rw [← hj, Function.update_same]
        exact hvj
      · rcases h with h | ⟨i, hi, hix⟩
        · left
          rw [Function.update_noteq (Ne.symm hj)]
          exact h
        · right
          rcases List.mem_cons.mp hi with rfl | hi'
          · exact absurd hix hj
          · exact ⟨i, hi', hix⟩
    · intro k hk
      exact hv k (List.mem_cons_of_mem _ hk)

/-- The volume of a rectangle is the product of its extents. -/
theorem volumeLoop_eq_prod : ∀ (lo hi : List Int),
    volumeLoop lo hi = (List.zipWith axisExtent lo hi).prod
  | [], _ => by simp [volumeLoop]
  | _ :: _, [] => by simp [volumeLoop]
  | l :: ls, h :: hs => by
    simp only [volumeLoop, List.zipWith_cons_cons, List.prod_cons, volumeLoop_eq_prod ls hs]
    by_cases hlh : l > h
    · rw [if_pos hlh]
      have : axisExtent l h = 0 := by unfold axisExtent; omega
      simp [this]
    · rw [if_neg hlh]

/-- A dense row-major view puts the `idx`-th point of the traversal `idx`
elements after the first one. -/
theorem addr_unflatten_dense :
    ∀ (pitches : List Nat) (idx : Nat) (lo : Point) (strides : List Int),
      strides = pitches.map Int.ofNat ++ [1] → lo.length = pitches.length + 1 →
      (List.zipWith (fun s c => s * c) strides (unflatten pitches idx lo)).sum =
        (List.zipWith (fun s c => s * c) strides lo).sum + idx := by
  intro pitches
  induction pitches with
  | nil =>
    intro idx lo strides hs hl
    subst hs
    match lo, hl with
    | [l], _ => simp [unflatten]
  | cons p ps ih =>
    intro idx lo strides hs hl
    subst hs
    match lo, hl with
    | l :: ls, hl =>
      have hl' : ls.length = ps.length + 1 := by simpa using hl
      have := ih (idx % p) ls _ rfl hl'
      simp only [unflatten, List.map_cons, List.cons_append, List.zipWith_cons_cons,
        List.sum_cons, this]
      have hdm : (p : Int) * ((idx / p : Nat) : Int) + ((idx % p : Nat) : Int) = idx := by
        exact_mod_cast Nat.div_add_mod idx p
      simp only [Int.ofNat_eq_coe]
      linarith

/-- A step count below the extent of an axis stays on the axis. -/
theorem axisExtent_bound (l h : Int) (k : Nat) (hk : k < axisExtent l h) :
    l ≤ l + (k : Int) ∧ l + (k : Int) ≤ h := by
  unfold axisExtent at hk
  omega

/-- Every index below the volume unflattens to a point of the rectangle. -/
theorem unflatten_contains : ∀ (lo hi : List Int) (idx : Nat),
    lo.length = hi.length → 0 < lo.length →
    idx < (List.zipWith axisExtent lo hi).prod →
    containsLoop lo hi (unflatten (rowPitches (List.zipWith axisExtent lo hi)) idx lo) = true
  | [], _, _, _, h0, _ => by simp at h0
  | [_], [], _, hl, _, _ => by simp at hl
  | [l], [h], idx, _, _, hidx => by
    simp only [List.zipWith_cons_cons, List.zipWith_nil_left, List.prod_cons, List.prod_nil,
      mul_one] at hidx
    have := axisExtent_bound l h idx hidx
    simp [rowPitches, unflatten, containsLoop, this.1, this.2]
  | [_], _ :: _ :: _, _, hl, _, _ => by simp at hl
  | _ :: _ :: _, [], _, hl, _, _ => by simp at hl
  | _ :: _ :: _, [_], _, hl, _, _ => by simp at hl
  | l :: l2 :: ls, h :: h2 :: hs, idx, hl, _, hidx => by
    have hl' : (l2 :: ls).length = (h2 :: hs).length := by simpa using hl
    simp only [List.zipWith_cons_cons, List.prod_cons] at hidx
    simp only [List.zipWith_cons_cons, rowPitches, unflatten, containsLoop, List.prod_cons]
    set P := axisExtent l2 h2 * (List.zipWith axisExtent ls hs).prod with hP
    have hPpos : 0 < P := by
      rcases Nat.eq_zero_or_pos P with h0 | h0
      · rw [h0] at hidx; simp at hidx
      · exact h0
    have hdiv : idx / P < axisExtent l h := by
      apply Nat.div_lt_of_lt_mul
      rw [Nat.mul_comm]; exact hidx
    have hmod : idx % P < P := Nat.mod_lt _ hPpos
    have hb := axisExtent_bound l h (idx / P) hdiv
    have ih := unflatten_contains (l2 :: ls) (h2 :: hs) (idx % P) hl' (by simp)
      (by simpa [List.zipWith_cons_cons, List.prod_cons] using hmod)
    simp only [List.zipWith_cons_cons] at ih
    rw [ih, decide_eq_true hb.1, decide_eq_true hb.2]
    rfl

/-- Every point of the rectangle is the unflattening of an index below the
volume. -/
theorem unflatten_surj : ∀ (lo hi : List Int) (p : Point),
    0 < lo.length → containsLoop lo hi p = true →
    ∃ idx, idx < (List.zipWith axisExtent lo hi).prod ∧
      unflatten (rowPitches (List.zipWith axisExtent lo hi)) idx lo = p
  | [], _, _, h0, _ => by simp at h0
  | _ :: _, [], _, _, hc => by simp [containsLoop] at hc
  | _ :: _, _ :: _, [], _, hc => by simp [containsLoop] at hc
  | [l], [h], [c], _, hc => by
    simp only [containsLoop, Bool.and_true, Bool.and_eq_true, decide_eq_true_eq] at hc
    refine ⟨(c - l).toNat, ?_, ?_⟩
    · simp only [List.zipWith_cons_cons, List.zipWith_nil_left, List.prod_cons, List.prod_nil,
        mul_one, axisExtent]
      omega
    · simp only [List.zipWith_cons_cons, List.zipWith_nil_left, rowPitches, unflatten]
      congr 1
      omega
  | [_], [_], _ :: _ :: _, _, hc => by simp [containsLoop] at hc
  | [_], _ :: _ :: _, _ :: cs, _, hc => by
    cases cs <;> simp [containsLoop] at hc
  | _ :: _ :: _, [_], _ :: cs, _, hc => by
    cases cs <;> simp [containsLoop] at hc
  | _ :: _ :: _, _ :: _ :: _, [_], _, hc => by simp [containsLoop] at hc
  | l :: l2 :: ls, h :: h2 :: hs, c :: c2 :: cs, _, hc => by
    rw [containsLoop] at hc
    simp only [Bool.and_eq_true, decide_eq_true_eq] at hc
    obtain ⟨⟨hlc, hch⟩, htail⟩ := hc
    obtain ⟨j, hj, hju⟩ := unflatten_surj (l2 :: ls) (h2 :: hs) (c2 :: cs) (by simp) htail
    simp only [List.zipWith_cons_cons, List.prod_cons] at hj hju ⊢
    simp only [rowPitches, unflatten, List.prod_cons]
    set P := axisExtent l2 h2 * (List.zipWith axisExtent ls hs).prod with hP
    have hPpos : 0 < P := by omega
    refine ⟨(c - l).toNat * P + j, ?_, ?_⟩
    · have hk : (c - l).toNat + 1 ≤ axisExtent l h := by unfold axisExtent; omega
      calc (c - l).toNat * P + j < (c - l).toNat * P + P := by omega
        _ = ((c - l).toNat + 1) * P := by ring
        _ ≤ axisExtent l h * P := Nat.mul_le_mul_right _ hk
    · have hd : ((c - l).toNat * P + j) / P = (c - l).toNat := by
        rw [Nat.add_comm, Nat.add_mul_div_right _ _ hPpos, Nat.div_eq_of_lt hj]; simp
      have hm : ((c - l).toNat * P + j) % P = j := by
        rw [Nat.add_comm, Nat.add_mul_mod_self_right, Nat.mod_eq_of_lt hj]
      rw [hd, hm, hju]
      congr 1
      omega

/-- There is one pitch for every axis but the last. -/
theorem rowPitches_length : ∀ (es : List Nat), (rowPitches es).length = es.length - 1
  | [] => rfl
  | [_] => rfl
  | _ :: e :: es => by
    simp [rowPitches, rowPitches_length (e :: es)]

/-- A rectangle of dimension at least 1 has one coordinate more than pitches. -/
theorem pitches_length (rect : Rect) (hwf : rect.lo.length = rect.hi.length)
    (hdim : 0 < rect.lo.length) : rect.lo.length = rect.pitches.length + 1 := by
  simp only [Rect.pitches, Rect.extents, rowPitches_length, List.length_zipWith]
  omega

/-- On a dense row-major view the `idx`-th point of the traversal is the
`idx`-th element behind `ptr(rect)`. -/
theorem addr_unflatten_ptr {α : Type} (acc : Accessor α) (rect : Rect)
    (hwf : rect.lo.length = rect.hi.length) (hdim : 0 < rect.lo.length)
    (hd : acc.isDenseRowMajor rect = true) (idx : Nat) :
    acc.addr (unflatten rect.pitches idx rect.lo) = acc.ptr rect + idx := by
  simp only [Accessor.isDenseRowMajor, decide_eq_true_eq] at hd
  simp only [Accessor.addr, Accessor.ptr]
  rw [addr_unflatten_dense rect.pitches idx rect.lo acc.strides hd
    (pitches_length rect hwf hdim)]
  ring

/-- The two branches of the kernel store the same values at the same addresses
when all four views are dense. -/
theorem where_branches_agree {α : Type} (out : Accessor α) (mask : Accessor Bool)
    (in1 in2 : Accessor α) (rect : Rect)
    (hwf : rect.lo.length = rect.hi.length) (hdim : 0 < rect.lo.length)
    (hout : out.isDenseRowMajor rect = true) (hmask : mask.isDenseRowMajor rect = true)
    (hin1 : in1.isDenseRowMajor rect = true) (hin2 : in2.isDenseRowMajor rect = true) :
    WhereImplBody out mask in1 in2 rect.pitches rect true =
      WhereImplBody out mask in1 in2 rect.pitches rect false := by
  simp only [WhereImplBody, if_true, Bool.false_eq_true, if_false, Accessor.read,
    addr_unflatten_ptr out rect hwf hdim hout, addr_unflatten_ptr mask rect hwf hdim hmask,
    addr_unflatten_ptr in1 rect hwf hdim hin1, addr_unflatten_ptr in2 rect hwf hdim hin2]

/-- A dense row-major view addresses distinct points of the rectangle at distinct
elements. -/
theorem dense_injectiveOn {α : Type} (acc : Accessor α) (rect : Rect)
    (hwf : rect.lo.length = rect.hi.length) (hdim : 0 < rect.lo.length)
    (hd : acc.isDenseRowMajor rect = true) : acc.InjectiveOn rect := by
  intro p q hp hq hpq
  obtain ⟨i, _, hi⟩ := unflatten_surj rect.lo rect.hi p hdim hp
  obtain ⟨j, _, hj⟩ := unflatten_surj rect.lo rect.hi q hdim hq
  have hi' : unflatten rect.pitches i rect.lo = p := hi
  have hj' : unflatten rect.pitches j rect.lo = q := hj
  rw [← hi', ← hj', addr_unflatten_ptr acc rect hwf hdim hd,
    addr_unflatten_ptr acc rect hwf hdim hd] at hpq
  have : i = j := by omega
  rw [← hi', ← hj', this]

/-- What the strided branch leaves in the output. -/
theorem where_strided_select {α : Type} (out : Accessor α) (mask : Accessor Bool)
    (in1 in2 : Accessor α) (rect : Rect)
    (hwf : rect.lo.length = rect.hi.length) (hdim : 0 < rect.lo.length)
    (hinj : out.InjectiveOn rect) :
    (∀ p, rect.contains p = true →
      (WhereImplBody out mask in1 in2 rect.pitches rect false).read p =
        if mask.read p then in1.read p else in2.read p) ∧
    (∀ x, (∀ p, rect.contains p = true → out.addr p ≠ x) →
      (WhereImplBody out mask in1 in2 rect.pitches rect false).mem x = out.mem x) := by
  have hvol : rect.volume = (List.zipWith axisExtent rect.lo rect.hi).prod :=
    volumeLoop_eq_prod rect.lo rect.hi
  have hin : ∀ j, j ∈ List.range rect.volume →
      rect.contains (unflatten rect.pitches j rect.lo) = true := by
    intro j hj
    rw [List.mem_range, hvol] at hj
    exact unflatten_contains rect.lo rect.hi j hwf hdim hj
  constructor
  · intro p hp
    obtain ⟨i, hi, hip⟩ := unflatten_surj rect.lo rect.hi p hdim hp
    have hip' : unflatten rect.pitches i rect.lo = p := hip
    simp only [WhereImplBody, Bool.false_eq_true, if_false, Accessor.read]
    have hx : ({ out with mem := out.mem } : Accessor α).addr p = out.addr p := rfl
    show (List.foldl _ out.mem (List.range rect.volume)) (out.addr p) = _
    apply foldl_update_eq (fun idx => out.addr (unflatten rect.pitches idx rect.lo))
      (fun idx => if mask.mem (mask.addr (unflatten rect.pitches idx rect.lo))
        then in1.mem (in1.addr (unflatten rect.pitches idx rect.lo))
        else in2.mem (in2.addr (unflatten rect.pitches idx rect.lo)))
    · right
      exact ⟨i, by rw [List.mem_range, hvol]; exact hi, by rw [hip']⟩
    · intro j hj hjx
      have := hinj _ _ (hin j hj) hp hjx
      simp only [this]
  · intro x hx
    simp only [WhereImplBody, Bool.false_eq_true, if_false, Accessor.read]
    apply foldl_update_eq (fun idx => out.addr (unflatten rect.pitches idx rect.lo))
      (fun idx => if mask.mem (mask.addr (unflatten rect.pitches idx rect.lo))
        then in1.mem (in1.addr (unflatten rect.pitches idx rect.lo))
        else in2.mem (in2.addr (unflatten rect.pitches idx rect.lo)))
    · left; rfl
    · intro j hj hjx
      exact absurd hjx (hx _ (hin j hj))

/-- C9: the `where` kernel is an elementwise select. For a rectangle of dimension
at least 1, with the pitches of that rectangle, with all four views dense when
the dense branch runs and with an output view that keeps the points of the
rectangle apart when the other branch runs: afterwards `out[p]` is `in1[p]` if
`mask[p]` and `in2[p]` otherwise, for every point `p` of the rectangle, and
every element that is not the element of a point of the rectangle keeps its
value. -/
theorem WhereImplBody_select {α : Type} (out : Accessor α) (mask : Accessor Bool)
    (in1 in2 : Accessor α) (rect : Rect) (dense : Bool)
    (hwf : rect.lo.length = rect.hi.length) (hdim : 0 < rect.lo.length)
    (hinj : dense = false → out.InjectiveOn rect)
    (hdense : dense = true →
      out.isDenseRowMajor rect = true ∧ mask.isDenseRowMajor rect = true ∧
      in1.isDenseRowMajor rect = true ∧ in2.isDenseRowMajor rect = true) :
    (∀ p, rect.contains p = true →
      (WhereImplBody out mask in1 in2 rect.pitches rect dense).read p =
        if mask.read p then in1.read p else in2.read p) ∧
    (∀ x, (∀ p, rect.contains p = true → out.addr p ≠ x) →
      (WhereImplBody out mask in1 in2 rect.pitches rect dense).mem x = out.mem x) := by
  cases dense with
  | false => exact where_strided_select out mask in1 in2 rect hwf hdim (hinj rfl)
  | true =>
    obtain ⟨ho, hm, h1, h2⟩ := hdense rfl
    rw [where_branches_agree out mask in1 in2 rect hwf hdim ho hm h1 h2]
    exact where_strided_select out mask in1 in2 rect hwf hdim
      (dense_injectiveOn out rect hwf hdim ho)

/-- The sample output view keeps the points of the sample rectangle apart. -/
theorem sampleOut_injectiveOn : sampleOut.InjectiveOn sampleRect := by
  intro p q hp hq h
  match p, q, hp, hq with
  | [a], [b], _, _ =>
    simp [Accessor.addr, sampleOut] at h
    rw [h]
  | [], _, hp, _ => simp [Rect.contains, sampleRect, containsLoop] at hp
  | _ :: _ :: _, _, hp, _ => simp [Rect.contains, sampleRect, containsLoop] at hp
  | [_], [], _, hq => simp [Rect.contains, sampleRect, containsLoop] at hq
  | [_], _ :: _ :: _, _, hq => simp [Rect.contains, sampleRect, containsLoop] at hq

/-- The other branch on a rectangle of three points and an output view of stride 2. -/
theorem WhereImplBody_select_witness :
    (∀ p, sampleRect.contains p = true →
      (WhereImplBody sampleOut sampleMask sampleIn1 sampleIn2 sampleRect.pitches sampleRect
        false).read p =
        if sampleMask.read p then sampleIn1.read p else sampleIn2.read p) ∧
    (∀ x, (∀ p, sampleRect.contains p = true → sampleOut.addr p ≠ x) →
      (WhereImplBody sampleOut sampleMask sampleIn1 sampleIn2 sampleRect.pitches sampleRect
        false).mem x = sampleOut.mem x) :=
  WhereImplBody_select sampleOut sampleMask sampleIn1 sampleIn2 sampleRect false
    (by decide) (by decide) (fun _ => sampleOut_injectiveOn) (fun h => by cases h)

/-- C10: dense and strided execution agree. When the output, the mask and both
inputs are dense row-major views on the rectangle, the dense branch and the
branch that unflattens every index through the pitches produce the same
output. -/
theorem WhereImplBody_dense_eq_strided {α : Type} (out : Accessor α) (mask : Accessor Bool)
    (in1 in2 : Accessor α) (rect : Rect)
    (hwf : rect.lo.length = rect.hi.length) (hdim : 0 < rect.lo.length)
    (hout : out.isDenseRowMajor rect = true) (hmask : mask.isDenseRowMajor rect = true)
    (hin1 : in1.isDenseRowMajor rect = true) (hin2 : in2.isDenseRowMajor rect = true) :
    WhereImplBody out mask in1 in2 rect.pitches rect true =
      WhereImplBody out mask in1 in2 rect.pitches rect false :=
  where_branches_agree out mask in1 in2 rect hwf hdim hout hmask hin1 hin2

/-- Four dense views on a rectangle of two rows and three columns. -/
theorem WhereImplBody_dense_eq_strided_witness :
    WhereImplBody sampleDenseOut sampleDenseMask sampleDenseIn1 sampleDenseIn2
        samplePlane.pitches samplePlane true =
      WhereImplBody sampleDenseOut sampleDenseMask sampleDenseIn1 sampleDenseIn2
        samplePlane.pitches samplePlane false :=
  WhereImplBody_dense_eq_strided sampleDenseOut sampleDenseMask sampleDenseIn1 sampleDenseIn2
    samplePlane (by decide) (by decide) (by decide) (by decide) (by decide) (by decide)


/-! ## Properties of `NDArray::binary_op` and `NDArray::convolve` -/

/-- Counterexample to C11 as stated: in a build without `DEBUG_CUNUMERIC`, for a
destination of shape `[3]` and two `int32` operands of shape `[2, 3]`, the
submitted task views both operands at shape `[3, 3]`, not at the destination's
shape. -/
theorem binary_op_rank_counterexample :
    (NDArray.ofShape 2 [2, 3] (.prim .INT32_LT)).type =
      (NDArray.ofShape 3 [2, 3] (.prim .INT32_LT)).type ∧
    (NDArray.ofShape 1 [3] (.prim .INT32_LT)).size ≠ 0 ∧
    (NDArray.ofShape 1 [3] (.prim .INT32_LT)).shape = [3] ∧
    ((NDArray.ofShape 1 [3] (.prim .INT32_LT)).binary_op 1
        (NDArray.ofShape 2 [2, 3] (.prim .INT32_LT))
        (NDArray.ofShape 3 [2, 3] (.prim .INT32_LT)) sampleRuntime).1 = .ok () ∧
    submitted_input_shapes
      ((NDArray.ofShape 1 [3] (.prim .INT32_LT)).binary_op 1
        (NDArray.ofShape 2 [2, 3] (.prim .INT32_LT))
        (NDArray.ofShape 3 [2, 3] (.prim .INT32_LT)) sampleRuntime).2
      = [[[3, 3], [3, 3]]] := by
  refine ⟨rfl, by decide, rfl, rfl, rfl⟩

/-- What `broadcast_to` returns for a compatible store. -/
theorem broadcast_to_compatible (shape : List Nat) (store : Store) (rt : Runtime)
    (hrank : store.view.dim ≤ shape.length)
    (hcompat : ∀ i, i < store.view.dim →
      store.view.extents.getD i 0 = shape.getD (i + (shape.length - store.view.dim)) 0 ∨
      store.view.extents.getD i 0 = 1) :
    ∃ s : Store, NDArray.broadcast_to shape store rt = (.ok s, rt) ∧
      broadcast rt.build.debug_cunumeric shape store.view = .ok s.view ∧
      s.view.extents = shape ∧ s.view.backing = store.view.backing ∧
      s.type = store.type := by
  obtain ⟨r, hr, hb, _, he, _⟩ :=
    broadcast_compatible rt.build.debug_cunumeric shape store.view hrank hcompat
  refine ⟨{ store with view := r }, ?_, hr, he, hb, rfl⟩
  simp [NDArray.broadcast_to, bind, M.andThen, M.runtime, Store.withView, hr, M.ofStore,
    Except.map, M.ret]

/-- C11 (amended): for a non-empty destination and two operands of the same
element type, each of rank at most the destination's and with every extent,
right-aligned, equal to the destination's or 1, `binary_op` submits one task
whose single output is the destination, whose inputs are the two operands
viewed through `broadcast` at exactly the destination's shape, whose scalar
argument is the operation code, and whose constraints are
`align(output, input1)` and `align(input1, input2)`. -/
theorem binary_op_task (self rhs1 rhs2 : NDArray) (op_code : Int) (rt : Runtime)
    (htype : rhs1.type = rhs2.type) (hsize : self.size ≠ 0)
    (hrank1 : rhs1.dim ≤ self.dim)
    (hcompat1 : ∀ i, i < rhs1.dim →
      rhs1.shape.getD i 0 = self.shape.getD (i + (self.dim - rhs1.dim)) 0 ∨
      rhs1.shape.getD i 0 = 1)
    (hrank2 : rhs2.dim ≤ self.dim)
    (hcompat2 : ∀ i, i < rhs2.dim →
      rhs2.shape.getD i 0 = self.shape.getD (i + (self.dim - rhs2.dim)) 0 ∨
      rhs2.shape.getD i 0 = 1) :
    ∃ (t : Task) (rt' : Runtime) (s1 s2 : Store),
      self.binary_op op_code rhs1 rhs2 rt = (.ok (), rt') ∧
      rt'.log = rt.log ++ [.submit t] ∧
      t.task_id = .CUNUMERIC_BINARY_OP ∧
      t.outputs = [(self.store_, ⟨0⟩)] ∧
      t.reductions = [] ∧
      t.inputs = [(s1, ⟨1⟩), (s2, ⟨2⟩)] ∧
      broadcast rt.build.debug_cunumeric self.shape rhs1.store_.view = .ok s1.view ∧
      broadcast rt.build.debug_cunumeric self.shape rhs2.store_.view = .ok s2.view ∧
      s1.view.extents = self.shape ∧ s2.view.extents = self.shape ∧
      s1.view.backing = rhs1.store_.view.backing ∧
      s2.view.backing = rhs2.store_.view.backing ∧
      t.scalar_args = [.int32 op_code] ∧
      t.constraints = [.align ⟨0⟩ ⟨1⟩, .align ⟨1⟩ ⟨2⟩] := by
  have hlen : self.shape.length = self.dim := by
    simp [NDArray.shape, NDArray.dim, LogicalStore.extents, LogicalStore.dim]
  obtain ⟨s1, h1, hb1, he1, hk1, _⟩ := broadcast_to_compatible self.shape rhs1.store_
    { rt with next_task := rt.next_task + 1 } (by rw [hlen]; exact hrank1)
    (by rw [hlen]; exact hcompat1)
  obtain ⟨s2, h2, hb2, he2, hk2, _⟩ := broadcast_to_compatible self.shape rhs2.store_
    { rt with next_task := rt.next_task + 1 } (by rw [hlen]; exact hrank2)
    (by rw [hlen]; exact hcompat2)
  refine ⟨{ unique_id := rt.next_task, task_id := .CUNUMERIC_BINARY_OP,
            inputs := [(s1, ⟨1⟩), (s2, ⟨2⟩)], outputs := [(self.store_, ⟨0⟩)],
            reductions := [], scalar_args := [.int32 op_code],
            constraints := [.align ⟨0⟩ ⟨1⟩, .align ⟨1⟩ ⟨2⟩], communicators := [],
            can_throw := false, next_variable := 3 },
    { rt with
      next_task := rt.next_task + 1
      log := rt.log ++ [.submit
        { unique_id := rt.next_task, task_id := .CUNUMERIC_BINARY_OP,
          inputs := [(s1, ⟨1⟩), (s2, ⟨2⟩)], outputs := [(self.store_, ⟨0⟩)],
          reductions := [], scalar_args := [.int32 op_code],
          constraints := [.align ⟨0⟩ ⟨1⟩, .align ⟨1⟩ ⟨2⟩], communicators := [],
          can_throw := false, next_variable := 3 }] },
    s1, s2, ?_, rfl, rfl, rfl, rfl, rfl, hb1, hb2, he1, he2, hk1, hk2, rfl, rfl⟩
  simp only [NDArray.binary_op, htype, ne_eq, not_true_eq_false, if_false, hsize, bind,
    M.andThen, create_task, h1, h2, Task.add_output, Task.add_input, Task.declare_partition,
    Task.add_output_at, Task.add_input_at, Task.add_scalar_arg, Task.add_constraint, submit]
  rfl

theorem binary_op_task_witness :
    ∃ (t : Task) (rt1 : Runtime),
      (NDArray.ofShape 1 [2, 3] (.prim .INT32_LT)).binary_op 1
        (NDArray.ofShape 2 [3] (.prim .INT32_LT))
        (NDArray.ofShape 3 [2, 1] (.prim .INT32_LT)) sampleRuntime = (.ok (), rt1) ∧
      rt1.log = [.submit t] ∧
      t.outputs = [((NDArray.ofShape 1 [2, 3] (.prim .INT32_LT)).store_, ⟨0⟩)] ∧
      t.inputs.map (fun i => i.1.view.extents) = [[2, 3], [2, 3]] ∧
      t.constraints = [.align ⟨0⟩ ⟨1⟩, .align ⟨1⟩ ⟨2⟩] := by
  obtain ⟨t, rt1, s1, s2, h, hlog, -, hout, -, hin, -, -, h1, h2, -, -, -, hc⟩ :=
    binary_op_task (NDArray.ofShape 1 [2, 3] (.prim .INT32_LT))
      (NDArray.ofShape 2 [3] (.prim .INT32_LT)) (NDArray.ofShape 3 [2, 1] (.prim .INT32_LT)) 1
      sampleRuntime rfl (by decide) (by decide) (by decide) (by decide) (by decide)
  refine ⟨t, rt1, h, hlog, hout, ?_, hc⟩
  rw [hin]
  simp only [List.map, h1, h2]
  rfl

/-- Counterexample to C12 as stated: for a destination of shape `[4]` and a
filter of shape `[3, 3]`, the broadcast constraint on the filter names axis 0
only, so axis 1 of the filter is not covered. -/
theorem convolve_filter_axes_counterexample :
    (NDArray.ofShape 3 [3, 3] (.prim .DOUBLE_LT)).dim = 2 ∧
    submitted_constraints
      ((NDArray.ofShape 1 [4] (.prim .DOUBLE_LT)).convolve
        (NDArray.ofShape 2 [4] (.prim .DOUBLE_LT))
        (NDArray.ofShape 3 [3, 3] (.prim .DOUBLE_LT)) sampleRuntime).2
      = [[.align ⟨1⟩ ⟨3⟩, .bloat ⟨1⟩ ⟨2⟩ [2, 2] [2, 2], .broadcast ⟨0⟩ [0]]] ∧
    (1 : Nat) ∉ [0] := by
  refine ⟨rfl, rfl, by decide⟩

/-- C12 (amended): for every destination, input and filter, `convolve` submits
one task carrying an alignment between the primary input and the output, a
bloat constraint from the primary input to a second handle on the same input
whose low and high widths on axis `i` both are `(filter_extent[i] + 1) / 2`,
and a broadcast constraint on the filter over the axes `0 .. rank - 1` of the
destination, which are all the axes of the filter when the filter has rank at
most the destination's. -/
theorem convolve_task (self input filter : NDArray) (rt : Runtime) :
    ∃ (t : Task) (rt' : Runtime) (offsets : List Nat),
      self.convolve input filter rt = (.ok (), rt') ∧
      rt'.log = rt.log ++ [.submit t] ∧
      t.task_id = .CUNUMERIC_CONVOLVE ∧
      t.inputs = [(filter.store_, ⟨0⟩), (input.store_, ⟨1⟩), (input.store_, ⟨2⟩)] ∧
      t.outputs = [(self.store_, ⟨3⟩)] ∧
      t.constraints =
        [.align ⟨1⟩ ⟨3⟩, .bloat ⟨1⟩ ⟨2⟩ offsets offsets,
         .broadcast ⟨0⟩ (List.range self.dim)] ∧
      offsets.length = filter.dim ∧
      (∀ i, i < filter.dim → offsets.getD i 0 = (filter.shape.getD i 0 + 1) / 2) ∧
      (∀ i, i ∈ List.range self.dim ↔ i < self.dim) ∧
      (filter.dim ≤ self.dim → ∀ i, i < filter.dim → i ∈ List.range self.dim) := by
  refine ⟨_, _, filter.store_.view.extents.map fun e => (e + 1) / 2, rfl, rfl, rfl, rfl, rfl,
    rfl, ?_, ?_, ?_, ?_⟩
  · simp [NDArray.dim, LogicalStore.dim, LogicalStore.extents]
  · intro i hi
    have hi' : i < filter.store_.view.extents.length := by
      simpa [NDArray.dim, LogicalStore.dim, LogicalStore.extents] using hi
    simp [NDArray.shape, List.getD_eq_getElem?_getD, List.getElem?_map,
      List.getElem?_eq_getElem hi']
  · intro i; exact List.mem_range
  · intro h i hi; exact List.mem_range.mpr (by omega)

/-! ## Properties of `NDArray::bincount` and `NDArray::sort_task` -/

/-- Counterexample to C13 as stated: in a build with assertions, for a non-empty
1-D destination, an rhs of shape `[5]` and weights of shape `[3]`, `bincount`
stops at `assert(rhs.shape() == weights.value().shape())`: nothing is filled
and no task is submitted. -/
theorem bincount_weights_counterexample :
    (NDArray.ofShape 1 [4] (.prim .INT64_LT)).size ≠ 0 ∧
    (NDArray.ofShape 1 [4] (.prim .INT64_LT)).dim = 1 ∧
    (NDArray.ofShape 1 [4] (.prim .INT64_LT)).bincount
        (NDArray.ofShape 2 [5] (.prim .INT64_LT))
        (some (NDArray.ofShape 3 [3] (.prim .INT64_LT))) sampleRuntime
      = (.error .assertion, sampleRuntime) := by
  refine ⟨by decide, rfl, rfl⟩

/-- What `fill` hands to the runtime for a non-empty array: a fill of the store
itself when the store is not a transformed view, a `CUNUMERIC_FILL` task
writing the store otherwise. -/
theorem fill_nonempty (self : NDArray) (value : Scalar) (rt : Runtime) (h : self.size ≠ 0) :
    ∃ (ev : Event) (rt' : Runtime), self.fill value rt = (.ok (), rt') ∧
      rt'.log = rt.log ++ [ev] ∧ rt'.build = rt.build ∧ rt'.machine = rt.machine ∧
      rt'.identities = rt.identities ∧
      (self.store_.transformed = false → ev = .issue_fill self.store_ value) ∧
      (self.store_.transformed = true → ∃ t : Task, ev = .submit t ∧
        t.task_id = .CUNUMERIC_FILL ∧ t.outputs = [(self.store_, ⟨0⟩)] ∧
        t.reductions = []) := by
  generalize hX : self.fill value rt = X
  cases ht : self.store_.transformed
  · simp only [NDArray.fill, h, ht, if_false, Bool.not_false, if_true, issue_fill] at hX
    subst hX
    refine ⟨_, _, rfl, rfl, rfl, rfl, rfl, ?_, ?_⟩
    · intro _; rfl
    · intro hc; cases hc
  · simp only [NDArray.fill, h, ht, if_false, Bool.not_true, Bool.false_eq_true, bind,
      M.andThen, create_scalar_store, create_task, submit, Task.add_output, Task.add_input,
      Task.declare_partition, Task.add_output_at, Task.add_input_at] at hX
    subst hX
    refine ⟨_, _, rfl, rfl, rfl, rfl, rfl, ?_, ?_⟩
    · intro hc; cases hc
    · intro _; exact ⟨_, rfl, rfl, rfl, rfl⟩

/-- C13 (amended): for a non-empty 1-D destination, and weights that, when
supplied, have the shape of rhs (or a build with `NDEBUG`), `bincount` first
fills the destination with zero, then submits one task in which the
destination is an ADD reduction with a broadcast constraint on axis 0 and in
which the weights input, exactly when weights are supplied, is aligned with
the rhs input. -/
theorem bincount_task (self rhs : NDArray) (weights : Option NDArray) (rt : Runtime)
    (hsize : self.size ≠ 0) (hdim : self.dim = 1)
    (hw : rt.build.ndebug = false → ∀ w, weights = some w → rhs.shape = w.shape) :
    ∃ (rt1 rt2 : Runtime) (ev : Event) (t : Task),
      self.fill (generate_zero self.type) rt = (.ok (), rt1) ∧
      rt1.log = rt.log ++ [ev] ∧
      (self.store_.transformed = false →
        ev = .issue_fill self.store_ (generate_zero self.type)) ∧
      (self.store_.transformed = true → ∃ ft : Task, ev = .submit ft ∧
        ft.task_id = .CUNUMERIC_FILL ∧ ft.outputs = [(self.store_, ⟨0⟩)] ∧
        ft.reductions = []) ∧
      self.bincount rhs weights rt = (.ok (), rt2) ∧
      rt2.log = rt1.log ++ [.submit t] ∧
      t.task_id = .CUNUMERIC_BINCOUNT ∧
      t.outputs = [] ∧
      t.reductions = [(self.store_, .ADD, ⟨0⟩)] ∧
      t.inputs = (rhs.store_, ⟨1⟩) ::
        (match weights with
         | some w => [(w.store_, ⟨2⟩)]
         | none => []) ∧
      t.constraints = .broadcast ⟨0⟩ [0] ::
        (match weights with
         | some _ => [.align ⟨1⟩ ⟨2⟩]
         | none => []) := by
  obtain ⟨ev, rt1, hfill, hev, hbuild, -, -, hev1, hev2⟩ := fill_nonempty self (generate_zero self.type) rt hsize
  have hdim' : (self.dim == 1) = true := by simp [hdim]
  have hassert1 : M.cassert (self.dim == 1) rt = (.ok (), rt) := by
    simp [M.cassert, hdim']
  generalize hX : self.bincount rhs weights rt = X
  cases weights with
  | none =>
    simp only [NDArray.bincount, hsize, if_false, bind, M.andThen, hassert1, M.ret, hfill,
      create_task, Task.add_reduction, Task.add_input, Task.declare_partition,
      Task.add_input_at, Task.add_constraint, submit] at hX
    subst hX
    exact ⟨rt1, _, ev, _, hfill, hev, hev1, hev2, rfl, rfl, rfl, rfl, rfl, rfl, rfl⟩
  | some w =>
    have hassert2 : M.cassert (decide (rhs.shape = w.shape)) rt = (.ok (), rt) := by
      cases hn : rt.build.ndebug
      · simp [M.cassert, hn, hw hn w rfl]
      · simp [M.cassert, hn]
    simp only [NDArray.bincount, hsize, if_false, bind, M.andThen, hassert1, hassert2, M.ret,
      hfill, create_task, Task.add_reduction, Task.add_input, Task.declare_partition,
      Task.add_input_at, Task.add_constraint, submit] at hX
    subst hX
    exact ⟨rt1, _, ev, _, hfill, hev, hev1, hev2, rfl, rfl, rfl, rfl, rfl, rfl, rfl⟩

theorem bincount_task_witness :
    ∃ (rt2 : Runtime) (t : Task),
      (NDArray.ofShape 1 [4] (.prim .INT64_LT)).bincount
        (NDArray.ofShape 2 [5] (.prim .INT64_LT))
        (some (NDArray.ofShape 3 [5] (.prim .INT64_LT))) sampleRuntime = (.ok (), rt2) ∧
      rt2.log =
        [.issue_fill (NDArray.ofShape 1 [4] (.prim .INT64_LT)).store_
            (generate_zero (.prim .INT64_LT)),
         .submit t] ∧
      t.reductions = [((NDArray.ofShape 1 [4] (.prim .INT64_LT)).store_, .ADD, ⟨0⟩)] ∧
      t.constraints = [.broadcast ⟨0⟩ [0], .align ⟨1⟩ ⟨2⟩] := by
  obtain ⟨rt1, rt2, ev, t, -, hlog1, hev, -, h, hlog2, -, -, hred, -, hc⟩ :=
    bincount_task (NDArray.ofShape 1 [4] (.prim .INT64_LT))
      (NDArray.ofShape 2 [5] (.prim .INT64_LT))
      (some (NDArray.ofShape 3 [5] (.prim .INT64_LT))) sampleRuntime (by decide) rfl
      (fun _ w hw => by cases hw; rfl)
  refine ⟨rt2, t, h, ?_, hred, hc⟩
  rw [hlog2, hlog1, hev rfl]
  rfl

/-- C14: `sort_task` submits one `CUNUMERIC_SORT` task reading rhs. When the
machine has more than one processor and rhs is 1-D, the output of the task is
a fresh unbound store, the task has no alignment constraint, and the store of
the array after the call is that unbound store; in every other case the output
is the array's own store, aligned with the input, no store is created and the
array is unchanged. -/
theorem sort_task_output (self rhs : NDArray) (argsort stable : Bool) (rt : Runtime) :
    ∃ t this' rt', self.sort_task rhs argsort stable rt = (.ok this', rt') ∧
      rt'.log = rt.log ++ [.submit t] ∧
      t.task_id = .CUNUMERIC_SORT ∧
      t.inputs = [(rhs.store_, ⟨0⟩)] ∧
      t.scalar_args = [.bool argsort, .uint64s rhs.shape, .bool stable] ∧
      if rt.machine.count > 1 ∧ rhs.dim = 1 then
        ∃ u : Store, u.unbound = true ∧ u.type = self.type ∧
          u.view.backing = rt.next_store ∧ rt'.next_store = rt.next_store + 1 ∧
          t.outputs = [(u, ⟨1⟩)] ∧ t.constraints = [] ∧ this'.store_ = u
      else
        rt'.next_store = rt.next_store ∧
        t.outputs = [(self.store_, ⟨1⟩)] ∧ t.constraints = [.align ⟨1⟩ ⟨0⟩] ∧
        this' = self := by
  by_cases h : rt.machine.count > 1 ∧ rhs.dim = 1
  · have huses : (decide (rt.machine.count > 1) && decide (rhs.dim = 1)) = true := by
      simp [h.1, h.2]
    simp only [if_pos h]
    simp only [NDArray.sort_task, bind, M.andThen, create_task, Task.add_input,
      Task.declare_partition, Task.add_input_at, M.runtime, huses, if_true,
      create_unbound_array, pure, M.ret, Task.add_output, Task.add_output_at,
      Task.add_communicator, Task.add_scalar_arg, submit, NDArray.get_store]
    refine ⟨_, _, _, rfl, rfl, ?_, ?_, ?_, ?_⟩
    · split <;> rfl
    · split <;> rfl
    · split <;> rfl
    · refine ⟨_, ?_, ?_, ?_, ?_, ?_, ?_, rfl⟩
      · rfl
      · rfl
      · rfl
      · rfl
      · split <;> rfl
      · split <;> rfl
  · have huses : (decide (rt.machine.count > 1) && decide (rhs.dim = 1)) = false := by
      rcases not_and_or.mp h with h1 | h1 <;> simp [h1]
    simp only [if_neg h]
    simp only [NDArray.sort_task, bind, M.andThen, create_task, Task.add_input,
      Task.declare_partition, Task.add_input_at, M.runtime, huses,
      pure, M.ret, Task.add_output, Task.add_output_at, Task.add_constraint,
      Task.add_communicator, Task.add_scalar_arg, submit, NDArray.get_store]
    refine ⟨_, _, _, rfl, rfl, ?_, ?_, ?_, ?_⟩
    · split <;> rfl
    · split <;> rfl
    · split <;> rfl
    · refine ⟨rfl, ?_, ?_, rfl⟩
      · split <;> rfl
      · split <;> rfl

/-! ## Properties of the checks of `NDArray::_perform_unary_reduction` -/

/-- Counterexample to C15 as stated: for a `complex64` source, the reduction
`MAX` and an `int32` array as `where`, the call fails with the runtime error of
the complex (arg)max/min guard, not with an invalid-argument error. -/
theorem where_not_bool_counterexample :
    (NDArray.ofShape 3 [2] (.prim .INT32_LT)).type ≠ DType.bool_ ∧
    (NDArray.ofShape 1 [] (.prim .COMPLEX64_LT))._perform_unary_reduction .MAX
        (NDArray.ofShape 2 [2] (.prim .COMPLEX64_LT)) none none none none none none none
        (some (NDArray.ofShape 3 [2] (.prim .INT32_LT))) sampleRuntime
      = (.error .complex_argminmax, sampleRuntime) ∧
    Error.kind .complex_argminmax ≠ .invalid_argument := by
  refine ⟨by decide, rfl, by decide⟩

/-- With a `where` array that is not boolean the checks of
`_perform_unary_reduction` fail and leave the runtime alone: at the assertion
on the element types, at the complex (arg)max/min guard, or, when both are
passed, at the test of the element type of `where`. -/
theorem checks_where_not_bool (op : UnaryRedCode) (src : NDArray) (axis : Option (List Int))
    (dtype res_dtype : Option DType) (out : Option NDArray) (keepdims : Option Bool)
    (w : NDArray) (rt : Runtime) (hbool : w.type ≠ DType.bool_) :
    ∃ e, NDArray.perform_unary_reduction_checks op src axis dtype res_dtype out keepdims
        (some w) rt = (.error e, rt) ∧
      (e = .where_should_be_bool ∨ e = .complex_argminmax ∨ e = .assertion) ∧
      ((rt.build.ndebug = true ∨ res_dtype = none ∨ dtype = none) →
        ¬ complex_rejected op src → e = .where_should_be_bool) := by
  generalize hX : NDArray.perform_unary_reduction_checks op src axis dtype res_dtype out
    keepdims (some w) rt = X
  unfold NDArray.perform_unary_reduction_checks at hX
  by_cases hc : complex_rejected op src
  · have hc' := hc
    unfold complex_rejected at hc'
    cases res_dtype with
    | some r =>
      by_cases ha : rt.build.ndebug = true ∨ dtype = none
      · have hassert : M.cassert (!dtype.isSome) rt = (.ok (), rt) := by
          rcases ha with ha | ha
          · simp [M.cassert, ha]
          · simp [M.cassert, ha]
        simp only [bind, M.andThen, hassert, pure, M.ret, hc', and_self, if_true,
          M.raise] at hX
        subst hX
        exact ⟨_, rfl, Or.inr (Or.inl rfl), fun _ h => absurd hc h⟩
      · have hassert : M.cassert (!dtype.isSome) rt = (.error .assertion, rt) := by
          rw [not_or] at ha
          cases hd : dtype with
          | none => exact absurd hd ha.2
          | some d => simp [M.cassert, ha.1]
        simp only [bind, M.andThen, hassert] at hX
        subst hX
        exact ⟨_, rfl, Or.inr (Or.inr rfl), fun _ h => absurd hc h⟩
    | none =>
      cases dtype with
      | some d =>
        simp only [bind, M.andThen, pure, M.ret, hc', and_self, if_true, M.raise] at hX
        subst hX
        exact ⟨_, rfl, Or.inr (Or.inl rfl), fun _ h => absurd hc h⟩
      | none =>
        cases out with
        | some o =>
          simp only [bind, M.andThen, pure, M.ret, hc', and_self, if_true, M.raise] at hX
          subst hX
          exact ⟨_, rfl, Or.inr (Or.inl rfl), fun _ h => absurd hc h⟩
        | none =>
          simp only [bind, M.andThen, pure, M.ret, hc', and_self, if_true, M.raise] at hX
          subst hX
          exact ⟨_, rfl, Or.inr (Or.inl rfl), fun _ h => absurd hc h⟩
  · have hc' := hc
    unfold complex_rejected at hc'
    cases res_dtype with
    | some r =>
      by_cases ha : rt.build.ndebug = true ∨ dtype = none
      · have hassert : M.cassert (!dtype.isSome) rt = (.ok (), rt) := by
          rcases ha with ha | ha
          · simp [M.cassert, ha]
          · simp [M.cassert, ha]
        simp only [bind, M.andThen, hassert, pure, M.ret, hc', if_false, hbool, ne_eq,
          not_false_eq_true, if_true, M.raise] at hX
        subst hX
        exact ⟨_, rfl, Or.inl rfl, fun _ _ => rfl⟩
      · have hassert : M.cassert (!dtype.isSome) rt = (.error .assertion, rt) := by
          rw [not_or] at ha
          cases hd : dtype with
          | none => exact absurd hd ha.2
          | some d => simp [M.cassert, ha.1]
        simp only [bind, M.andThen, hassert] at hX
        subst hX
        refine ⟨_, rfl, Or.inr (Or.inr rfl), fun h _ => ?_⟩
        rcases h with h | h | h
        · exact absurd (Or.inl h) ha
        · cases h
        · exact absurd (Or.inr h) ha
    | none =>
      cases dtype with
      | some d =>
        simp only [bind, M.andThen, pure, M.ret, hc', if_false, hbool, ne_eq,
          not_false_eq_true, if_true, M.raise] at hX
        subst hX
        exact ⟨_, rfl, Or.inl rfl, fun _ _ => rfl⟩
      | none =>
        cases out with
        | some o =>
          simp only [bind, M.andThen, pure, M.ret, hc', if_false, hbool, ne_eq,
            not_false_eq_true, if_true, M.raise] at hX
          subst hX
          exact ⟨_, rfl, Or.inl rfl, fun _ _ => rfl⟩
        | none =>
          simp only [bind, M.andThen, pure, M.ret, hc', if_false, hbool, ne_eq,
            not_false_eq_true, if_true, M.raise] at hX
          subst hX
          exact ⟨_, rfl, Or.inl rfl, fun _ _ => rfl⟩

/-- C15 (amended): a call of `_perform_unary_reduction` whose `where` argument
is present and not boolean fails with nothing handed to the runtime (no task,
fill or conversion). The failure is the invalid-argument error "where array
should be bool" unless one of the two checks that come first stops the call:
the assertion that `dtype` and `res_dtype` are not both given, or the guard
that rejects (arg)max/min of a complex source with a runtime error. -/
theorem where_must_be_bool (self : NDArray) (op : UnaryRedCode) (src : NDArray)
    (axis : Option (List Int)) (dtype res_dtype : Option DType) (out : Option NDArray)
    (keepdims : Option Bool) (args : Option (List NDArray)) (initial : Option Scalar)
    (w : NDArray) (rt : Runtime) (hbool : w.type ≠ DType.bool_) :
    ∃ e, self._perform_unary_reduction op src axis dtype res_dtype out keepdims args initial
        (some w) rt = (.error e, rt) ∧
      (e = .where_should_be_bool ∨ e = .complex_argminmax ∨ e = .assertion) ∧
      ((rt.build.ndebug = true ∨ res_dtype = none ∨ dtype = none) →
        ¬ complex_rejected op src → e = .where_should_be_bool) ∧
      Error.kind .where_should_be_bool = .invalid_argument := by
  obtain ⟨e, he, h1, h2⟩ :=
    checks_where_not_bool op src axis dtype res_dtype out keepdims w rt hbool
  refine ⟨e, ?_, h1, h2, rfl⟩
  simp only [NDArray._perform_unary_reduction, bind, M.andThen, he]


/-- An axis in range normalises without touching the runtime. -/
theorem normalize_axis_index_ok (x : Int) (ndim : Nat) (rt : Runtime)
    (h : -(ndim : Int) ≤ x ∧ x < (ndim : Int)) :
    normalize_axis_index x ndim rt = (.ok (if x < 0 then x + ndim else x), rt) := by
  simp [normalize_axis_index, h, M.ret]

/-- Axes in range normalise without touching the runtime. -/
theorem normalize_axis_vector_ok (ndim : Nat) (rt : Runtime) :
    ∀ (a : List Int), (∀ x ∈ a, -(ndim : Int) ≤ x ∧ x < (ndim : Int)) →
      normalize_axis_vector a ndim rt = (.ok (normalized_axes a ndim), rt)
  | [], _ => rfl
  | x :: xs, h => by
    have hx := normalize_axis_index_ok x ndim rt (h x (List.mem_cons_self _ _))
    have hxs := normalize_axis_vector_ok ndim rt xs
      (fun y hy => h y (List.mem_cons_of_mem _ hy))
    simp only [normalize_axis_vector, bind, M.andThen, hx, hxs, pure, M.ret,
      normalized_axes, List.map_cons]

/-- The loop that collects the output shape keeps, in order, the extent of
every axis that is not reduced, and a 1 for every reduced axis under
`keepdims`. -/
theorem implied_out_shape_eq (shape : List Nat) (axes : List Int) (keepdims : Bool) :
    implied_out_shape shape axes keepdims =
      (List.range shape.length).filterMap fun (i : Nat) =>
        if (i : Int) ∉ axes then some (shape.getD i 0)
        else if keepdims then some 1 else none := by
  unfold implied_out_shape
  have key : ∀ (l : List Nat) (init : List Nat),
      l.foldl (fun out_shape (i : Nat) =>
          if (i : Int) ∉ axes then out_shape ++ [shape.getD i 0]
          else if keepdims then out_shape ++ [1]
          else out_shape) init =
        init ++ l.filterMap fun (i : Nat) =>
          if (i : Int) ∉ axes then some (shape.getD i 0)
          else if keepdims then some 1 else none := by
    intro l
    induction l with
    | nil => intro init; simp
    | cons i l ih =>
      intro init
      rw [List.foldl_cons, ih]
      by_cases h1 : (i : Int) ∉ axes
      · rw [if_pos h1, List.filterMap_cons, if_pos h1]
        simp
      · by_cases h2 : keepdims = true
        · rw [if_neg h1, if_pos h2, List.filterMap_cons, if_neg h1, if_pos h2]
          simp
        · rw [if_neg h1, if_neg h2, List.filterMap_cons, if_neg h1, if_neg h2]
  simpa using key (List.range shape.length) []

/-- With no axis given every axis is reduced: the implied shape is empty, or
all ones under `keepdims`. -/
theorem implied_out_shape_all (shape : List Nat) (keepdims : Bool) :
    implied_out_shape shape (reduced_axes none shape.length) keepdims =
      if keepdims then List.replicate shape.length 1 else [] := by
  rw [implied_out_shape_eq]
  have hmem : ∀ i ∈ List.range shape.length,
      ¬ ((i : Int) ∉ reduced_axes none shape.length) := by
    intro i hi
    simp only [reduced_axes, not_not, List.mem_map]
    exact ⟨i, hi, rfl⟩
  cases keepdims with
  | false =>
    simp only [Bool.false_eq_true, if_false]
    apply List.filterMap_eq_nil_iff.mpr
    intro i hi
    simp [hmem i hi]
  | true =>
    simp only [if_true]
    have : ∀ (l : List Nat), (∀ i ∈ l, ¬ ((i : Int) ∉ reduced_axes none shape.length)) →
        l.filterMap (fun (i : Nat) => if (i : Int) ∉ reduced_axes none shape.length
          then some (shape.getD i 0) else some 1) = List.replicate l.length 1 := by
      intro l
      induction l with
      | nil => intro _; rfl
      | cons i l ih =>
        intro h
        have hi := h i (List.mem_cons_self _ _)
        rw [List.filterMap_cons, if_neg hi, ih (fun j hj => h j (List.mem_cons_of_mem _ hj))]
        rfl
    simpa using this (List.range shape.length) hmem


/-- Counterexample to C16 as stated: for a `complex64` source of shape `[2, 3]`,
the reduction `MAX` over all axes and a supplied output of shape `[7]`, the
call fails with the runtime error of the complex (arg)max/min guard, not with
an invalid-argument error. -/
theorem out_shape_counterexample :
    (NDArray.ofShape 3 [7] (.prim .COMPLEX64_LT)).shape ≠
      implied_out_shape (NDArray.ofShape 2 [2, 3] (.prim .COMPLEX64_LT)).shape
        (reduced_axes none 2) false ∧
    (NDArray.ofShape 1 [] (.prim .COMPLEX64_LT))._perform_unary_reduction .MAX
        (NDArray.ofShape 2 [2, 3] (.prim .COMPLEX64_LT)) none none none
        (some (NDArray.ofShape 3 [7] (.prim .COMPLEX64_LT))) none none none none sampleRuntime
      = (.error .complex_argminmax, sampleRuntime) ∧
    Error.kind .complex_argminmax ≠ .invalid_argument := by
  refine ⟨by decide, rfl, by decide⟩

/-- The checks of `_perform_unary_reduction` on a supplied output array, once
the earlier guards are passed: the array is rejected when its shape is not the
implied one and taken as it is otherwise; the runtime is left alone. -/
theorem checks_supplied_out (op : UnaryRedCode) (src : NDArray) (axis : Option (List Int))
    (dtype res_dtype : Option DType) (o : NDArray) (keepdims : Option Bool)
    (where_ : Option NDArray) (rt : Runtime)
    (hassert : rt.build.ndebug = true ∨ res_dtype = none ∨ dtype = none)
    (hcomplex : ¬ complex_rejected op src)
    (hwhere : ∀ w, where_ = some w → w.type = DType.bool_)
    (haxis : ∀ a, axis = some a → ∀ x ∈ a, -(src.dim : Int) ≤ x ∧ x < (src.dim : Int)) :
    NDArray.perform_unary_reduction_checks op src axis dtype res_dtype (some o) keepdims
        where_ rt =
      if o.shape ≠ implied_out_shape src.shape (reduced_axes axis src.dim)
          (keepdims.getD false) then
        (.error .output_shapes_do_not_match, rt)
      else
        (.ok { dtype := (resolved_types src dtype res_dtype (some o)).1
               res_dtype := (resolved_types src dtype res_dtype (some o)).2
               axes := reduced_axes axis src.dim
               out_shape := implied_out_shape src.shape (reduced_axes axis src.dim)
                 (keepdims.getD false)
               out := o }, rt) := by
  have hc' := hcomplex
  unfold complex_rejected at hc'
  have hca : ∀ d : DType, res_dtype ≠ none → dtype = some d →
      M.cassert (!(some d).isSome) rt = (.ok (), rt) := by
    intro d h1 h2
    rcases hassert with h | h | h
    · simp [M.cassert, h]
    · exact absurd h h1
    · rw [h2] at h; cases h
  have hcn : M.cassert (!(none : Option DType).isSome) rt = (.ok (), rt) := by
    simp [M.cassert]
  unfold NDArray.perform_unary_reduction_checks
  rcases where_ with _ | w <;> rcases axis with _ | a <;> rcases res_dtype with _ | r <;>
    rcases dtype with _ | d
  all_goals first | (have hw := hwhere _ rfl) | skip
  all_goals first | (have hax := normalize_axis_vector_ok src.dim rt _ (haxis _ rfl)) | skip
  all_goals first | (have hn := hca _ (Option.some_ne_none _) rfl) | skip
  all_goals
    simp only [bind, M.andThen, hc', if_false, pure, M.ret, M.raise, resolved_types,
      reduced_axes, hcn, ne_eq, not_true_eq_false, *]
    split_ifs <;> rfl

/-- C16 (amended): the implied output shape is the source shape with every
reduced axis removed, or replaced by extent 1 under `keepdims`; all axes are
reduced when no axis is given. For a call that passes the assertion on the
element types and the complex (arg)max/min guard, with every given axis in
range: a supplied output array whose shape differs from the implied shape
makes the call fail with an invalid-argument error and nothing handed to the
runtime (the shape error itself when `where` is absent or boolean); a supplied
output array of the implied shape is accepted as the output when `where` is
absent or boolean. -/
theorem out_shape_check (self : NDArray) (op : UnaryRedCode) (src : NDArray)
    (axis : Option (List Int)) (dtype res_dtype : Option DType) (o : NDArray)
    (keepdims : Option Bool) (args : Option (List NDArray)) (initial : Option Scalar)
    (where_ : Option NDArray) (rt : Runtime)
    (hassert : rt.build.ndebug = true ∨ res_dtype = none ∨ dtype = none)
    (hcomplex : ¬ complex_rejected op src)
    (haxis : ∀ a, axis = some a → ∀ x ∈ a, -(src.dim : Int) ≤ x ∧ x < (src.dim : Int)) :
    (implied_out_shape src.shape (reduced_axes axis src.dim) (keepdims.getD false) =
      (List.range src.dim).filterMap fun (i : Nat) =>
        if (i : Int) ∉ reduced_axes axis src.dim then some (src.shape.getD i 0)
        else if keepdims.getD false then some 1 else none) ∧
    (axis = none →
      implied_out_shape src.shape (reduced_axes axis src.dim) (keepdims.getD false) =
        if keepdims.getD false then List.replicate src.dim 1 else []) ∧
    (o.shape ≠ implied_out_shape src.shape (reduced_axes axis src.dim) (keepdims.getD false) →
      ∃ e, self._perform_unary_reduction op src axis dtype res_dtype (some o) keepdims args
          initial where_ rt = (.error e, rt) ∧
        Error.kind e = .invalid_argument ∧
        ((∀ w, where_ = some w → w.type = DType.bool_) →
          e = .output_shapes_do_not_match)) ∧
    ((∀ w, where_ = some w → w.type = DType.bool_) →
      o.shape = implied_out_shape src.shape (reduced_axes axis src.dim) (keepdims.getD false) →
      ∃ setup : ReductionSetup,
        NDArray.perform_unary_reduction_checks op src axis dtype res_dtype (some o) keepdims
          where_ rt = (.ok setup, rt) ∧
        setup.out = o ∧ setup.out_shape = o.shape ∧
        self._perform_unary_reduction op src axis dtype res_dtype (some o) keepdims args
          initial where_ rt =
          NDArray.perform_unary_reduction_run self op src axis keepdims args initial where_
            setup rt) := by
  have hlen : src.shape.length = src.dim := by
    simp [NDArray.shape, NDArray.dim, LogicalStore.extents, LogicalStore.dim]
  refine ⟨?_, ?_, ?_, ?_⟩
  · rw [implied_out_shape_eq, hlen]
  · intro h
    subst h
    have := implied_out_shape_all src.shape (keepdims.getD false)
    rw [hlen] at this
    exact this
  · intro hs
    by_cases hwhere : ∀ w, where_ = some w → w.type = DType.bool_
    · have hchk := checks_supplied_out op src axis dtype res_dtype o keepdims where_ rt hassert
        hcomplex hwhere haxis
      rw [if_pos hs] at hchk
      refine ⟨.output_shapes_do_not_match, ?_, rfl, fun _ => rfl⟩
      simp only [NDArray._perform_unary_reduction, bind, M.andThen, hchk]
    · push_neg at hwhere
      obtain ⟨w, rfl, hw⟩ := hwhere
      obtain ⟨e, he, -, h2⟩ :=
        checks_where_not_bool op src axis dtype res_dtype (some o) keepdims w rt hw
      have hee := h2 hassert hcomplex
      subst hee
      refine ⟨.where_should_be_bool, ?_, rfl, fun h => absurd (h w rfl) hw⟩
      simp only [NDArray._perform_unary_reduction, bind, M.andThen, he]
  · intro hwhere hs
    have hchk := checks_supplied_out op src axis dtype res_dtype o keepdims where_ rt hassert
      hcomplex hwhere haxis
    rw [if_neg (not_not.mpr hs)] at hchk
    refine ⟨_, hchk, rfl, hs.symm, ?_⟩
    simp only [NDArray._perform_unary_reduction, bind, M.andThen, hchk]

theorem out_shape_check_witness :
    (NDArray.ofShape 1 [2] (.prim .INT32_LT))._perform_unary_reduction .SUM
        (NDArray.ofShape 2 [2, 3] (.prim .INT32_LT)) (some [-1]) none none
        (some (NDArray.ofShape 3 [7] (.prim .INT32_LT))) none none none none sampleRuntime =
      (.error .output_shapes_do_not_match, sampleRuntime) ∧
    implied_out_shape (NDArray.ofShape 2 [2, 3] (.prim .INT32_LT)).shape
      (reduced_axes (some [-1]) 2) false = [2] := by
  have h := out_shape_check (NDArray.ofShape 1 [2] (.prim .INT32_LT)) .SUM
    (NDArray.ofShape 2 [2, 3] (.prim .INT32_LT)) (some [-1]) none none
    (NDArray.ofShape 3 [7] (.prim .INT32_LT)) none none none none sampleRuntime
    (.inr (.inl rfl)) (by decide) (fun a ha => by cases ha; decide)
  obtain ⟨e, he, -, hee⟩ := h.2.2.1 (by decide)
  have := hee (fun w hw => by cases hw)
  subst this
  exact ⟨he, by decide⟩

theorem where_must_be_bool_witness :
    (NDArray.ofShape 1 [] (.prim .INT32_LT))._perform_unary_reduction .SUM
        (NDArray.ofShape 2 [2, 3] (.prim .INT32_LT)) none none none none none none none
        (some (NDArray.ofShape 3 [2, 3] (.prim .INT32_LT))) sampleRuntime =
      (.error .where_should_be_bool, sampleRuntime) := by
  obtain ⟨e, he, -, hee, -⟩ := where_must_be_bool (NDArray.ofShape 1 [] (.prim .INT32_LT)) .SUM
    (NDArray.ofShape 2 [2, 3] (.prim .INT32_LT)) none none none none none none none
    (NDArray.ofShape 3 [2, 3] (.prim .INT32_LT)) sampleRuntime (by decide)
  have := hee (.inr (.inl rfl)) (by decide)
  subst this
  exact he

/-! ## Properties of `NDArray::sort` and `NDArray::put` -/

/-- C17: for a 0-dimensional rhs, no axis and the kind `"quicksort"`, `sort`
passes both of its own checks and then fails with the invalid-argument error of
`normalize_axis_index` before anything is handed to the runtime: the axis 0 it
picks when none is given is not an axis of rhs. -/
theorem sort_scalar_axis_none :
    (NDArray.ofShape 2 [] (.prim .INT32_LT)).dim = 0 ∧
    (NDArray.ofShape 1 [] (.prim .INT32_LT)).sort (NDArray.ofShape 2 [] (.prim .INT32_LT)) false
        none "quicksort" sampleRuntime = (.error .axis_error, sampleRuntime) ∧
    Error.kind .axis_error = .invalid_argument := by
  refine ⟨rfl, ?_, rfl⟩
  rfl

/-- Counterexample to C18 as stated: with empty values, `put` called with the
mode `"bogus"` returns normally; the test for empty operands comes first. -/
theorem put_empty_mode_counterexample :
    (NDArray.ofShape 3 [0] (.prim .INT32_LT)).size = 0 ∧
    ("bogus" ≠ "raise" ∧ "bogus" ≠ "wrap" ∧ "bogus" ≠ "clip") ∧
    (NDArray.ofShape 1 [4] (.prim .INT32_LT)).put (NDArray.ofShape 2 [2] DType.int64)
        (NDArray.ofShape 3 [0] (.prim .INT32_LT)) "bogus" sampleRuntime =
      (.ok (), sampleRuntime) := by
  refine ⟨rfl, by decide, rfl⟩

/-- C18 (amended): for a mode other than `"raise"`, `"wrap"` and `"clip"`,
`put` fails with an invalid-argument error and nothing handed to the runtime
when the destination, the indices and the values all are non-empty; when one
of them is empty it returns normally, again with nothing handed to the
runtime. -/
theorem put_mode_check (self indices values : NDArray) (mode : String) (rt : Runtime)
    (hmode : mode ≠ "raise" ∧ mode ≠ "wrap" ∧ mode ≠ "clip") :
    (values.size ≠ 0 ∧ indices.size ≠ 0 ∧ self.size ≠ 0 →
      self.put indices values mode rt = (.error .put_mode, rt)) ∧
    Error.kind .put_mode = .invalid_argument ∧
    (values.size = 0 ∨ indices.size = 0 ∨ self.size = 0 →
      self.put indices values mode rt = (.ok (), rt)) := by
  refine ⟨?_, rfl, ?_⟩
  · rintro ⟨h1, h2, h3⟩
    unfold NDArray.put
    rw [if_neg (by simp [h1, h2, h3]), if_pos hmode]
    rfl
  · intro h
    unfold NDArray.put
    rw [if_pos h]
    rfl

theorem put_mode_check_witness :
    ("bogus" ≠ "raise" ∧ "bogus" ≠ "wrap" ∧ "bogus" ≠ "clip") ∧
    ((NDArray.ofShape 1 [4] (.prim .INT32_LT)).put (NDArray.ofShape 2 [2] DType.int64)
        (NDArray.ofShape 3 [2] (.prim .INT32_LT)) "bogus" sampleRuntime =
      (.error .put_mode, sampleRuntime)) :=
  ⟨by decide, (put_mode_check (NDArray.ofShape 1 [4] (.prim .INT32_LT))
      (NDArray.ofShape 2 [2] DType.int64) (NDArray.ofShape 3 [2] (.prim .INT32_LT)) "bogus"
      sampleRuntime (by decide)).1 (by decide)⟩

/-! ## Properties of `NDArray::unary_reduction` and of empty destinations -/

theorem NoMultipleDimensions.andThen {α β : Type} {m : M α} {f : α → M β}
    (hm : NoMultipleDimensions m) (hf : ∀ a, NoMultipleDimensions (f a)) :
    NoMultipleDimensions (m.andThen f) := by
  intro rt
  have := hm rt
  unfold M.andThen
  rcases h : m rt with ⟨r, rt1⟩
  rw [h] at this
  cases r with
  | ok a => exact hf a rt1
  | error e => simpa using this

theorem NoMultipleDimensions.of_ok {α : Type} {m : M α}
    (h : ∀ rt, ∃ a rt1, m rt = (.ok a, rt1)) : NoMultipleDimensions m := by
  intro rt
  obtain ⟨a, rt1, h⟩ := h rt
  rw [h]
  intro hc
  cases hc

theorem NoMultipleDimensions.cassert (c : Bool) : NoMultipleDimensions (M.cassert c) := by
  intro rt
  unfold M.cassert
  split_ifs <;> intro hc <;> cases hc

theorem NoMultipleDimensions.withView (s : Store) (r : Except StoreError LogicalStore) :
    NoMultipleDimensions (s.withView r) := by
  intro rt
  cases r <;> intro hc <;> cases hc

theorem NoMultipleDimensions.get_reduction_op (op : UnaryRedCode) :
    NoMultipleDimensions (get_reduction_op op) := by
  intro rt
  unfold cunumeric.get_reduction_op
  cases List.lookup op TO_CORE_REDOP <;> intro hc <;> cases hc

/-- What `fill` leaves: no failure, no reduction task, the build untouched. -/
theorem fill_effect (self : NDArray) (v : Scalar) (rt : Runtime) :
    ∃ rt1, self.fill v rt = (.ok (), rt1) ∧
      submitted_reductions rt1 = submitted_reductions rt ∧ rt1.build = rt.build := by
  unfold NDArray.fill
  split_ifs
  · exact ⟨rt, rfl, rfl, rfl⟩
  · refine ⟨_, rfl, ?_, rfl⟩
    simp [submitted_reductions, List.filterMap_append]
  · refine ⟨_, rfl, ?_, rfl⟩
    simp [submitted_reductions, List.filterMap_append, Task.add_input, Task.add_output,
      Task.add_input_at, Task.add_output_at, Task.declare_partition]

/-- What `get_reduction_identity` leaves: a value, nothing handed to the runtime. -/
theorem get_reduction_identity_effect (op : UnaryRedCode) (type : DType) (rt : Runtime) :
    ∃ s rt1, get_reduction_identity op type rt = (.ok s, rt1) ∧ rt1.log = rt.log ∧
      rt1.build = rt.build := by
  unfold get_reduction_identity
  cases h : List.lookup (op, type.code) rt.identities with
  | some s => exact ⟨s, rt, by simp only [h], rfl, rfl⟩
  | none =>
    exact ⟨generate_identity op type,
      { rt with identities := rt.identities ++ [((op, type.code), generate_identity op type)] },
      by simp only [h], rfl, rfl⟩

/-- A reduction along more than one axis onto a destination that does not have
exactly one element fails, and no reduction task is submitted. -/
theorem multiple_axes_fail (self : NDArray) (op : UnaryRedCode) (src : NDArray)
    (where_ : Option NDArray) (orig_axis : Option (List Int)) (l : List Int)
    (keepdims : Option Bool) (args : Option (List NDArray)) (initial : Option Scalar)
    (rt : Runtime) (hsize : self.size ≠ 1) (hlen : l.length > 1) :
    ∃ e rt1,
      self.unary_reduction op src where_ orig_axis (some l) keepdims args initial rt =
        (.error e, rt1) ∧
      submitted_reductions rt1 = submitted_reductions rt ∧
      ((rt.build.ndebug = true ∨ self.dim ≤ src.dim) →
        (∃ v, NDArray.reduction_view self.store_.view src.shape l (keepdims.getD false) = .ok v) →
        e = .multiple_dimensions) := by
  unfold NDArray.unary_reduction
  by_cases hrank : rt.build.ndebug = true ∨ self.dim ≤ src.dim
  · have h0 : M.cassert (decide (self.dim ≤ src.dim)) rt = (.ok (), rt) := by
      rcases hrank with h | h <;> simp [M.cassert, h]
    have h4 : ∀ rt1, M.cassert (some l).isSome rt1 = (.ok (), rt1) := by
      intro rt1
      simp [M.cassert]
    have hfill : ∃ rt1, submitted_reductions rt1 = submitted_reductions rt ∧
        ((∃ v, initial = some v ∧ self.fill v rt = (.ok (), rt1)) ∨
         (∃ s rt0, initial = none ∧ get_reduction_identity op self.type rt = (.ok s, rt0) ∧
            self.fill s rt0 = (.ok (), rt1))) := by
      cases initial with
      | some v =>
        obtain ⟨rt1, h1, h2, -⟩ := fill_effect self v rt
        exact ⟨rt1, h2, .inl ⟨v, rfl, h1⟩⟩
      | none =>
        obtain ⟨s, rt0, h0, hlog, -⟩ := get_reduction_identity_effect op self.type rt
        obtain ⟨rt1, h1, h2, -⟩ := fill_effect self s rt0
        refine ⟨rt1, ?_, .inr ⟨s, rt0, rfl, h0, h1⟩⟩
        rw [h2]
        simp only [submitted_reductions, hlog]
    obtain ⟨rt1, h2, h1⟩ := hfill
    cases hv : NDArray.reduction_view self.store_.view src.shape l (keepdims.getD false) with
    | ok v =>
      refine ⟨.multiple_dimensions, rt1, ?_, h2, fun _ _ => rfl⟩
      rcases h1 with ⟨w, rfl, h1⟩ | ⟨s, rt0, rfl, hg, h1⟩
      · simp only [bind, M.andThen, h0, h1, hsize, if_false, h4, hv, Store.withView, M.ofStore,
          Except.map, M.ret, hlen, if_true, M.raise]
      · simp only [bind, M.andThen, h0, hg, h1, hsize, if_false, h4, hv, Store.withView,
          M.ofStore, Except.map, M.ret, hlen, if_true, M.raise]
    | error se =>
      refine ⟨.store se, rt1, ?_, h2, ?_⟩
      · rcases h1 with ⟨w, rfl, h1⟩ | ⟨s, rt0, rfl, hg, h1⟩
        · simp only [bind, M.andThen, h0, h1, hsize, if_false, h4, hv, Store.withView,
            M.ofStore, Except.map, M.raise]
        · simp only [bind, M.andThen, h0, hg, h1, hsize, if_false, h4, hv, Store.withView,
            M.ofStore, Except.map, M.raise]
      · rintro _ ⟨v, hv2⟩
        cases hv2
  · have h0 : M.cassert (decide (self.dim ≤ src.dim)) rt = (.error .assertion, rt) := by
      push_neg at hrank
      simp [M.cassert, hrank.1, hrank.2]
    refine ⟨.assertion, rt, ?_, rfl, fun h => absurd h hrank⟩
    simp only [bind, M.andThen, h0]

theorem NoMultipleDimensions.fill (self : NDArray) (v : Scalar) :
    NoMultipleDimensions (self.fill v) :=
  NoMultipleDimensions.of_ok fun rt =>
    let ⟨rt1, h, _⟩ := fill_effect self v rt
    ⟨(), rt1, h⟩

theorem NoMultipleDimensions.get_reduction_identity (op : UnaryRedCode) (type : DType) :
    NoMultipleDimensions (get_reduction_identity op type) :=
  NoMultipleDimensions.of_ok fun rt =>
    let ⟨s, rt1, h, _⟩ := get_reduction_identity_effect op type rt
    ⟨s, rt1, h⟩

theorem NoMultipleDimensions.create_task (code : CuNumericOpCode) :
    NoMultipleDimensions (create_task code) :=
  NoMultipleDimensions.of_ok fun _ => ⟨_, _, rfl⟩

theorem NoMultipleDimensions.submit (t : Task) : NoMultipleDimensions (submit t) :=
  NoMultipleDimensions.of_ok fun _ => ⟨_, _, rfl⟩

theorem NoMultipleDimensions.raise {α : Type} (e : Error) (h : e ≠ .multiple_dimensions) :
    NoMultipleDimensions (M.raise e : M α) := by
  intro rt hc
  simp only [M.raise] at hc
  cases hc
  exact h rfl

/-- A reduction onto one element, or along one axis, does not fail with the
multiple-dimensions error. -/
theorem unary_reduction_no_multiple_dimensions (self : NDArray) (op : UnaryRedCode)
    (src : NDArray) (where_ : Option NDArray) (orig_axis axes : Option (List Int))
    (keepdims : Option Bool) (args : Option (List NDArray)) (initial : Option Scalar)
    (h : self.size = 1 ∨ ∃ a, axes = some [a]) :
    NoMultipleDimensions
      (self.unary_reduction op src where_ orig_axis axes keepdims args initial) := by
  unfold NDArray.unary_reduction
  simp only [bind]
  refine NoMultipleDimensions.andThen (NoMultipleDimensions.cassert _) fun _ => ?_
  refine NoMultipleDimensions.andThen ?_ fun _ => ?_
  · cases initial with
    | some v => exact NoMultipleDimensions.fill self v
    | none =>
      exact NoMultipleDimensions.andThen (NoMultipleDimensions.get_reduction_identity _ _)
        fun s => NoMultipleDimensions.fill self s
  · by_cases hs : self.size = 1
    · rw [if_pos hs]
      refine NoMultipleDimensions.andThen (NoMultipleDimensions.cassert _) fun _ => ?_
      refine NoMultipleDimensions.andThen (NoMultipleDimensions.withView _ _) fun _ => ?_
      refine NoMultipleDimensions.andThen (NoMultipleDimensions.create_task _) fun _ => ?_
      refine NoMultipleDimensions.andThen (NoMultipleDimensions.get_reduction_op _) fun _ => ?_
      exact NoMultipleDimensions.submit _
    · obtain ⟨a, rfl⟩ := h.resolve_left hs
      rw [if_neg hs]
      refine NoMultipleDimensions.andThen (NoMultipleDimensions.cassert _) fun _ => ?_
      refine NoMultipleDimensions.andThen (NoMultipleDimensions.withView _ _) fun _ => ?_
      rw [if_neg (by simp)]
      refine NoMultipleDimensions.andThen (NoMultipleDimensions.create_task _) fun _ => ?_
      refine NoMultipleDimensions.andThen (NoMultipleDimensions.get_reduction_op _) fun _ => ?_
      exact NoMultipleDimensions.submit _

/-- Counterexample to C19 as stated: a reduction of a source of shape `[2, 3]`
along the axes 0 and 1 onto a 0-dimensional destination succeeds, with a
`CUNUMERIC_SCALAR_UNARY_RED` task submitted. -/
theorem unary_reduction_scalar_counterexample :
    ([0, 1] : List Int).length > 1 ∧
    ((NDArray.ofShape 1 [] (.prim .INT32_LT)).unary_reduction .SUM
        (NDArray.ofShape 2 [2, 3] (.prim .INT32_LT)) none (some [0, 1]) (some [0, 1]) none none
        none sampleRuntime).1 = .ok () ∧
    (submitted_reductions
      ((NDArray.ofShape 1 [] (.prim .INT32_LT)).unary_reduction .SUM
        (NDArray.ofShape 2 [2, 3] (.prim .INT32_LT)) none (some [0, 1]) (some [0, 1]) none none
        none sampleRuntime).2).map (fun t => t.task_id) = [.CUNUMERIC_SCALAR_UNARY_RED] := by
  refine ⟨by decide, rfl, rfl⟩

/-- C19 (amended): for an axes list naming more than one axis, a call of
`unary_reduction` whose destination does not have exactly one element fails
and submits no reduction task; the failure is the "Need support for reducing
multiple dimensions" error once the assertion on the ranks and the building of
the view of the destination are passed. A call naming exactly one axis does
not raise that error, and neither does a call whose destination has exactly
one element. -/
theorem unary_reduction_multiple_axes (self : NDArray) (op : UnaryRedCode) (src : NDArray)
    (where_ : Option NDArray) (orig_axis : Option (List Int)) (l : List Int)
    (keepdims : Option Bool) (args : Option (List NDArray)) (initial : Option Scalar)
    (rt : Runtime) (hlen : l.length > 1) :
    (self.size ≠ 1 →
      ∃ e rt1,
        self.unary_reduction op src where_ orig_axis (some l) keepdims args initial rt =
          (.error e, rt1) ∧
        submitted_reductions rt1 = submitted_reductions rt ∧
        ((rt.build.ndebug = true ∨ self.dim ≤ src.dim) →
          (∃ v, NDArray.reduction_view self.store_.view src.shape l (keepdims.getD false) =
            .ok v) →
          e = .multiple_dimensions)) ∧
    (∀ a : Int,
      (self.unary_reduction op src where_ orig_axis (some [a]) keepdims args initial rt).1 ≠
        .error .multiple_dimensions) ∧
    (self.size = 1 →
      (self.unary_reduction op src where_ orig_axis (some l) keepdims args initial rt).1 ≠
        .error .multiple_dimensions) :=
  ⟨fun hsize => multiple_axes_fail self op src where_ orig_axis l keepdims args initial rt hsize
      hlen,
   fun a => unary_reduction_no_multiple_dimensions self op src where_ orig_axis (some [a])
      keepdims args initial (.inr ⟨a, rfl⟩) rt,
   fun hsize => unary_reduction_no_multiple_dimensions self op src where_ orig_axis (some l)
      keepdims args initial (.inl hsize) rt⟩

theorem unary_reduction_multiple_axes_witness :
    ([0, 1] : List Int).length > 1 ∧
    (NDArray.ofShape 1 [4] (.prim .INT32_LT)).size ≠ 1 ∧
    ∃ rt1,
      (NDArray.ofShape 1 [4] (.prim .INT32_LT)).unary_reduction .SUM
        (NDArray.ofShape 2 [2, 3, 4] (.prim .INT32_LT)) none (some [0, 1]) (some [0, 1]) none
        none none sampleRuntime = (.error .multiple_dimensions, rt1) ∧
      submitted_reductions rt1 = [] := by
  have h := (unary_reduction_multiple_axes (NDArray.ofShape 1 [4] (.prim .INT32_LT)) .SUM
    (NDArray.ofShape 2 [2, 3, 4] (.prim .INT32_LT)) none (some [0, 1]) [0, 1] none none none
    sampleRuntime (by decide)).1 (by decide)
  obtain ⟨e, rt1, h1, h2, h3⟩ := h
  have he := h3 (.inr (by decide)) ⟨_, rfl⟩
  subst he
  exact ⟨by decide, by decide, rt1, h1, h2⟩

/-- C20: when the destination array has size 0, each of `fill`, `random`, `eye`,
`bincount`, `trilu`, `binary_op` (operands of one element type),
`binary_reduction`, `unary_op`, the two-argument `unary_reduction`, `dot`,
`arange` and `create_window` returns normally and leaves the runtime as it
was: no task and no fill is created or submitted, and the array, which the
call does not return anew, keeps its store. -/
theorem zero_volume_noop (self : NDArray) (rt : Runtime) (h : self.size = 0) :
    (∀ value, self.fill value rt = (.ok (), rt)) ∧
    (∀ gen_code, self.random gen_code rt = (.ok (), rt)) ∧
    (∀ k, self.eye k rt = (.ok (), rt)) ∧
    (∀ rhs weights, self.bincount rhs weights rt = (.ok (), rt)) ∧
    (∀ rhs k lower, self.trilu rhs k lower rt = (.ok (), rt)) ∧
    (∀ op_code rhs1 rhs2, rhs1.type = rhs2.type →
      self.binary_op op_code rhs1 rhs2 rt = (.ok (), rt)) ∧
    (∀ op_code rhs1 rhs2, self.binary_reduction op_code rhs1 rhs2 rt = (.ok (), rt)) ∧
    (∀ op_code input, self.unary_op op_code input rt = (.ok (), rt)) ∧
    (∀ op_code input, self.unary_reduction2 op_code input rt = (.ok (), rt)) ∧
    (∀ rhs1 rhs2, self.dot rhs1 rhs2 rt = (.ok (), rt)) ∧
    (∀ start stop step, self.arange start stop step rt = (.ok (), rt)) ∧
    (∀ op_code m args, self.create_window op_code m args rt = (.ok (), rt)) := by
  refine ⟨?_, ?_, ?_, ?_, ?_, ?_, ?_, ?_, ?_, ?_, ?_, ?_⟩
  · intro _; simp [NDArray.fill, h, M.ret]
  · intro _; simp [NDArray.random, h, M.ret]
  · intro _; simp [NDArray.eye, h, M.ret]
  · intro _ _; simp [NDArray.bincount, h, M.ret]
  · intro _ _ _; simp [NDArray.trilu, h, M.ret]
  · intro _ _ _ ht; simp [NDArray.binary_op, h, ht, M.ret]
  · intro _ _ _; simp [NDArray.binary_reduction, h, M.ret]
  · intro _ _; simp [NDArray.unary_op, h, M.ret]
  · intro _ _; simp [NDArray.unary_reduction2, h, M.ret]
  · intro _ _; simp [NDArray.dot, h, M.ret]
  · intro _ _ _; simp [NDArray.arange, h, M.ret]
  · intro _ _ _; simp [NDArray.create_window, h, M.ret]

theorem zero_volume_noop_witness :
    (NDArray.ofShape 1 [0, 3] (.prim .INT32_LT)).size = 0 ∧
    (NDArray.ofShape 1 [0, 3] (.prim .INT32_LT)).eye 0 sampleRuntime = (.ok (), sampleRuntime) ∧
    (NDArray.ofShape 1 [0, 3] (.prim .INT32_LT)).dot (NDArray.ofShape 2 [0, 2] (.prim .INT32_LT))
        (NDArray.ofShape 3 [2, 3] (.prim .INT32_LT)) sampleRuntime = (.ok (), sampleRuntime) :=
  ⟨by decide,
   (zero_volume_noop (NDArray.ofShape 1 [0, 3] (.prim .INT32_LT)) sampleRuntime
      (by decide)).2.2.1 0,
   (zero_volume_noop (NDArray.ofShape 1 [0, 3] (.prim .INT32_LT)) sampleRuntime
      (by decide)).2.2.2.2.2.2.2.2.2.1 _ _⟩

/-! ## Properties of the cache of reduction identities and of `TO_CORE_REDOP` -/

/-- A successful lookup names an entry of the list. -/
theorem lookup_mem {κ β : Type} [BEq κ] [LawfulBEq κ] (k : κ) (v : β) :
    ∀ (l : List (κ × β)), l.lookup k = some v → (k, v) ∈ l
  | [], h => by simp at h
  | (k1, v1) :: l, h => by
    by_cases hk : k = k1
    · subst hk
      simp [List.lookup] at h
      simp [h]
    · have hb : (k == k1) = false := by simpa using hk
      simp [List.lookup, hb] at h
      exact List.mem_cons_of_mem _ (lookup_mem k v l h)

/-- C29: `NANARGMAX` and `NANARGMIN` are arg-reductions for
`_perform_unary_reduction`, but `TO_CORE_REDOP` has no entry for them:
`get_reduction_op` fails with `std::out_of_range`, and so does a call of
`_perform_unary_reduction` with either code, on a reduction over all axes and
on a reduction along one axis. -/
theorem get_reduction_op_nanarg_undefined :
    NDArray.is_argred .NANARGMAX = true ∧ NDArray.is_argred .NANARGMIN = true ∧
    get_reduction_op .NANARGMAX sampleRuntime = (.error .unknown_reduction, sampleRuntime) ∧
    get_reduction_op .NANARGMIN sampleRuntime = (.error .unknown_reduction, sampleRuntime) ∧
    Error.kind .unknown_reduction = .out_of_range ∧
    ((NDArray.ofShape 1 [] DType.int64)._perform_unary_reduction .NANARGMAX
        (NDArray.ofShape 2 [3] (.prim .DOUBLE_LT)) none none (some DType.int64) none none none
        none none sampleRuntime).1 = .error .unknown_reduction ∧
    ((NDArray.ofShape 1 [2] DType.int64)._perform_unary_reduction .NANARGMIN
        (NDArray.ofShape 2 [2, 3] (.prim .DOUBLE_LT)) (some [1]) none (some DType.int64) none
        none none none none sampleRuntime).1 = .error .unknown_reduction := by
  refine ⟨by decide, by decide, rfl, rfl, rfl, rfl, rfl⟩

/-! ## Properties of the `MAXIMUM` and `MINIMUM` functors -/

/-- C22: on an integral element type the `MAXIMUM` functor returns one of its
arguments, not below either of them, the `MINIMUM` functor returns one of its
arguments, not above either of them, both are commutative, and on a tie both
return the first argument; `std::max` and `std::min` return the first argument
on a tie under any order. The result is a value of the element type when the
arguments are. -/
theorem MAXIMUM_MINIMUM_total_order (t : LegateTypeCode) (a b : Int) :
    (MAXIMUM_integral t a b = a ∨ MAXIMUM_integral t a b = b) ∧
    a ≤ MAXIMUM_integral t a b ∧ b ≤ MAXIMUM_integral t a b ∧
    (MINIMUM_integral t a b = a ∨ MINIMUM_integral t a b = b) ∧
    MINIMUM_integral t a b ≤ a ∧ MINIMUM_integral t a b ≤ b ∧
    MAXIMUM_integral t a b = MAXIMUM_integral t b a ∧
    MINIMUM_integral t a b = MINIMUM_integral t b a ∧
    (∀ {α : Type} (lt : α → α → Bool) (x y : α), lt x y = false → lt y x = false →
      std_max lt x y = x ∧ std_min lt x y = x) ∧
    (¬ a < b → ¬ b < a → MAXIMUM_integral t a b = a ∧ MINIMUM_integral t a b = a) ∧
    (t.holds a = true → t.holds b = true →
      t.holds (MAXIMUM_integral t a b) = true ∧ t.holds (MINIMUM_integral t a b) = true) := by
  simp only [MAXIMUM_integral, MINIMUM_integral, std_max, std_min, decide_eq_true_eq]
  refine ⟨?_, ?_, ?_, ?_, ?_, ?_, ?_, ?_, ?_, ?_, ?_⟩
  · split_ifs <;> simp
  · split_ifs <;> omega
  · split_ifs <;> omega
  · split_ifs <;> simp
  · split_ifs <;> omega
  · split_ifs <;> omega
  · split_ifs <;> omega
  · split_ifs <;> omega
  · intro α lt x y h1 h2
    simp [h1, h2]
  · intro h1 h2
    simp [h1, h2]
  · intro ha hb
    constructor <;> split_ifs <;> assumption


/-! ## Properties of `NDArray::binary_reduction` and `NDArray::dot` -/

/-- The broadcast of one operand against another leaves the runtime alone. -/
theorem broadcast_pair_state (rhs1 rhs2 : NDArray) (rt : Runtime) :
    (NDArray.broadcast_pair rhs1 rhs2 rt).2 = rt := by
  unfold NDArray.broadcast_pair
  split_ifs
  · rfl
  · simp only [bind, M.andThen, broadcast_shapes]
    cases List.foldlM (fun acc (b : NDArray) => broadcast_join acc b.shape.reverse)
        rhs1.shape.reverse [rhs2] with
    | error e => rfl
    | ok s =>
      simp only [M.ret, NDArray.broadcast_to, bind, M.andThen, M.runtime, Store.withView]
      cases broadcast rt.build.debug_cunumeric s.reverse rhs1.store_.view <;> rfl

/-- What `fill` hands to the runtime for a non-empty array: a fill of the store
with the value when the store is not a transformed view; otherwise a
`CUNUMERIC_FILL` task that writes the store and reads the scalar store made
from the value. -/
theorem fill_event (self : NDArray) (value : Scalar) (rt : Runtime) (h : self.size ≠ 0) :
    ∃ (ev : Event) (rt1 : Runtime), self.fill value rt = (.ok (), rt1) ∧
      rt1.log = rt.log ++ [ev] ∧
      (self.store_.transformed = false → ev = .issue_fill self.store_ value) ∧
      (self.store_.transformed = true → ∃ (t : Task) (fv : Store), ev = .submit t ∧
        t.task_id = .CUNUMERIC_FILL ∧ t.outputs = [(self.store_, ⟨0⟩)] ∧
        t.inputs = [(fv, ⟨1⟩)] ∧ fv.value = some value ∧ t.reductions = []) := by
  generalize hX : self.fill value rt = X
  cases ht : self.store_.transformed
  · simp only [NDArray.fill, h, ht, if_false, Bool.not_false, if_true, issue_fill] at hX
    subst hX
    refine ⟨_, _, rfl, rfl, ?_, ?_⟩
    · intro _; rfl
    · intro hc; cases hc
  · simp only [NDArray.fill, h, ht, if_false, Bool.not_true, Bool.false_eq_true, bind,
      M.andThen, create_scalar_store, create_task, submit, Task.add_output, Task.add_input,
      Task.declare_partition, Task.add_output_at, Task.add_input_at] at hX
    subst hX
    refine ⟨_, _, rfl, rfl, ?_, ?_⟩
    · intro hc; cases hc
    · intro _; exact ⟨_, _, rfl, rfl, rfl, rfl, rfl, rfl⟩

/-- C23: with a non-empty destination and operands of shapes `[2]` and `[3]`,
`binary_reduction` fails while broadcasting the operands against each other:
nothing is filled and nothing is submitted, so the destination is not
initialised. -/
theorem binary_reduction_incompatible_operands :
    (NDArray.ofShape 1 [] DType.bool_).size ≠ 0 ∧
    (NDArray.ofShape 1 [] DType.bool_).binary_reduction 3
        (NDArray.ofShape 2 [2] DType.int64) (NDArray.ofShape 3 [3] DType.int64) sampleRuntime =
      (.error .shape_mismatch, sampleRuntime) ∧
    sampleRuntime.log = [] := by
  refine ⟨by decide, rfl, rfl⟩

/-- C23 (amended): for a non-empty destination, `binary_reduction` either fails
while broadcasting one operand against the other, with nothing filled or
submitted, or fills the destination and then submits one
`CUNUMERIC_BINARY_RED` task: for the operation code `NOT_EQUAL` it fills
`false` and reduces with `ADD`, which is `get_reduction_op(SUM)`; for every
other code it fills `true` and reduces with `MUL`, which is
`get_reduction_op(PROD)`. The fill is a fill of the store with that value, or,
on a transformed view, a `CUNUMERIC_FILL` task reading the scalar store made
from that value. The two inputs are the broadcast operands, aligned with each
other. For operands of one shape the broadcasts succeed. -/
theorem binary_reduction_identity (self : NDArray) (op_code : Int) (rhs1 rhs2 : NDArray)
    (rt : Runtime) (hsize : self.size ≠ 0) :
    (rhs1.shape = rhs2.shape →
      NDArray.broadcast_pair rhs1 rhs2 rt = (.ok rhs1.store_, rt) ∧
      NDArray.broadcast_pair rhs2 rhs1 rt = (.ok rhs2.store_, rt)) ∧
    ((∃ e, self.binary_reduction op_code rhs1 rhs2 rt = (.error e, rt) ∧
      ((NDArray.broadcast_pair rhs1 rhs2 rt).1 = .error e ∨
       (NDArray.broadcast_pair rhs2 rhs1 rt).1 = .error e)) ∨
    (∃ (s1 s2 : Store) (ev : Event) (t : Task) (rt1 rt2 : Runtime),
      NDArray.broadcast_pair rhs1 rhs2 rt = (.ok s1, rt) ∧
      NDArray.broadcast_pair rhs2 rhs1 rt = (.ok s2, rt) ∧
      self.fill (.bool (decide (op_code ≠ rt.build.BinaryOpCode_NOT_EQUAL))) rt = (.ok (), rt1) ∧
      rt1.log = rt.log ++ [ev] ∧
      (self.store_.transformed = false →
        ev = .issue_fill self.store_
          (.bool (decide (op_code ≠ rt.build.BinaryOpCode_NOT_EQUAL)))) ∧
      (self.store_.transformed = true → ∃ (ft : Task) (fv : Store), ev = .submit ft ∧
        ft.task_id = .CUNUMERIC_FILL ∧ ft.outputs = [(self.store_, ⟨0⟩)] ∧
        ft.inputs = [(fv, ⟨1⟩)] ∧
        fv.value = some (.bool (decide (op_code ≠ rt.build.BinaryOpCode_NOT_EQUAL))) ∧
        ft.reductions = []) ∧
      self.binary_reduction op_code rhs1 rhs2 rt = (.ok (), rt2) ∧
      rt2.log = rt1.log ++ [.submit t] ∧
      t.task_id = .CUNUMERIC_BINARY_RED ∧
      t.outputs = [] ∧
      t.reductions =
        [(self.store_,
          if op_code = rt.build.BinaryOpCode_NOT_EQUAL then ReductionOpKind.ADD else .MUL,
          ⟨0⟩)] ∧
      get_reduction_op .SUM rt = (.ok .ADD, rt) ∧
      get_reduction_op .PROD rt = (.ok .MUL, rt) ∧
      t.inputs = [(s1, ⟨1⟩), (s2, ⟨2⟩)] ∧
      t.scalar_args = [.int32 op_code] ∧
      t.constraints = [.align ⟨1⟩ ⟨2⟩])) := by
  refine ⟨fun hs => ⟨by simp [NDArray.broadcast_pair, hs, M.ret],
    by simp [NDArray.broadcast_pair, hs, M.ret]⟩, ?_⟩
  obtain ⟨r1, h1⟩ : ∃ r1, NDArray.broadcast_pair rhs1 rhs2 rt = (r1, rt) :=
    ⟨_, Prod.ext rfl (broadcast_pair_state rhs1 rhs2 rt)⟩
  obtain ⟨r2, h2⟩ : ∃ r2, NDArray.broadcast_pair rhs2 rhs1 rt = (r2, rt) :=
    ⟨_, Prod.ext rfl (broadcast_pair_state rhs2 rhs1 rt)⟩
  rw [h1, h2]
  cases r1 with
  | error e =>
    left
    refine ⟨e, ?_, .inl rfl⟩
    simp only [NDArray.binary_reduction, hsize, if_false, bind, M.andThen, h1]
  | ok s1 =>
    cases r2 with
    | error e =>
      left
      refine ⟨e, ?_, .inr rfl⟩
      simp only [NDArray.binary_reduction, hsize, if_false, bind, M.andThen, h1, h2]
    | ok s2 =>
      right
      obtain ⟨ev, rt1, hfill, hev, hev1, hev2⟩ :=
        fill_event self (.bool (decide (op_code ≠ rt.build.BinaryOpCode_NOT_EQUAL))) rt hsize
      have hsum : get_reduction_op .SUM rt = (.ok .ADD, rt) := rfl
      have hprod : get_reduction_op .PROD rt = (.ok .MUL, rt) := rfl
      generalize hX : self.binary_reduction op_code rhs1 rhs2 rt = X
      by_cases hop : op_code = rt.build.BinaryOpCode_NOT_EQUAL
      · have hd : decide (op_code ≠ rt.build.BinaryOpCode_NOT_EQUAL) = false := by simp [hop]
        rw [hd] at hfill hev1 hev2
        simp only [NDArray.binary_reduction, hsize, if_false, bind, M.andThen, h1, h2, M.runtime, hop,
          if_true, hsum, hfill, pure, M.ret, create_task, Task.add_reduction, Task.add_input,
          Task.declare_partition, Task.add_input_at, Task.add_scalar_arg, Task.add_constraint,
          submit] at hX
        subst hX
        rw [hd]
        exact ⟨s1, s2, ev, _, rt1, _, rfl, rfl, hfill, hev, hev1, hev2, rfl, rfl, rfl, rfl,
          by rw [if_pos hop]; rfl, hsum, hprod, rfl, by rw [hop]; rfl, rfl⟩
      · have hd : decide (op_code ≠ rt.build.BinaryOpCode_NOT_EQUAL) = true := by simp [hop]
        rw [hd] at hfill hev1 hev2
        simp only [NDArray.binary_reduction, hsize, if_false, bind, M.andThen, h1, h2, M.runtime, hop,
          hprod, hfill, pure, M.ret, create_task, Task.add_reduction, Task.add_input,
          Task.declare_partition, Task.add_input_at, Task.add_scalar_arg, Task.add_constraint,
          submit] at hX
        subst hX
        rw [hd]
        exact ⟨s1, s2, ev, _, rt1, _, rfl, rfl, hfill, hev, hev1, hev2, rfl, rfl, rfl, rfl,
          by rw [if_neg hop]; rfl, hsum, hprod, rfl, rfl, rfl⟩

theorem binary_reduction_identity_witness :
    ∃ (t : Task) (rt2 : Runtime),
      (NDArray.ofShape 1 [] DType.bool_).binary_reduction 3
        (NDArray.ofShape 2 [3] DType.int64) (NDArray.ofShape 3 [3] DType.int64) sampleRuntime =
        (.ok (), rt2) ∧
      rt2.log = [.issue_fill (NDArray.ofShape 1 [] DType.bool_).store_ (.bool true),
        .submit t] ∧
      t.reductions = [((NDArray.ofShape 1 [] DType.bool_).store_, .MUL, ⟨0⟩)] ∧
      t.constraints = [.align ⟨1⟩ ⟨2⟩] := by
  rcases binary_reduction_identity (NDArray.ofShape 1 [] DType.bool_) 3
    (NDArray.ofShape 2 [3] DType.int64) (NDArray.ofShape 3 [3] DType.int64) sampleRuntime
    (by decide) with ⟨-, ⟨e, -, h | h⟩ | ⟨s1, s2, ev, t, rt1, rt2, -, -, -, hlog1, hev, -, h,
      hlog2, -, -, hred, -, -, -, -, hc⟩⟩
  · cases h
  · cases h
  · refine ⟨t, rt2, h, ?_, hred, hc⟩
    rw [hlog2, hlog1, hev rfl]
    rfl

/-- The rank of an array is the length of its shape. -/
theorem NDArray.dim_eq_length (a : NDArray) : a.dim = a.shape.length := by
  simp [NDArray.dim, NDArray.shape, LogicalStore.dim, LogicalStore.extents]

/-- A promotion at an axis within the rank succeeds; the extents of the result
are those of the store with the new extent inserted at that axis. -/
theorem promote_ok (s : LogicalStore) (d size : Nat) (h : d ≤ s.dim) :
    ∃ v, s.promote d size = .ok v ∧
      v.extents = s.extents.take d ++ size :: s.extents.drop d ∧ v.backing = s.backing := by
  refine ⟨{ s with
      axes := s.axes.take d ++ ⟨size, .broadcasted⟩ :: s.axes.drop d
      transforms := s.transforms ++ [.promote d size] },
    by simp only [LogicalStore.promote, h, if_true], ?_, rfl⟩
  simp [LogicalStore.extents, List.map_take, List.map_drop]

/-- C25: for a non-empty destination of shape `(m, n)` and operands of shapes
`(m, k)` and `(k, n)`, `dot` fills the destination with the value
`get_reduction_identity(SUM, type())` returns, then submits one
`CUNUMERIC_MATMUL` task whose `ADD` reduction is the destination promoted at
axis 1 by `k` and whose inputs are the first operand promoted at axis 2 by `n`
and the second promoted at axis 0 by `m`; the three views have the shape
`(m, k, n)` and the constraints are `align(lhs, rhs1)` and
`align(rhs1, rhs2)`. -/
theorem dot_views (self rhs1 rhs2 : NDArray) (m n k : Nat) (rt : Runtime)
    (hsize : self.size ≠ 0) (hlhs : self.shape = [m, n]) (hrhs1 : rhs1.shape = [m, k])
    (hrhs2 : rhs2.shape = [k, n]) :
    ∃ (identity : Scalar) (rt0 rt1 rt2 : Runtime) (ev : Event) (t : Task)
      (lhs_s rhs1_s rhs2_s : LogicalStore),
      get_reduction_identity .SUM self.type rt = (.ok identity, rt0) ∧
      rt0.log = rt.log ∧
      self.fill identity rt0 = (.ok (), rt1) ∧
      rt1.log = rt.log ++ [ev] ∧
      (self.store_.transformed = false → ev = .issue_fill self.store_ identity) ∧
      (self.store_.transformed = true → ∃ ft : Task, ev = .submit ft ∧
        ft.task_id = .CUNUMERIC_FILL ∧ ft.outputs = [(self.store_, ⟨0⟩)] ∧
        ft.reductions = []) ∧
      self.store_.view.promote 1 k = .ok lhs_s ∧
      rhs1.store_.view.promote 2 n = .ok rhs1_s ∧
      rhs2.store_.view.promote 0 m = .ok rhs2_s ∧
      lhs_s.extents = [m, k, n] ∧ rhs1_s.extents = [m, k, n] ∧ rhs2_s.extents = [m, k, n] ∧
      self.dot rhs1 rhs2 rt = (.ok (), rt2) ∧
      rt2.log = rt1.log ++ [.submit t] ∧
      t.task_id = .CUNUMERIC_MATMUL ∧
      t.outputs = [] ∧
      t.reductions = [({ self.store_ with view := lhs_s }, .ADD, ⟨0⟩)] ∧
      t.inputs = [({ rhs1.store_ with view := rhs1_s }, ⟨1⟩),
        ({ rhs2.store_ with view := rhs2_s }, ⟨2⟩)] ∧
      t.constraints = [.align ⟨0⟩ ⟨1⟩, .align ⟨1⟩ ⟨2⟩] := by
  have hd0 : self.dim = 2 := by rw [NDArray.dim_eq_length, hlhs]; rfl
  have hd1 : rhs1.dim = 2 := by rw [NDArray.dim_eq_length, hrhs1]; rfl
  have hd2 : rhs2.dim = 2 := by rw [NDArray.dim_eq_length, hrhs2]; rfl
  obtain ⟨identity, rt0, hid, hlog0, -⟩ := get_reduction_identity_effect .SUM self.type rt
  obtain ⟨ev, rt1, hfill, hev, -, -, -, hev1, hev2⟩ := fill_nonempty self identity rt0 hsize
  obtain ⟨lhs_s, hp0, he0, -⟩ := promote_ok self.store_.view 1 k (by
    have := hd0; simp only [NDArray.dim] at this; omega)
  obtain ⟨rhs1_s, hp1, he1, -⟩ := promote_ok rhs1.store_.view 2 n (by
    have := hd1; simp only [NDArray.dim] at this; omega)
  obtain ⟨rhs2_s, hp2, he2, -⟩ := promote_ok rhs2.store_.view 0 m (Nat.zero_le _)
  have hassert : ∀ rt', M.cassert (self.dim == 2 && rhs1.dim == 2 && rhs2.dim == 2) rt' =
      (.ok (), rt') := by
    intro rt'
    simp [M.cassert, hd0, hd1, hd2]
  have hsum : ∀ rt', get_reduction_op .SUM rt' = (.ok .ADD, rt') := fun _ => rfl
  have hm : rhs1.shape.getD 0 0 = m := by rw [hrhs1]; rfl
  have hk : rhs1.shape.getD 1 0 = k := by rw [hrhs1]; rfl
  have hn : rhs2.shape.getD 1 0 = n := by rw [hrhs2]; rfl
  simp only [NDArray.shape] at hlhs hrhs1 hrhs2
  rw [hlhs] at he0
  rw [hrhs1] at he1
  rw [hrhs2] at he2
  generalize hX : self.dot rhs1 rhs2 rt = X
  simp only [NDArray.dot, hsize, if_false, bind, M.andThen, hid, hfill, hassert, hm, hk, hn,
    Store.withView, hp0, hp1, hp2, Except.map, M.ofStore, M.ret, create_task, hsum,
    Task.add_reduction, Task.add_input, Task.declare_partition, Task.add_input_at,
    Task.add_constraint, submit] at hX
  subst hX
  exact ⟨identity, rt0, rt1, _, ev, _, lhs_s, rhs1_s, rhs2_s, hid, hlog0, hfill,
    by rw [hev, hlog0], hev1, hev2, hp0, hp1, hp2, he0, he1, he2, rfl, rfl, rfl, rfl, rfl, rfl,
    rfl⟩

theorem dot_views_witness :
    ∃ (t : Task) (rt2 : Runtime),
      (NDArray.ofShape 1 [2, 3] DType.int64).dot (NDArray.ofShape 2 [2, 4] DType.int64)
        (NDArray.ofShape 3 [4, 3] DType.int64) sampleRuntime = (.ok (), rt2) ∧
      t.reductions.map (fun r => (r.1.view.extents, r.2.1)) = [([2, 4, 3], .ADD)] ∧
      t.inputs.map (fun i => i.1.view.extents) = [[2, 4, 3], [2, 4, 3]] ∧
      t.constraints = [.align ⟨0⟩ ⟨1⟩, .align ⟨1⟩ ⟨2⟩] := by
  obtain ⟨identity, rt0, rt1, rt2, ev, t, l, r1, r2, -, -, -, -, -, -, -, -, -, e0, e1, e2, h,
    -, -, -, hred, hin, hc⟩ :=
    dot_views (NDArray.ofShape 1 [2, 3] DType.int64) (NDArray.ofShape 2 [2, 4] DType.int64)
      (NDArray.ofShape 3 [4, 3] DType.int64) 2 3 4 sampleRuntime (by decide) rfl rfl rfl
  refine ⟨t, rt2, h, ?_, ?_, hc⟩
  · rw [hred]
    simp only [List.map, e0]
  · rw [hin]
    simp only [List.map, e1, e2]

/-! ## Properties of the views of `NDArray::unary_reduction` -/

/-- Reading every element of a list in order gives the list back. -/
theorem map_getD_range (l : List Nat) :
    (List.range l.length).map (fun i => l.getD i 0) = l := by
  apply List.ext_getElem
  · simp
  · intro i h1 h2
    simp [List.getD_eq_getElem?_getD, List.getElem?_eq_getElem h2]

/-- Keeping every element but the one at `a`, or putting 1 in its place. -/
theorem filterMap_single_axis (kd : Bool) : ∀ (R : List Nat) (a : Nat),
    ((List.range R.length).filterMap fun (i : Nat) =>
      if i ≠ a then some (R.getD i 0) else if kd then some 1 else none) =
      if kd then R.set a 1 else R.eraseIdx a
  | [], a => by cases kd <;> simp
  | x :: xs, 0 => by
    rw [List.length_cons, List.range_succ_eq_map, List.filterMap_cons, List.filterMap_map]
    have h : (List.filterMap ((fun (i : Nat) =>
        if i ≠ 0 then some ((x :: xs).getD i 0) else if kd then some 1 else none) ∘ Nat.succ)
        (List.range xs.length)) = xs := by
      conv_rhs => rw [← map_getD_range xs]
      rw [← List.filterMap_eq_map]
      apply List.filterMap_congr
      intro i _
      simp
    rw [h]
    cases kd <;> simp
  | x :: xs, a + 1 => by
    rw [List.length_cons, List.range_succ_eq_map, List.filterMap_cons, List.filterMap_map]
    have h : (List.filterMap ((fun (i : Nat) =>
        if i ≠ a + 1 then some ((x :: xs).getD i 0) else if kd then some 1 else none) ∘
        Nat.succ) (List.range xs.length)) =
        if kd then xs.set a 1 else xs.eraseIdx a := by
      rw [← filterMap_single_axis kd xs a]
      apply List.filterMap_congr
      intro i _
      simp
    rw [h]
    cases kd <;> simp

/-- The shape `_perform_unary_reduction` implies for one reduced axis `a`: the
source shape with axis `a` removed, or set to 1 under `keepdims`. -/
theorem implied_out_shape_single (R : List Nat) (a : Nat) (kd : Bool) :
    implied_out_shape R [(a : Int)] kd = if kd then R.set a 1 else R.eraseIdx a := by
  rw [implied_out_shape_eq, ← filterMap_single_axis kd R a]
  apply List.filterMap_congr
  intro i _
  simp

/-- The projection of an axis of positive extent at index 0 succeeds; the
extents of the result are those of the store without that axis. -/
theorem project_ok (s : LogicalStore) (d : Nat) (hd : d < s.dim)
    (hpos : 0 < s.extents.getD d 0) :
    ∃ v, s.project d 0 = .ok v ∧
      v.extents = s.extents.take d ++ s.extents.drop (d + 1) ∧ v.backing = s.backing := by
  have hd' : d < s.axes.length := hd
  have hax : s.axes[d]? = some s.axes[d] := List.getElem?_eq_getElem hd'
  have hext : 0 < s.axes[d].extent := by
    simpa [LogicalStore.extents, List.getD_eq_getElem?_getD, List.getElem?_map, hax] using hpos
  refine ⟨{ s with
      axes := s.axes.take d ++ s.axes.drop (d + 1)
      transforms := s.transforms ++ [.project d 0] }, ?_, ?_, rfl⟩
  · simp only [LogicalStore.project, hax, hext, if_true]
  · simp [LogicalStore.extents, List.map_take, List.map_drop]

/-- Putting an element back where it was taken out restores the list. -/
theorem take_drop_reinsert (l : List Nat) (a : Nat) (ha : a < l.length) :
    (l.take a ++ l.drop (a + 1)).take a ++
      l.getD a 0 :: (l.take a ++ l.drop (a + 1)).drop a = l := by
  have h1 : (l.take a).length = a := by simp [List.length_take]; omega
  rw [List.take_left' h1, List.drop_left' h1]
  have h2 : l.getD a 0 = l[a] := by
    simp [List.getD_eq_getElem?_getD, List.getElem?_eq_getElem ha]
  rw [h2, ← List.drop_eq_getElem_cons ha, List.take_append_drop]

/-- Replacing an element leaves the elements before it as they were. -/
theorem take_set_self (x : Nat) : ∀ (l : List Nat) (a : Nat), (l.set a x).take a = l.take a
  | [], _ => by simp
  | _ :: _, 0 => by simp
  | y :: l, a + 1 => by simp [take_set_self x l a]

/-- The view `unary_reduction` builds of a destination that has the shape
implied by one reduced axis has the shape of the source. -/
theorem reduction_view_single_axis (lhs : LogicalStore) (R : List Nat) (a : Nat) (kd : Bool)
    (ha : a < R.length)
    (hshape : lhs.extents = if kd then R.set a 1 else R.eraseIdx a) :
    ∃ v, NDArray.reduction_view lhs R [(a : Int)] kd = .ok v ∧ v.extents = R ∧
      v.backing = lhs.backing := by
  have hneg : ¬ ((a : Int) < 0) := by omega
  cases kd with
  | false =>
    simp only [Bool.false_eq_true, if_false] at hshape
    have hdim : a ≤ lhs.dim := by
      have : lhs.dim = lhs.extents.length := by simp [LogicalStore.dim, LogicalStore.extents]
      rw [this, hshape, List.length_eraseIdx, if_pos ha]
      omega
    obtain ⟨v, hv, he, hb⟩ := promote_ok lhs a (R.getD a 0) hdim
    refine ⟨v, ?_, ?_, hb⟩
    · simp only [NDArray.reduction_view, Bool.false_eq_true, if_false, pure, Except.pure,
        bind, Except.bind, List.foldlM, NDArray.promote_axis, hneg, Int.toNat_ofNat, hv]
    · rw [he, hshape, List.eraseIdx_eq_take_drop_succ]
      exact take_drop_reinsert R a ha
  | true =>
    simp only [if_true] at hshape
    have hlen : lhs.dim = R.length := by
      have : lhs.dim = lhs.extents.length := by simp [LogicalStore.dim, LogicalStore.extents]
      rw [this, hshape, List.length_set]
    have hpos : 0 < lhs.extents.getD a 0 := by
      rw [hshape]
      simp [List.getD_eq_getElem?_getD, List.getElem?_set, ha]
    obtain ⟨p, hp, hpe, hpb⟩ := project_ok lhs a (by omega) hpos
    have hpdim : a ≤ p.dim := by
      have : p.dim = p.extents.length := by simp [LogicalStore.dim, LogicalStore.extents]
      rw [this, hpe, hshape]
      simp [List.length_take, List.length_drop, List.length_set]
      omega
    obtain ⟨v, hv, he, hb⟩ := promote_ok p a (R.getD a 0) hpdim
    refine ⟨v, ?_, ?_, hb.trans hpb⟩
    · simp only [NDArray.reduction_view, if_true, pure, Except.pure,
        bind, Except.bind, List.foldlM, NDArray.project_axis, NDArray.promote_axis, hneg,
        if_false, Int.toNat_ofNat, hp, hv]
    · rw [he, hpe, hshape, take_set_self, List.drop_set_of_lt 1 R (Nat.lt_succ_self a)]
      exact take_drop_reinsert R a ha

/-- Adding further inputs to a task changes nothing but its inputs, which it
extends. -/
theorem foldl_add_input_frame : ∀ (arr : List NDArray) (t : Task),
    (arr.foldl (fun (t : Task) (arg : NDArray) => (t.add_input arg.store_).1) t).task_id =
      t.task_id ∧
    (arr.foldl (fun (t : Task) (arg : NDArray) => (t.add_input arg.store_).1) t).reductions =
      t.reductions ∧
    (arr.foldl (fun (t : Task) (arg : NDArray) => (t.add_input arg.store_).1) t).constraints =
      t.constraints ∧
    (arr.foldl (fun (t : Task) (arg : NDArray) => (t.add_input arg.store_).1) t).scalar_args =
      t.scalar_args ∧
    ∀ x, t.inputs.head? = some x →
      (arr.foldl (fun (t : Task) (arg : NDArray) => (t.add_input arg.store_).1) t).inputs.head?
        = some x
  | [], t => ⟨rfl, rfl, rfl, rfl, fun _ h => h⟩
  | a :: arr, t => by
    obtain ⟨h1, h2, h3, h4, h5⟩ := foldl_add_input_frame arr (t.add_input a.store_).1
    simp only [List.foldl_cons]
    refine ⟨h1, h2, h3, h4, fun x hx => h5 x ?_⟩
    cases hi : t.inputs with
    | nil => rw [hi] at hx; cases hx
    | cons y ys =>
      rw [hi] at hx
      simpa [Task.add_input, Task.add_input_at, Task.declare_partition, hi] using hx

/-- C24: for a reduction along one axis `a` of a source of shape `R` onto a
destination of more than one element whose shape is `R` with axis `a` removed,
or set to 1 under `keepdims` (the shape `_perform_unary_reduction` implies),
the view of the destination that `unary_reduction` builds by its project and
promote steps has exactly the shape `R`, over the destination's storage. For a
reduction code of `TO_CORE_REDOP` the call submits one `CUNUMERIC_UNARY_RED`
task whose reduction is that view, whose first input is the source and whose
constraints hold `align(destination, source)`. -/
theorem unary_reduction_single_axis_view (self : NDArray) (op : UnaryRedCode) (src : NDArray)
    (where_ : Option NDArray) (orig_axis : Option (List Int)) (a : Nat)
    (keepdims : Option Bool) (args : Option (List NDArray)) (initial : Option Scalar)
    (rt : Runtime) (ha : a < src.dim)
    (hshape : self.shape =
      if keepdims.getD false then src.shape.set a 1 else src.shape.eraseIdx a)
    (hsize : 1 < self.size) :
    self.shape = implied_out_shape src.shape [(a : Int)] (keepdims.getD false) ∧
    ∃ v : LogicalStore,
      NDArray.reduction_view self.store_.view src.shape [(a : Int)] (keepdims.getD false) =
        .ok v ∧
      v.extents = src.shape ∧ v.dim = src.dim ∧ v.backing = self.store_.view.backing ∧
      (∀ redop, TO_CORE_REDOP.lookup op = some redop →
        ∃ (t : Task) (rt2 : Runtime),
          self.unary_reduction op src where_ orig_axis (some [(a : Int)]) keepdims args
            initial rt = (.ok (), rt2) ∧
          submitted_reductions rt2 = submitted_reductions rt ++ [t] ∧
          t.task_id = .CUNUMERIC_UNARY_RED ∧
          t.reductions = [({ self.store_ with view := v }, redop, ⟨0⟩)] ∧
          t.inputs.head? = some (src.store_, ⟨1⟩) ∧
          t.scalar_args.head? = some (.int32 a) ∧
          .align ⟨0⟩ ⟨1⟩ ∈ t.constraints) := by
  have hlen : src.shape.length = src.dim := (NDArray.dim_eq_length src).symm
  obtain ⟨v, hv, he, hb⟩ := reduction_view_single_axis self.store_.view src.shape a
    (keepdims.getD false) (by omega) hshape
  have hvdim : v.dim = src.dim := by
    have : v.dim = v.extents.length := by simp [LogicalStore.dim, LogicalStore.extents]
    rw [this, he, hlen]
  refine ⟨by rw [implied_out_shape_single, hshape], v, hv, he, hvdim, hb, ?_⟩
  intro redop hop
  have hrank : self.dim ≤ src.dim := by
    rw [NDArray.dim_eq_length, hshape]
    split_ifs
    · rw [List.length_set]; omega
    · rw [List.length_eraseIdx]
      first | omega | (split_ifs <;> omega)
  have h0 : M.cassert (decide (self.dim ≤ src.dim)) rt = (.ok (), rt) := by
    simp [M.cassert, hrank]
  have h4 : ∀ rt1, M.cassert (some [(a : Int)]).isSome rt1 = (.ok (), rt1) := by
    intro rt1
    simp [M.cassert]
  have hne : ¬ self.size = 1 := by omega
  have hredop : ∀ rt1, get_reduction_op op rt1 = (.ok redop, rt1) := by
    intro rt1
    simp only [get_reduction_op, hop, M.ret]
  have hfill : ∃ rt1, submitted_reductions rt1 = submitted_reductions rt ∧
      ((∃ w, initial = some w ∧ self.fill w rt = (.ok (), rt1)) ∨
       (∃ s rt0, initial = none ∧ get_reduction_identity op self.type rt = (.ok s, rt0) ∧
          self.fill s rt0 = (.ok (), rt1))) := by
    cases initial with
    | some w =>
      obtain ⟨rt1, h1, h2, -⟩ := fill_effect self w rt
      exact ⟨rt1, h2, .inl ⟨w, rfl, h1⟩⟩
    | none =>
      obtain ⟨s, rt0, h0, hlog, -⟩ := get_reduction_identity_effect op self.type rt
      obtain ⟨rt1, h1, h2, -⟩ := fill_effect self s rt0
      refine ⟨rt1, ?_, .inr ⟨s, rt0, rfl, h0, h1⟩⟩
      rw [h2]
      simp only [submitted_reductions, hlog]
  obtain ⟨rt1, h2, h1⟩ := hfill
  generalize hX : self.unary_reduction op src where_ orig_axis (some [(a : Int)]) keepdims args
    initial rt = X
  have key : ∃ (t : Task) (rt2 : Runtime), X = (.ok (), rt2) ∧
      rt2.log = rt1.log ++ [.submit t] ∧
      t.task_id = .CUNUMERIC_UNARY_RED ∧
      t.reductions = [({ self.store_ with view := v }, redop, ⟨0⟩)] ∧
      t.inputs.head? = some (src.store_, ⟨1⟩) ∧
      t.scalar_args.head? = some (.int32 a) ∧
      .align ⟨0⟩ ⟨1⟩ ∈ t.constraints := by
    have hX' : ∃ task : Task, task.task_id = .CUNUMERIC_UNARY_RED ∧
        task.reductions = [({ self.store_ with view := v }, redop, ⟨0⟩)] ∧
        task.inputs.head? = some (src.store_, ⟨1⟩) ∧
        task.scalar_args.head? = some (.int32 a) ∧
        X = (.ok (), { rt1 with
          next_task := rt1.next_task + 1
          log := rt1.log ++ [.submit (task.add_constraint (.align ⟨0⟩ ⟨1⟩))] }) := by
      rcases h1 with ⟨w0, rfl, h1⟩ | ⟨s, rt0, rfl, hg, h1⟩
      · simp only [NDArray.unary_reduction, bind, M.andThen, h0, h1, hne, if_false, h4, hv,
          Store.withView, M.ofStore, Except.map, M.ret, List.length_singleton,
          Nat.lt_irrefl, gt_iff_lt, create_task, hredop, submit] at hX
        subst hX
        refine ⟨_, ?_, ?_, ?_, ?_, rfl⟩
        · rcases args with _ | arr <;> rcases where_ with _ | w
          · rfl
          · rfl
          · exact (foldl_add_input_frame arr _).1
          · exact (foldl_add_input_frame arr _).1
        · rcases args with _ | arr <;> rcases where_ with _ | w
          · rfl
          · rfl
          · exact (foldl_add_input_frame arr _).2.1
          · exact (foldl_add_input_frame arr _).2.1
        · rcases args with _ | arr <;> rcases where_ with _ | w
          · rfl
          · rfl
          · exact (foldl_add_input_frame arr _).2.2.2.2 _ rfl
          · exact (foldl_add_input_frame arr _).2.2.2.2 _ rfl
        · rcases args with _ | arr <;> rcases where_ with _ | w
          · rfl
          · rfl
          · exact ((foldl_add_input_frame arr _).2.2.2.1).symm ▸ rfl
          · exact ((foldl_add_input_frame arr _).2.2.2.1).symm ▸ rfl
      · simp only [NDArray.unary_reduction, bind, M.andThen, h0, hg, h1, hne, if_false, h4, hv,
          Store.withView, M.ofStore, Except.map, M.ret, List.length_singleton,
          Nat.lt_irrefl, gt_iff_lt, create_task, hredop, submit] at hX
        subst hX
        refine ⟨_, ?_, ?_, ?_, ?_, rfl⟩
        · rcases args with _ | arr <;> rcases where_ with _ | w
          · rfl
          · rfl
          · exact (foldl_add_input_frame arr _).1
          · exact (foldl_add_input_frame arr _).1
        · rcases args with _ | arr <;> rcases where_ with _ | w
          · rfl
          · rfl
          · exact (foldl_add_input_frame arr _).2.1
          · exact (foldl_add_input_frame arr _).2.1
        · rcases args with _ | arr <;> rcases where_ with _ | w
          · rfl
          · rfl
          · exact (foldl_add_input_frame arr _).2.2.2.2 _ rfl
          · exact (foldl_add_input_frame arr _).2.2.2.2 _ rfl
        · rcases args with _ | arr <;> rcases where_ with _ | w
          · rfl
          · rfl
          · exact ((foldl_add_input_frame arr _).2.2.2.1).symm ▸ rfl
          · exact ((foldl_add_input_frame arr _).2.2.2.1).symm ▸ rfl
    obtain ⟨task, ht1, ht2, ht3, ht4, hXeq⟩ := hX'
    exact ⟨_, _, hXeq, rfl, ht1, ht2, ht3, ht4, by simp [Task.add_constraint]⟩
  obtain ⟨t, rt2, hXeq, hlog, ht1, ht2, ht3, ht4, ht5⟩ := key
  refine ⟨t, rt2, hXeq, ?_, ht1, ht2, ht3, ht4, ht5⟩
  rw [← h2]
  simp only [submitted_reductions, hlog, List.filterMap_append, List.filterMap_cons, ht1,
    true_or, if_true, List.filterMap_nil]

theorem unary_reduction_single_axis_view_witness :
    ∃ (t : Task) (rt2 : Runtime),
      (NDArray.ofShape 1 [2] DType.int64).unary_reduction .SUM
        (NDArray.ofShape 2 [2, 3] DType.int64) none (some [1]) (some [1]) none none none
        sampleRuntime = (.ok (), rt2) ∧
      submitted_reductions rt2 = [t] ∧
      t.reductions.map (fun r => (r.1.view.extents, r.2.1)) = [([2, 3], .ADD)] ∧
      Constraint.align ⟨0⟩ ⟨1⟩ ∈ t.constraints := by
  obtain ⟨-, v, -, he, -, -, h⟩ := unary_reduction_single_axis_view
    (NDArray.ofShape 1 [2] DType.int64) .SUM (NDArray.ofShape 2 [2, 3] DType.int64) none
    (some [1]) 1 none none none sampleRuntime (by decide) (by decide) (by decide)
  obtain ⟨t, rt2, hcall, hsub, -, hred, -, -, hc⟩ := h .ADD rfl
  refine ⟨t, rt2, hcall, hsub, ?_, hc⟩
  rw [hred]
  simp only [List.map, he]
  rfl

/-! ## Properties of `NDArray::operator[]` and `NDArray::diag_helper` -/

/-- C27: on an array of shape `[4, 5]` and the slices `1:3` and `0:2`,
`operator[]` applies both slices to axis 0 and returns a view of shape
`[2, 5]`; the view in which the `i`-th slice is applied to axis `i` has shape
`[2, 2]`. With an open first slice the second slice still lands on axis 0.
More slices than axes are rejected with an invalid-argument error. -/
theorem getitem_slices_first_axis_only :
    [Slice.mk (some 1) (some 3), Slice.mk (some 0) (some 2)].length ≤
      (NDArray.ofShape 1 [4, 5] DType.int64).dim ∧
    ((NDArray.ofShape 1 [4, 5] DType.int64).getitem
        [⟨some 1, some 3⟩, ⟨some 0, some 2⟩] sampleRuntime).1.map
      (fun r => (r.shape, r.store_.view.transforms)) =
      .ok ([2, 5], [.slice 0 1 3, .slice 0 0 2]) ∧
    (slice_each_axis [⟨some 1, some 3⟩, ⟨some 0, some 2⟩] 0
        (NDArray.ofShape 1 [4, 5] DType.int64).store_.view).map
      (fun v => (v.extents, v.transforms)) =
      .ok ([2, 2], [.slice 0 1 3, .slice 1 0 2]) ∧
    ((NDArray.ofShape 1 [4, 5] DType.int64).getitem
        [⟨none, none⟩, ⟨some 0, some 2⟩] sampleRuntime).1.map NDArray.shape = .ok [2, 5] ∧
    ((NDArray.ofShape 1 [2] DType.int64).getitem
        [⟨none, none⟩, ⟨none, none⟩] sampleRuntime) = (.error .slice_count, sampleRuntime) := by
  refine ⟨by decide, rfl, rfl, rfl, rfl⟩

/-- The last two elements of a vector that ends with `x` and `y`. -/
theorem from_end_append_pair (l : List Nat) (x y : Nat) :
    from_end (l ++ [x, y]) 2 = x ∧ from_end (l ++ [x, y]) 1 = y ∧
      (l ++ [x, y]).getD ((l ++ [x, y]).length - 1) 0 = y := by
  refine ⟨?_, ?_, ?_⟩
  · simp only [from_end, List.length_append, List.length_cons, List.length_nil]
    rw [if_pos (by omega), show l.length + (0 + 1 + 1) - 2 = l.length by omega,
      List.getD_eq_getElem?_getD, List.getElem?_append_right (le_refl _)]
    simp
  · simp only [from_end, List.length_append, List.length_cons, List.length_nil]
    rw [if_pos (by omega), show l.length + (0 + 1 + 1) - 1 = l.length + 1 by omega,
      List.getD_eq_getElem?_getD, List.getElem?_append_right (by omega)]
    simp
  · simp only [List.length_append, List.length_cons, List.length_nil]
    rw [show l.length + (0 + 1 + 1) - 1 = l.length + 1 by omega,
      List.getD_eq_getElem?_getD, List.getElem?_append_right (by omega)]
    simp

/-- A transposition that puts two axes last: when it succeeds, the two axes are
axes of the array, the runtime is left alone, and the shape of the result ends
with their extents. -/
theorem transpose_two_last (self : NDArray) (T : List Int) (x y : Int) (a : NDArray)
    (rt rt1 : Runtime) (hdim : self.dim ≠ 1)
    (h : self.transpose (T ++ [x, y]) rt = (.ok a, rt1)) :
    rt1 = rt ∧ 0 ≤ x ∧ 0 ≤ y ∧ x.toNat < self.dim ∧ y.toNat < self.dim ∧
      a.shape.length = self.dim ∧
      from_end a.shape 2 = self.shape.getD x.toNat 0 ∧
      from_end a.shape 1 = self.shape.getD y.toNat 0 ∧
      a.shape.getD (self.dim - 1) 0 = self.shape.getD y.toNat 0 := by
  unfold NDArray.transpose at h
  rw [if_neg hdim] at h
  split_ifs at h with hlen
  · cases h
  · simp only [bind, M.andThen, Store.withView, NDArray.transpose_view] at h
    split_ifs at h with hneg
    · cases h
    · unfold LogicalStore.transpose at h
      split_ifs at h with hperm
      · simp only [Except.map, M.ofStore, M.ret, pure, Prod.mk.injEq, Except.ok.injEq] at h
        obtain ⟨ha, hrt⟩ := h
        obtain ⟨hl, -, hlt⟩ := hperm
        push_neg at hneg
        have hx0 : 0 ≤ x := hneg x (by simp)
        have hy0 : 0 ≤ y := hneg y (by simp)
        have hxd : x.toNat < self.store_.view.dim := hlt _ (by simp)
        have hyd : y.toNat < self.store_.view.dim := hlt _ (by simp)
        have hxa : self.store_.view.axes[x.toNat]? = some (self.store_.view.axes[x.toNat]) :=
          List.getElem?_eq_getElem hxd
        have hya : self.store_.view.axes[y.toNat]? = some (self.store_.view.axes[y.toNat]) :=
          List.getElem?_eq_getElem hyd
        have hshape : a.shape =
            ((T.map Int.toNat).filterMap fun i => self.store_.view.axes[i]?).map Axis.extent ++
              [self.shape.getD x.toNat 0, self.shape.getD y.toNat 0] := by
          rw [← ha]
          simp [NDArray.shape, LogicalStore.extents, List.filterMap_append, hxa, hya,
            List.getD_eq_getElem?_getD, List.getElem?_map]
        have hfull : ∀ (l : List Nat), (∀ i ∈ l, i < self.store_.view.dim) →
            (l.filterMap fun i => self.store_.view.axes[i]?).length = l.length := by
          intro l
          induction l with
          | nil => intro _; rfl
          | cons i l ih =>
            intro hl
            have hi : i < self.store_.view.axes.length := hl i (by simp)
            rw [List.filterMap_cons, List.getElem?_eq_getElem hi]
            simp [ih (fun j hj => hl j (List.mem_cons_of_mem _ hj))]
        have hlenA : a.shape.length = self.dim := by
          rw [hshape]
          simp only [List.length_append, List.length_map, List.length_cons, List.length_nil]
          rw [hfull _ (fun i hi => hlt i (by simp at hi ⊢; exact Or.inl hi))]
          simp only [List.map_append, List.length_append, List.length_map, List.length_cons,
            List.length_nil] at hl
          simp only [NDArray.dim, List.length_map]
          omega
        obtain ⟨e2, e1, e0⟩ := from_end_append_pair
          (((T.map Int.toNat).filterMap fun i => self.store_.view.axes[i]?).map Axis.extent)
          (self.shape.getD x.toNat 0) (self.shape.getD y.toNat 0)
        rw [← hshape] at e2 e1 e0
        rw [hlenA] at e0
        exact ⟨hrt.symm, hx0, hy0, hxd, hyd, hlenA, e2, e1, e0⟩
      · cases h

/-- A non-negative `int32_t` converts to `uint64_t` unchanged. -/
theorem to_uint64_of_nonneg (x : Int) (h0 : 0 ≤ x) (h : x < 2 ^ 64) :
    to_uint64 x = x.toNat := by
  unfold to_uint64
  rw [Int.emod_eq_of_lt h0 h]

/-- The `uint64_t` subtraction of a smaller value does not wrap. -/
theorem usub64_of_le (x y : Nat) (hy : y ≤ x) (hx : x < 2 ^ 64) : usub64 x y = x - y := by
  unfold usub64
  have hy' : y % 2 ^ 64 = y := Nat.mod_eq_of_lt (by omega)
  rw [hy']
  have : x + 2 ^ 64 - y = (x - y) + 2 ^ 64 := by omega
  rw [this, Nat.add_mod_right, Nat.mod_eq_of_lt (by omega)]

/-- An extent read off a shape whose extents are below `2^63`. -/
theorem getD_lt_of_all (l : List Nat) (i : Nat) (h : ∀ e ∈ l, e < 2 ^ 63) :
    l.getD i 0 < 2 ^ 63 := by
  rw [List.getD_eq_getElem?_getD]
  cases hi : l[i]? with
  | none => simp
  | some e => simpa using h e (List.getElem?_mem hi)

/-- The branch `N == 2` of `diag_helper`, when it accepts: the length it
computes and the offset it leaves. -/
theorem diag_helper_two_axes_accepts (self : NDArray) (offset a1 a2 : Int) (T : List Int)
    (rt : Runtime) (a : NDArray) (size : Nat) (off : Int) (rt1 : Runtime)
    (hoff : -(2 ^ 31) ≤ offset ∧ offset < 2 ^ 31)
    (hext : ∀ e ∈ self.shape, e < 2 ^ 63) (hdim : self.dim ≠ 1)
    (h : self.diag_helper_two_axes offset [a1, a2] T rt = (.ok (a, size, off), rt1)) :
    rt1 = rt ∧ 0 ≤ a1 ∧ 0 ≤ a2 ∧ a1.toNat < self.dim ∧ a2.toNat < self.dim ∧
    a.shape.length = self.dim ∧
    to_uint64 off ≤ from_end a.shape 1 ∧
    usub64 (from_end a.shape 1) (to_uint64 off) = from_end a.shape 1 - to_uint64 off ∧
    (0 ≤ offset → off = offset ∧
      from_end a.shape 2 = self.shape.getD a1.toNat 0 ∧
      from_end a.shape 1 = self.shape.getD a2.toNat 0 ∧
      offset.toNat < self.shape.getD a2.toNat 0 ∧
      size = min (self.shape.getD a1.toNat 0) (self.shape.getD a2.toNat 0 - offset.toNat)) ∧
    (offset < 0 → off = -offset ∧
      from_end a.shape 2 = self.shape.getD a2.toNat 0 ∧
      from_end a.shape 1 = self.shape.getD a1.toNat 0 ∧
      (-offset).toNat < self.shape.getD a1.toNat 0 ∧
      size = min (self.shape.getD a2.toNat 0) (self.shape.getD a1.toNat 0 - (-offset).toNat)) := by
  have hn := getD_lt_of_all self.shape a1.toNat hext
  have hm := getD_lt_of_all self.shape a2.toNat hext
  unfold NDArray.diag_helper_two_axes at h
  by_cases hpos : 0 ≤ offset
  · simp only [ge_iff_le, hpos, if_true, List.getD_cons_zero, List.getD_cons_succ, bind,
      M.andThen] at h
    rcases ht : self.transpose (T ++ [a1, a2]) rt with ⟨r, rt2⟩
    rw [ht] at h
    cases r with
    | error e => cases h
    | ok a' =>
      obtain ⟨hrt, hx0, hy0, hxd, hyd, hlen, e2, e1, e0⟩ :=
        transpose_two_last self T a1 a2 a' rt rt2 hdim ht
      have hu : to_uint64 offset = offset.toNat :=
        to_uint64_of_nonneg offset hpos (by omega)
      simp only [e0, e1, e2, hu] at h
      split_ifs at h with hge
      · cases h
      · simp only [pure, M.ret, Prod.mk.injEq, Except.ok.injEq] at h
        obtain ⟨⟨rfl, rfl, rfl⟩, rfl⟩ := h
        have hsub := usub64_of_le (self.shape.getD a2.toNat 0) offset.toNat (by omega)
          (by omega)
        refine ⟨hrt, hx0, hy0, hxd, hyd, hlen, ?_, ?_, ?_, ?_⟩
        · rw [e1, hu]; omega
        · rw [e1, hu]; exact hsub
        · intro _
          refine ⟨rfl, e2, e1, by omega, ?_⟩
          rw [hsub]
          simp
        · intro hneg
          omega
  · have hneg : offset < 0 := by omega
    simp only [ge_iff_le, hpos, if_false, List.getD_cons_zero, List.getD_cons_succ, bind,
      M.andThen] at h
    rcases ht : self.transpose (T ++ [a2, a1]) rt with ⟨r, rt2⟩
    rw [ht] at h
    cases r with
    | error e => cases h
    | ok a' =>
      obtain ⟨hrt, hy0, hx0, hyd, hxd, hlen, e2, e1, e0⟩ :=
        transpose_two_last self T a2 a1 a' rt rt2 hdim ht
      simp only [e0, e1, e2] at h
      split_ifs at h with hge
      · cases h
      · simp only [pure, M.ret, Prod.mk.injEq, Except.ok.injEq] at h
        obtain ⟨⟨rfl, rfl, rfl⟩, rfl⟩ := h
        by_cases hmin : offset = -(2 ^ 31)
        · exfalso
          apply hge
          subst hmin
          have : to_uint64 (wrap_int32 (-(-(2 ^ 31)))) = 2 ^ 64 - 2 ^ 31 := by decide
          rw [this]
          omega
        · have hw : wrap_int32 (-offset) = -offset := by
            unfold wrap_int32
            have h1 : (0 : Int) ≤ -offset + 2 ^ 31 := by omega
            have h2 : -offset + 2 ^ 31 < 2 ^ 32 := by omega
            rw [Int.emod_eq_of_lt h1 h2]
            omega
          rw [hw] at hge ⊢
          have hu : to_uint64 (-offset) = (-offset).toNat :=
            to_uint64_of_nonneg (-offset) (by omega) (by omega)
          rw [hu] at hge ⊢
          have hsub := usub64_of_le (self.shape.getD a1.toNat 0) (-offset).toNat (by omega)
            (by omega)
          refine ⟨hrt, hx0, hy0, hxd, hyd, hlen, ?_, ?_, ?_, ?_⟩
          · rw [e1]; omega
          · rw [e1]; exact hsub
          · intro hc
            omega
          · intro _
            refine ⟨rfl, e2, e1, by omega, ?_⟩
            rw [hsub]
            simp

/-- A transposition that fails leaves the runtime alone and fails with an
invalid-argument error. -/
theorem transpose_error (self : NDArray) (L : List Int) (e : Error) (rt rt1 : Runtime)
    (h : self.transpose L rt = (.error e, rt1)) :
    rt1 = rt ∧ e.kind = .invalid_argument := by
  unfold NDArray.transpose at h
  split_ifs at h
  · cases h
  · cases h
    exact ⟨rfl, rfl⟩
  · simp only [bind, M.andThen, Store.withView, NDArray.transpose_view] at h
    split_ifs at h
    · cases h
      exact ⟨rfl, rfl⟩
    · unfold LogicalStore.transpose at h
      split_ifs at h
      · cases h
      · cases h
        exact ⟨rfl, rfl⟩

/-- The branch `N == 2` of `diag_helper` rejects an offset that is not smaller
in magnitude than the extent it is subtracted from. -/
theorem diag_helper_two_axes_rejects (self : NDArray) (offset a1 a2 : Int) (T : List Int)
    (rt : Runtime) (hoff : -(2 ^ 31) ≤ offset ∧ offset < 2 ^ 31)
    (hext : ∀ e ∈ self.shape, e < 2 ^ 63) (hdim : self.dim ≠ 1)
    (hbig : (0 ≤ offset ∧ (self.shape.getD a2.toNat 0 : Int) ≤ offset) ∨
      (offset < 0 ∧ (self.shape.getD a1.toNat 0 : Int) ≤ -offset)) :
    ∃ e, self.diag_helper_two_axes offset [a1, a2] T rt = (.error e, rt) ∧
      e.kind = .invalid_argument := by
  rcases hres : self.diag_helper_two_axes offset [a1, a2] T rt with ⟨r, rt1⟩
  cases r with
  | ok v =>
    obtain ⟨a, size, off⟩ := v
    obtain ⟨-, -, -, -, -, -, -, -, hp, hn⟩ :=
      diag_helper_two_axes_accepts self offset a1 a2 T rt a size off rt1 hoff hext hdim hres
    rcases hbig with ⟨h0, hle⟩ | ⟨h0, hle⟩
    · obtain ⟨-, -, -, hlt, -⟩ := hp h0
      omega
    · obtain ⟨-, -, -, hlt, -⟩ := hn h0
      omega
  | error e =>
    unfold NDArray.diag_helper_two_axes at hres
    by_cases hpos : 0 ≤ offset
    · simp only [ge_iff_le, hpos, if_true, List.getD_cons_zero, List.getD_cons_succ, bind,
        M.andThen] at hres
      rcases ht : self.transpose (T ++ [a1, a2]) rt with ⟨r, rt2⟩
      rw [ht] at hres
      cases r with
      | error e' =>
        obtain ⟨hrt, hk⟩ := transpose_error self _ e' rt rt2 ht
        cases hres
        exact ⟨e, by rw [hrt], hk⟩
      | ok a' =>
        obtain ⟨hrt, -⟩ := transpose_two_last self T a1 a2 a' rt rt2 hdim ht
        simp only at hres
        split_ifs at hres
        · cases hres
          exact ⟨.diag_offset_out_of_range, by rw [hrt], rfl⟩
        · cases hres
    · simp only [ge_iff_le, hpos, if_false, List.getD_cons_zero, List.getD_cons_succ, bind,
        M.andThen] at hres
      rcases ht : self.transpose (T ++ [a2, a1]) rt with ⟨r, rt2⟩
      rw [ht] at hres
      cases r with
      | error e' =>
        obtain ⟨hrt, hk⟩ := transpose_error self _ e' rt rt2 ht
        cases hres
        exact ⟨e, by rw [hrt], hk⟩
      | ok a' =>
        obtain ⟨hrt, -⟩ := transpose_two_last self T a2 a1 a' rt rt2 hdim ht
        simp only at hres
        split_ifs at hres
        · cases hres
          exact ⟨.diag_offset_out_of_range, by rw [hrt], rfl⟩
        · cases hres

/-- The extents of a store over fresh storage are the shape it was given. -/
theorem ofShape_extents (b : Nat) (shape : List Nat) :
    (LogicalStore.ofShape b shape).extents = shape := by
  apply List.ext_getElem
  · simp [LogicalStore.ofShape, LogicalStore.extents]
  · intro i h1 h2
    simp [LogicalStore.ofShape, LogicalStore.extents, List.getD_eq_getElem?_getD,
      List.getElem?_eq_getElem h2]

/-- A sequence of two calls that returns has passed through a result of the
first. -/
theorem andThen_ok {α β : Type} (m : M α) (f : α → M β) (rt rt2 : Runtime) (b : β)
    (h : m.andThen f rt = (.ok b, rt2)) :
    ∃ a rt1, m rt = (.ok a, rt1) ∧ f a rt1 = (.ok b, rt2) := by
  unfold M.andThen at h
  rcases hm : m rt with ⟨r, rt1⟩
  rw [hm] at h
  cases r with
  | ok a => exact ⟨a, rt1, rfl, h⟩
  | error e => cases h

/-- What `diag_helper` returns for two axes when it is not a trace: an array
whose last extent is the length computed by the branch `N == 2`. -/
theorem diag_helper_two_axes_result (self : NDArray) (offset : Int) (a1 a2 : Int)
    (extract : Bool) (type : Option DType) (out : Option NDArray) (rt : Runtime)
    (r : NDArray) (rt1 : Runtime)
    (h : self.diag_helper offset [a1, a2] extract false type out rt = (.ok r, rt1)) :
    self.dim ≠ 1 ∧
    ∃ (a : NDArray) (size : Nat) (off : Int) (rt2 rt3 : Runtime),
      self.diag_helper_two_axes offset [a1, a2]
        (((List.range self.dim).filter fun (ax : Nat) => (ax : Int) ∉ [a1, a2]).map Int.ofNat)
        rt2 = (.ok (a, size, off), rt3) ∧
      r.shape = a.shape.take (a.dim - 2) ++ [size] := by
  unfold NDArray.diag_helper at h
  by_cases h1 : self.dim ≤ 1
  · rw [if_pos h1] at h
    cases h
  rw [if_neg h1] at h
  refine ⟨by omega, ?_⟩
  cases out with
  | some o => simp at h; cases h
  | none =>
    cases type with
    | some t => simp at h; cases h
    | none =>
      simp only [Option.isSome_none, Bool.false_eq_true, false_and, if_false,
        List.length_cons, List.length_nil, bind] at h
      obtain ⟨_, rt0, -, h⟩ := andThen_ok _ _ _ _ _ h
      split_ifs at h with hd hlt hty
      · cases h
      · cases h
      · exact absurd rfl hty
      · obtain ⟨_, rt2, -, h⟩ := andThen_ok _ _ _ _ _ h
        obtain ⟨⟨a, size, off⟩, rt3, hblk, h⟩ := andThen_ok _ _ _ _ _ h
        obtain ⟨out_shape, rt4, hos, h⟩ := andThen_ok _ _ _ _ _ h
        obtain ⟨a', rt5, -, h⟩ := andThen_ok _ _ _ _ _ h
        obtain ⟨res, rt6, hres, h⟩ := andThen_ok _ _ _ _ _ h
        obtain ⟨_, rt7, -, h⟩ := andThen_ok _ _ _ _ _ h
        simp only [pure, M.ret, Prod.mk.injEq, Except.ok.injEq] at h hos
        obtain ⟨rfl, -⟩ := h
        obtain ⟨rfl, -⟩ := hos
        simp only [create_array, Prod.mk.injEq, Except.ok.injEq] at hres
        obtain ⟨rfl, -⟩ := hres
        refine ⟨a, size, off, rt2, rt3, hblk, ?_⟩
        simp only [NDArray.shape, ofShape_extents]

/-- For two axes, `diag_helper` rejects an offset that is not smaller in
magnitude than the extent it is subtracted from, if it has not rejected the
call before. -/
theorem diag_helper_rejects (self : NDArray) (offset a1 a2 : Int) (extract trace : Bool)
    (type : Option DType) (out : Option NDArray) (rt : Runtime)
    (hoff : -(2 ^ 31) ≤ offset ∧ offset < 2 ^ 31)
    (hext : ∀ e ∈ self.shape, e < 2 ^ 63)
    (hbig : (0 ≤ offset ∧ (self.shape.getD a2.toNat 0 : Int) ≤ offset) ∨
      (offset < 0 ∧ (self.shape.getD a1.toNat 0 : Int) ≤ -offset)) :
    ∃ e rt1, self.diag_helper offset [a1, a2] extract trace type out rt = (.error e, rt1) ∧
      e.kind = .invalid_argument ∧ rt1.log = rt.log := by
  unfold NDArray.diag_helper
  by_cases h1 : self.dim ≤ 1
  · exact ⟨.diag_dim, rt, by rw [if_pos h1]; rfl, rfl, rfl⟩
  rw [if_neg h1]
  by_cases h2 : out.isSome = true ∧ trace = false
  · exact ⟨.diag_out_without_trace, rt, by rw [if_pos h2]; rfl, rfl, rfl⟩
  rw [if_neg h2]
  by_cases h3 : type.isSome = true ∧ trace = false
  · exact ⟨.diag_type_without_trace, rt, by rw [if_pos h3]; rfl, rfl, rfl⟩
  rw [if_neg h3]
  have hassert : M.cassert (decide ([a1, a2].length > 0)) rt = (.ok (), rt) := by
    simp [M.cassert]
  simp only [bind, M.andThen, hassert]
  by_cases h4 : [a1, a2].length ≠ (List.map to_uint64 [a1, a2]).dedup.length
  · exact ⟨.diag_axes_not_different, rt, by rw [if_pos h4]; rfl, rfl, rfl⟩
  rw [if_neg h4]
  by_cases h5 : self.dim < [a1, a2].length
  · exact ⟨.diag_too_many_axes, rt, by rw [if_pos h5]; rfl, rfl, rfl⟩
  rw [if_neg h5]
  obtain ⟨e, he, hk⟩ := diag_helper_two_axes_rejects self offset a1 a2
    (((List.range self.dim).filter fun (ax : Nat) => (ax : Int) ∉ [a1, a2]).map Int.ofNat)
    { rt with next_store := rt.next_store + 1 } hoff hext (by omega) hbig
  refine ⟨e, { rt with next_store := rt.next_store + 1 }, ?_, hk, rfl⟩
  have hlen2 : [a1, a2].length = 2 := rfl
  simp only [M.andThen, create_unbound_array, hlen2, if_true, he]

/-- The axes other than `x` and `y`, followed by `x` and `y`, are a permutation
of all the axes. -/
theorem others_then_pair (d x y : Nat) (T : List Nat) (hx : x < d) (hy : y < d) (hne : x ≠ y)
    (hTn : T.Nodup) (hT : ∀ ax, ax ∈ T ↔ ax < d ∧ ax ≠ x ∧ ax ≠ y) :
    (T ++ [x, y]).length = d ∧ (T ++ [x, y]).Nodup ∧ ∀ ax ∈ T ++ [x, y], ax < d := by
  have hnd : (T ++ [x, y]).Nodup := by
    rw [List.nodup_append]
    refine ⟨hTn, by simp [hne], ?_⟩
    intro ax h1 h2
    have := (hT ax).mp h1
    simp only [List.mem_cons, List.mem_singleton, List.not_mem_nil, or_false] at h2
    omega
  have hmem : ∀ ax, ax ∈ T ++ [x, y] ↔ ax ∈ List.range d := by
    intro ax
    simp only [List.mem_append, hT, List.mem_cons, List.mem_singleton, List.not_mem_nil,
      or_false, List.mem_range]
    omega
  have hperm : (T ++ [x, y]).Perm (List.range d) :=
    (List.perm_ext_iff_of_nodup hnd (List.nodup_range d)).mpr hmem
  refine ⟨by rw [hperm.length_eq, List.length_range], hnd, ?_⟩
  intro ax h
  exact List.mem_range.mp ((hmem ax).mp h)

/-- The transposition that puts two distinct axes of the array last
succeeds. -/
theorem transpose_others_then_pair (self : NDArray) (x y : Nat) (T : List Nat) (rt : Runtime)
    (hdim : self.dim ≠ 1) (hx : x < self.dim) (hy : y < self.dim) (hne : x ≠ y)
    (hTn : T.Nodup) (hT : ∀ ax, ax ∈ T ↔ ax < self.dim ∧ ax ≠ x ∧ ax ≠ y) :
    ∃ a, self.transpose (T.map Int.ofNat ++ [(x : Int), (y : Int)]) rt = (.ok a, rt) := by
  obtain ⟨hlen, hnd, hlt⟩ := others_then_pair self.dim x y T hx hy hne hTn hT
  have hmap : (T.map Int.ofNat ++ [(x : Int), (y : Int)]).map Int.toNat = T ++ [x, y] := by
    simp [List.map_append, Function.comp_def]
  have hlen' : (T.map Int.ofNat ++ [(x : Int), (y : Int)]).length = self.dim := by
    rw [← hlen]
    simp
  have hneg : ¬ ∃ ax ∈ T.map Int.ofNat ++ [(x : Int), (y : Int)], ax < 0 := by
    rintro ⟨ax, hm, hlt0⟩
    simp only [List.mem_append, List.mem_map, List.mem_cons, List.mem_singleton,
      List.not_mem_nil, or_false] at hm
    rcases hm with ⟨n, -, rfl⟩ | rfl | rfl
    · exact absurd hlt0 (by simp)
    · omega
    · omega
  have hcond : (T ++ [x, y]).length = self.store_.view.dim ∧ (T ++ [x, y]).Nodup ∧
      ∀ a ∈ T ++ [x, y], a < self.store_.view.dim := ⟨hlen, hnd, hlt⟩
  unfold NDArray.transpose
  rw [if_neg hdim, if_neg (not_not.mpr hlen')]
  simp only [bind, M.andThen, Store.withView, NDArray.transpose_view]
  rw [if_neg hneg, hmap]
  unfold LogicalStore.transpose
  rw [if_pos hcond]
  exact ⟨_, rfl⟩

/-- The axes `diag_helper` keeps in front: all of them but the two given. -/
theorem front_axes (d a1 a2 : Nat) :
    ((List.range d).filter fun (ax : Nat) => (ax : Int) ∉ [(a1 : Int), (a2 : Int)]).Nodup ∧
    ∀ ax, ax ∈ ((List.range d).filter fun (ax : Nat) => (ax : Int) ∉ [(a1 : Int), (a2 : Int)]) ↔
      ax < d ∧ ax ≠ a1 ∧ ax ≠ a2 := by
  refine ⟨(List.nodup_range d).filter _, ?_⟩
  intro ax
  simp only [List.mem_filter, List.mem_range, List.mem_cons, List.mem_singleton,
    List.not_mem_nil, or_false, decide_eq_true_eq, Nat.cast_inj, not_or]

/-- The branch `N == 2` of `diag_helper` accepts an offset smaller in magnitude
than the extent it is subtracted from. -/
theorem diag_helper_two_axes_accepts_small (self : NDArray) (offset : Int) (a1 a2 : Nat)
    (rt : Runtime) (hoff : -(2 ^ 31) < offset ∧ offset < 2 ^ 31)
    (hext : ∀ e ∈ self.shape, e < 2 ^ 63) (hrank : 2 ≤ self.dim)
    (ha1 : a1 < self.dim) (ha2 : a2 < self.dim) (hne : a1 ≠ a2)
    (hsmall : (0 ≤ offset ∧ offset < (self.shape.getD a2 0 : Int)) ∨
      (offset < 0 ∧ -offset < (self.shape.getD a1 0 : Int))) :
    ∃ a size off,
      self.diag_helper_two_axes offset [(a1 : Int), (a2 : Int)]
        (((List.range self.dim).filter fun (ax : Nat) =>
          (ax : Int) ∉ [(a1 : Int), (a2 : Int)]).map Int.ofNat) rt =
        (.ok (a, size, off), rt) := by
  obtain ⟨hTn, hT⟩ := front_axes self.dim a1 a2
  have hdim : self.dim ≠ 1 := by omega
  unfold NDArray.diag_helper_two_axes
  by_cases hpos : 0 ≤ offset
  · obtain ⟨a, ha⟩ := transpose_others_then_pair self a1 a2 _ rt hdim ha1 ha2 hne hTn hT
    obtain ⟨-, -, -, -, -, -, -, -, e0⟩ := transpose_two_last self _ _ _ a rt rt hdim ha
    simp only [Int.toNat_ofNat] at e0
    have hu : to_uint64 offset = offset.toNat := to_uint64_of_nonneg offset hpos (by omega)
    have hlt : ¬ (to_uint64 offset ≥ a.shape.getD (self.dim - 1) 0) := by
      rw [e0, hu]
      rcases hsmall with ⟨-, h⟩ | ⟨h, -⟩ <;> omega
    simp only [ge_iff_le, hpos, if_true, List.getD_cons_zero, List.getD_cons_succ, bind,
      M.andThen, ha]
    rw [if_neg hlt]
    exact ⟨_, _, _, rfl⟩
  · have hT' : ∀ ax, ax ∈ ((List.range self.dim).filter fun (ax : Nat) =>
        (ax : Int) ∉ [(a1 : Int), (a2 : Int)]) ↔ ax < self.dim ∧ ax ≠ a2 ∧ ax ≠ a1 := by
      intro ax
      rw [hT ax]
      tauto
    obtain ⟨a, ha⟩ := transpose_others_then_pair self a2 a1 _ rt hdim ha2 ha1 (Ne.symm hne)
      hTn hT'
    obtain ⟨-, -, -, -, -, -, -, -, e0⟩ := transpose_two_last self _ _ _ a rt rt hdim ha
    simp only [Int.toNat_ofNat] at e0
    have hsm : -offset < (self.shape.getD a1 0 : Int) := by
      rcases hsmall with ⟨h, -⟩ | ⟨-, h⟩
      · omega
      · exact h
    have hn := getD_lt_of_all self.shape a1 hext
    have hw : wrap_int32 (-offset) = -offset := by
      unfold wrap_int32
      have h1 : (0 : Int) ≤ -offset + 2 ^ 31 := by omega
      have h2 : -offset + 2 ^ 31 < 2 ^ 32 := by omega
      rw [Int.emod_eq_of_lt h1 h2]
      omega
    have hu : to_uint64 (-offset) = (-offset).toNat :=
      to_uint64_of_nonneg (-offset) (by omega) (by omega)
    have hlt : ¬ (to_uint64 (wrap_int32 (-offset)) ≥ a.shape.getD (self.dim - 1) 0) := by
      rw [e0, hw, hu]
      omega
    simp only [ge_iff_le, hpos, if_false, List.getD_cons_zero, List.getD_cons_succ, bind,
      M.andThen, ha]
    rw [if_neg hlt]
    exact ⟨_, _, _, rfl⟩

/-- C26: for an array of rank at least 2 whose extents are below `2^63`, two
distinct axes `a1`, `a2` of it with extents `n` and `m`, and an `int32` offset
`k`: whenever the branch of `diag_helper` for two axes accepts, the length it
computes is `min(n, m - k)` for `k ≥ 0` and `min(m, n + k)` for `k < 0`, the
offset is below the extent it is subtracted from, and the `uint64_t`
subtraction equals the exact difference; the branch does accept every such
offset other than `INT32_MIN`; the array `diag_helper` returns when it is not
a trace has that length as its last extent; and an offset whose magnitude is
not smaller than the extent it is subtracted from makes `diag_helper` fail with
an invalid-argument error and nothing handed to the runtime. -/
theorem diag_helper_diagonal_length (self : NDArray) (offset : Int) (a1 a2 : Nat)
    (extract trace : Bool) (type : Option DType) (out : Option NDArray) (rt : Runtime)
    (hoff : -(2 ^ 31) ≤ offset ∧ offset < 2 ^ 31)
    (hext : ∀ e ∈ self.shape, e < 2 ^ 63) (hrank : 2 ≤ self.dim)
    (ha1 : a1 < self.dim) (ha2 : a2 < self.dim) (hne : a1 ≠ a2) :
    (∀ a size off rt1,
      self.diag_helper_two_axes offset [(a1 : Int), (a2 : Int)]
        (((List.range self.dim).filter fun (ax : Nat) =>
          (ax : Int) ∉ [(a1 : Int), (a2 : Int)]).map Int.ofNat) rt =
        (.ok (a, size, off), rt1) →
      (0 ≤ offset → offset < (self.shape.getD a2 0 : Int) ∧
        (size : Int) = min (self.shape.getD a1 0 : Int) ((self.shape.getD a2 0 : Int) - offset)) ∧
      (offset < 0 → -offset < (self.shape.getD a1 0 : Int) ∧
        (size : Int) = min (self.shape.getD a2 0 : Int) ((self.shape.getD a1 0 : Int) + offset)) ∧
      to_uint64 off ≤ from_end a.shape 1 ∧
      usub64 (from_end a.shape 1) (to_uint64 off) = from_end a.shape 1 - to_uint64 off) ∧
    (-(2 ^ 31) < offset →
      ((0 ≤ offset ∧ offset < (self.shape.getD a2 0 : Int)) ∨
        (offset < 0 ∧ -offset < (self.shape.getD a1 0 : Int))) →
      ∃ a size off,
        self.diag_helper_two_axes offset [(a1 : Int), (a2 : Int)]
          (((List.range self.dim).filter fun (ax : Nat) =>
            (ax : Int) ∉ [(a1 : Int), (a2 : Int)]).map Int.ofNat) rt =
          (.ok (a, size, off), rt)) ∧
    (∀ r rt1,
      self.diag_helper offset [(a1 : Int), (a2 : Int)] extract false type out rt =
        (.ok r, rt1) →
      ∃ size : Nat, r.shape.getLast? = some size ∧
        (0 ≤ offset →
          (size : Int) =
            min (self.shape.getD a1 0 : Int) ((self.shape.getD a2 0 : Int) - offset)) ∧
        (offset < 0 →
          (size : Int) =
            min (self.shape.getD a2 0 : Int) ((self.shape.getD a1 0 : Int) + offset))) ∧
    (((0 ≤ offset ∧ (self.shape.getD a2 0 : Int) ≤ offset) ∨
        (offset < 0 ∧ (self.shape.getD a1 0 : Int) ≤ -offset)) →
      ∃ e rt1,
        self.diag_helper offset [(a1 : Int), (a2 : Int)] extract trace type out rt =
          (.error e, rt1) ∧
        e.kind = .invalid_argument ∧ rt1.log = rt.log) := by
  have hdim : self.dim ≠ 1 := by omega
  have key : ∀ (T : List Int) (rt2 : Runtime) a size off rt1,
      self.diag_helper_two_axes offset [(a1 : Int), (a2 : Int)] T rt2 =
        (.ok (a, size, off), rt1) →
      (0 ≤ offset → offset < (self.shape.getD a2 0 : Int) ∧
        (size : Int) = min (self.shape.getD a1 0 : Int) ((self.shape.getD a2 0 : Int) - offset)) ∧
      (offset < 0 → -offset < (self.shape.getD a1 0 : Int) ∧
        (size : Int) = min (self.shape.getD a2 0 : Int) ((self.shape.getD a1 0 : Int) + offset)) ∧
      to_uint64 off ≤ from_end a.shape 1 ∧
      usub64 (from_end a.shape 1) (to_uint64 off) = from_end a.shape 1 - to_uint64 off := by
    intro T rt2 a size off rt1 h
    obtain ⟨-, -, -, -, -, -, hle, hsub, hp, hn⟩ :=
      diag_helper_two_axes_accepts self offset a1 a2 T rt2 a size off rt1 hoff hext hdim h
    simp only [Int.toNat_ofNat] at hp hn
    refine ⟨?_, ?_, hle, hsub⟩
    · intro h0
      obtain ⟨-, -, -, hlt, hsize⟩ := hp h0
      refine ⟨by omega, ?_⟩
      rw [hsize]
      omega
    · intro h0
      obtain ⟨-, -, -, hlt, hsize⟩ := hn h0
      refine ⟨by omega, ?_⟩
      rw [hsize]
      omega
  refine ⟨fun a size off rt1 h => key _ rt a size off rt1 h, ?_, ?_, ?_⟩
  · intro hmin hsmall
    exact diag_helper_two_axes_accepts_small self offset a1 a2 rt ⟨hmin, hoff.2⟩ hext hrank
      ha1 ha2 hne hsmall
  · intro r rt1 h
    obtain ⟨-, a, size, off, rt2, rt3, hblk, hshape⟩ :=
      diag_helper_two_axes_result self offset a1 a2 extract type out rt r rt1 h
    obtain ⟨hp, hn, -, -⟩ := key _ rt2 a size off rt3 hblk
    refine ⟨size, by rw [hshape]; simp, fun h0 => (hp h0).2, fun h0 => (hn h0).2⟩
  · intro hbig
    exact diag_helper_rejects self offset a1 a2 extract trace type out rt hoff hext
      (by simpa using hbig)

theorem diag_helper_diagonal_length_witness :
    ((NDArray.ofShape 1 [3, 4] DType.int64).diag_helper (-1) [0, 1] true false none none
      sampleRuntime).1.map NDArray.shape = .ok [2] ∧
    ∃ (r : NDArray) (size : Nat),
      ((NDArray.ofShape 1 [3, 4] DType.int64).diag_helper (-1) [0, 1] true false none none
        sampleRuntime).1 = .ok r ∧
      r.shape.getLast? = some size ∧ (size : Int) = min 4 (3 + (-1)) := by
  have hev : ((NDArray.ofShape 1 [3, 4] DType.int64).diag_helper (-1) [0, 1] true false none
      none sampleRuntime).1.map NDArray.shape = .ok [2] := rfl
  refine ⟨hev, ?_⟩
  rcases h : (NDArray.ofShape 1 [3, 4] DType.int64).diag_helper (-1) [0, 1] true false none
      none sampleRuntime with ⟨r, rt1⟩
  cases r with
  | error e =>
    rw [h] at hev
    cases hev
  | ok r =>
    obtain ⟨size, h1, -, h2⟩ := (diag_helper_diagonal_length
      (NDArray.ofShape 1 [3, 4] DType.int64) (-1) 0 1 true false none none sampleRuntime
      (by decide) (by decide) (by decide) (by decide) (by decide) (by decide)).2.2.1 r rt1 h
    exact ⟨r, size, rfl, h1, h2 (by decide)⟩

/-! ## Properties of `NDArray::wrap_indices` -/

/-- C28: for the `int64` index `-1` and `n = 5` the element that `wrap_indices`
computes, the `MOD` functor applied to `(-1, 5)`, is `-1`, which is outside
`[0, 5)`; `wrap_indices` submits a `CUNUMERIC_BINARY_OP` task with the
operation code `MOD` and nothing else that would bring the result into
range. -/
theorem wrap_indices_negative_index :
    (0 : Int) < 5 ∧ LegateTypeCode.INT64_LT.holds (-1) = true ∧
    NDArray.wrap_indices_element (-1) 5 = some (-1) ∧
    MOD_integral .INT64_LT (-1) 5 = some (-1) ∧
    ¬ ((0 : Int) ≤ -1 ∧ (-1 : Int) < 5) ∧
    (((NDArray.ofShape 1 [3] DType.int64).wrap_indices (.int64 5) sampleRuntime).2.log.filterMap
      fun e =>
        match e with
        | .submit t => some (t.task_id, t.scalar_args)
        | _ => none) =
      [(.CUNUMERIC_BINARY_OP, [.int32 sampleRuntime.build.BinaryOpCode_MOD])] := by
  refine ⟨by decide, by decide, by decide, by decide, by decide, rfl⟩

/-- The element `wrap_indices` computes is the truncating remainder. -/
theorem wrap_indices_element_eq (i n : Int) (hn : 0 < n) (hn64 : n < 2 ^ 63)
    (hi : -(2 ^ 63) ≤ i ∧ i < 2 ^ 63) :
    NDArray.wrap_indices_element i n = some (Int.tmod i n) := by
  have hti : LegateTypeCode.INT64_LT.isIntegral = true := rfl
  have hhi : LegateTypeCode.INT64_LT.holds i = true := by
    simp [LegateTypeCode.holds, LegateTypeCode.minVal, LegateTypeCode.maxVal]; omega
  have hhn : LegateTypeCode.INT64_LT.holds n = true := by
    simp [LegateTypeCode.holds, LegateTypeCode.minVal, LegateTypeCode.maxVal]; omega
  obtain ⟨hpos, hneg, hlo, hup⟩ := tmod_bounds_of_pos i n hn
  have hhr : LegateTypeCode.INT64_LT.holds (Int.tmod i n) = true := by
    simp [LegateTypeCode.holds, LegateTypeCode.minVal, LegateTypeCode.maxVal]; omega
  have hd := cdiv_defined .INT64_LT i n hti hhi hhn (by omega) (by omega)
  simp [NDArray.wrap_indices_element, cmod, MOD_integral, hd,
    narrow_of_holds .INT64_LT _ hti hhr]

/-- A call of `broadcast(shape, store)` leaves the runtime alone and returns
the store under the view that `broadcast` computes in the build at hand. -/
theorem broadcast_to_eq (shape : List Nat) (store : Store) (rt : Runtime) (r : LogicalStore)
    (h : broadcast rt.build.debug_cunumeric shape store.view = .ok r) :
    NDArray.broadcast_to shape store rt = (.ok { store with view := r }, rt) := by
  simp [NDArray.broadcast_to, bind, M.andThen, M.runtime, Store.withView, h, M.ofStore,
    Except.map, M.ret]

/-- C28 (amended): for an `int64` index array that is not empty, `wrap_indices(n)`
creates an output of the shape of the indices, fills a 0-d array with `n` and
submits one `CUNUMERIC_BINARY_OP` task with the operation code `MOD`, the
output, and as inputs the indices and the 0-d array broadcast to their shape;
and for `0 < n` and every `int64` index `i` the element computed for `i`, the
`MOD` functor applied to `(i, n)`, is the truncating remainder: it lies in
`(-n, n)`, is not negative for `i ≥ 0` and not positive for `i < 0`, and lies
in `[0, n)` exactly when `i ≥ 0` or `n` divides `i`. -/
theorem wrap_indices_truncating (self : NDArray) (n i : Int) (rt : Runtime)
    (htype : self.type = DType.int64) (hsize : self.size ≠ 0)
    (hn : 0 < n) (hn64 : n < 2 ^ 63) (hi : -(2 ^ 63) ≤ i ∧ i < 2 ^ 63) :
    (∃ (out : NDArray) (d s1 s2 : Store) (t : Task) (rt1 : Runtime),
      self.wrap_indices (.int64 n) rt = (.ok out, rt1) ∧
      out.shape = self.shape ∧ out.type = self.type ∧
      rt1.log = rt.log ++ [.issue_fill d (.int64 n), .submit t] ∧
      d.view.extents = [] ∧
      t.task_id = .CUNUMERIC_BINARY_OP ∧
      t.scalar_args = [.int32 rt.build.BinaryOpCode_MOD] ∧
      t.outputs = [(out.store_, ⟨0⟩)] ∧
      t.inputs = [(s1, ⟨1⟩), (s2, ⟨2⟩)] ∧
      s1.view.backing = self.store_.view.backing ∧ s1.view.extents = self.shape ∧
      s2.view.backing = d.view.backing ∧ s2.view.extents = self.shape) ∧
    (∃ r, NDArray.wrap_indices_element i n = some r ∧ r = Int.tmod i n ∧
      -n < r ∧ r < n ∧ (0 ≤ i → 0 ≤ r) ∧ (i < 0 → r ≤ 0) ∧
      ((0 ≤ r ∧ r < n) ↔ (0 ≤ i ∨ n ∣ i))) := by
  constructor
  · have hext : ∀ b, (LogicalStore.ofShape b self.store_.view.extents).extents =
        self.store_.view.extents := fun b => ofShape_extents b _
    have hlen : self.store_.view.extents.length = self.store_.view.dim := by
      simp [LogicalStore.extents, LogicalStore.dim]
    obtain ⟨r1, hr1, hb1, -, he1, -⟩ := broadcast_compatible rt.build.debug_cunumeric
      self.store_.view.extents self.store_.view (by rw [hlen])
      (by intro j _; left; rw [hlen]; simp)
    obtain ⟨r2, hr2, hb2, -, he2, -⟩ := broadcast_compatible rt.build.debug_cunumeric
      self.store_.view.extents (LogicalStore.ofShape (rt.next_store + 1) [])
      (by simp [LogicalStore.dim, LogicalStore.ofShape])
      (by intro j hj; simp [LogicalStore.dim, LogicalStore.ofShape] at hj)
    have hsz : (LogicalStore.ofShape rt.next_store self.store_.view.extents).volume ≠ 0 := by
      rw [LogicalStore.volume, hext]; exact hsize
    have hv : (LogicalStore.ofShape (rt.next_store + 1) []).volume ≠ 0 := by
      simp [LogicalStore.volume, LogicalStore.ofShape, LogicalStore.extents]
    have htr : ∀ (ty : DType) (sc : Bool),
        ({ view := LogicalStore.ofShape (rt.next_store + 1) [], type := ty, unbound := false,
           scalar := sc, value := none } : Store).transformed = false := by
      intro ty sc; rfl
    have ht2 : self.store_.type = DType.prim .INT64_LT := htype
    generalize hX : self.wrap_indices (.int64 n) rt = X
    simp only [NDArray.wrap_indices, bind, M.andThen, create_array, full, NDArray.fill,
      NDArray.size, Scalar.type, hv, if_false, htr, Bool.not_false, if_true, issue_fill, pure,
      M.ret, M.runtime, NDArray.binary_op, NDArray.type, hsz, create_task, NDArray.shape,
      ne_eq, ht2, not_true_eq_false, hext, NDArray.broadcast_to, Store.withView, hr1, hr2,
      M.ofStore, Except.map, submit, Task.add_output, Task.add_input, Task.declare_partition,
      Task.add_output_at, Task.add_input_at, Task.add_scalar_arg, Task.add_constraint] at hX
    subst hX
    refine ⟨_, _, _, _, _, _, rfl, hext _, ht2.symm, List.append_assoc _ _ _, rfl, rfl, rfl,
      rfl, rfl, hb1, he1, hb2, he2⟩
  · obtain ⟨hpos, hneg, hlo, hup⟩ := tmod_bounds_of_pos i n hn
    refine ⟨_, wrap_indices_element_eq i n hn hn64 hi, rfl, hlo, hup, ?_, ?_, ?_⟩
    · intro h; exact (hpos h).1
    · intro h; exact (hneg h.le).2
    · constructor
      · rintro ⟨h0, -⟩
        by_contra hcon
        push_neg at hcon
        have h1 := (hneg hcon.1.le).2
        have h2 : Int.tmod i n = 0 := le_antisymm h1 h0
        exact hcon.2 (Int.dvd_of_tmod_eq_zero h2)
      · rintro (h | h)
        · exact ⟨(hpos h).1, hup⟩
        · rw [Int.tmod_eq_zero_of_dvd h]; exact ⟨le_rfl, hn⟩

/-- The index `-7` and `n = 5` on an array of three indices. -/
theorem wrap_indices_truncating_witness :
    ∃ r, NDArray.wrap_indices_element (-7) 5 = some r ∧ r = Int.tmod (-7) 5 ∧
      -5 < r ∧ r < 5 ∧ (0 ≤ (-7 : Int) → 0 ≤ r) ∧ ((-7 : Int) < 0 → r ≤ 0) ∧
      ((0 ≤ r ∧ r < 5) ↔ (0 ≤ (-7 : Int) ∨ (5 : Int) ∣ -7)) :=
  (wrap_indices_truncating (NDArray.ofShape 1 [3] DType.int64) 5 (-7) sampleRuntime rfl
    (by decide) (by decide) (by decide) (by decide)).2

end cunumeric
